import Mathlib

/-!
# tday: the controller state machine of `src/tday.c`

A shallow embedding of the interactive loop of `main` in `src/tday.c`:
the two text buffers, the ten-entry page, the selection, and the
keystroke dispatch.  C `int` variables are `Int`; C arrays are lists whose
length is the declared array length, and every array access goes through
`rd` / `wr`, which fail on an index outside the array.  A failed access
makes the enclosing operation end in `Outcome.fault` (the C program has
undefined behaviour there).  Calls into the SQLite store are recorded as a
list of `StoreCall`s; their return codes are ignored by `main`, so they do
not influence the next state.  The schema initialization and the query behind
the page are embedded from the SQL text of the source, on a database given as
its user-version, the columns of table `entries` and its rows.
-/

namespace Tday

/-! ## Constants and data -/

/-- The constant `MAX_ENTRIES_IN_VIEW` (line 65). -/
def MAX_ENTRIES_IN_VIEW : Int := 10

/-- The constant `MAX_STRING_LENGTH` (line 66). -/
def MAX_STRING_LENGTH : Int := 64

/-- The result code `SQLITE_DONE` of `sqlite3_step`. -/
def SQLITE_DONE : Int := 101

/-- The enumeration `current_view_t` (line 68). -/
inductive CurrentView where
  | LIST_VIEW
  | NEW_ENTRY_VIEW
  | EDIT_ENTRY_VIEW
deriving DecidableEq, Repr

/-- The struct `entry_t` (lines 70-75); `description` is a `char[64]`. -/
structure Entry where
  id : Int
  completed : Int
  ignored : Int
  description : List Nat
deriving DecidableEq, Repr

/-- A text buffer together with its size and cursor: the triple that the
pointers `buf`, `buf_size`, `buf_cursor` of `main` designate. -/
structure TextBuf where
  buf : List Nat
  buf_size : Int
  buf_cursor : Int
deriving DecidableEq, Repr

/-- Which of the two buffers the pointer `buf` aliases. -/
inductive ActiveBuf where
  | new_entry
  | edit_entry
deriving DecidableEq, Repr

/-- The three bytes of `input_handle_buf` after one `read` (bytes that were
not read are zero, the array being zeroed after every dispatch). -/
structure Input where
  c0 : Nat
  c1 : Nat
  c2 : Nat
deriving DecidableEq, Repr

/-- A call into the store made by the controller, with the arguments that
the C function binds: `new_entry(description)`, `update_entry(entry)`,
`delete_entry(entry)` and the step of `clear_completed_entries_stmt`.
Descriptions are the bytes of the C string (up to the first NUL). -/
inductive StoreCall where
  | new_entry (description : List Nat)
  | update_entry (description : List Nat) (completed ignored id : Int)
  | delete_entry (id : Int)
  | clear_completed_entries
deriving DecidableEq, Repr

/-- The local variables of `main` that live across loop iterations. -/
structure State where
  current_view : CurrentView
  entries : List Entry
  entries_sz : Int
  entries_in_view : Int
  current_selection : Int
  new_entry_buf : TextBuf
  edit_entry_buf : TextBuf
  should_reload_entries : Bool
deriving DecidableEq, Repr

/-- What one dispatch of a keystroke produces: the next state with the store
calls made, the end of the program (`return_defer`), or an access outside an
array. -/
inductive Outcome where
  | next (s : State) (calls : List StoreCall)
  | quit (result : Int)
  | fault
deriving DecidableEq, Repr

/-! ## Array accesses -/

/-- Read `a[i]`; fails when `i` is outside the array. -/
def rd {α : Type} (a : List α) (i : Int) : Option α :=
  if 0 ≤ i then a[i.toNat]? else none

/-- Write `a[i] = v`; fails when `i` is outside the array. -/
def wr {α : Type} (a : List α) (i : Int) (v : α) : Option (List α) :=
  if 0 ≤ i ∧ i < (a.length : Int) then some (a.set i.toNat v) else none

/-- The loop of `zero_array(arr, n)` (lines 36-41), `k` iterations left,
the loop variable being `i`. -/
def zero_array_loop : Nat → Int → List Nat → Option (List Nat)
  | 0, _, arr => some arr
  | k + 1, i, arr =>
    match wr arr i 0 with
    | none => none
    | some arr1 => zero_array_loop k (i + 1) arr1

/-- The statement `zero_array(arr, n)`: `for (i = 0; i < n; i++) arr[i] = 0`. -/
def zero_array (arr : List Nat) (n : Int) : Option (List Nat) :=
  zero_array_loop n.toNat 0 arr

/-- The statement `zero_buf(buf, size, cursor)` (lines 43-48). -/
def zero_buf (b : TextBuf) : Option TextBuf :=
  match zero_array b.buf MAX_STRING_LENGTH with
  | none => none
  | some arr => some { buf := arr, buf_size := 0, buf_cursor := 0 }

/-- The C function `strlen` on a `char` array: the index of the first NUL;
fails when the array holds no NUL (the scan leaves the array). -/
def strlen : List Nat → Option Int
  | [] => none
  | c :: cs => if c = 0 then some 0 else (strlen cs).map (fun n => n + 1)

/-- The bytes of the C string stored in a `char` array, as SQLite reads them
for `sqlite3_bind_text(.., -1, ..)`: everything before the first NUL; fails
when the array holds no NUL. -/
def c_string : List Nat → Option (List Nat)
  | [] => none
  | c :: cs => if c = 0 then some [] else (c_string cs).map (fun r => c :: r)

/-! ## Store operations as seen by the controller -/

/-- The function `new_entry(description)` (lines 159-175): binds the C string. -/
def new_entry (description : List Nat) : Option StoreCall :=
  (c_string description).map StoreCall.new_entry

/-- The function `update_entry(entry)` (lines 177-209): binds description,
completed, ignored and id. -/
def update_entry (e : Entry) : Option StoreCall :=
  (c_string e.description).map
    (fun d => StoreCall.update_entry d e.completed e.ignored e.id)

/-- The function `delete_entry(entry)` (lines 211-228): binds the id. -/
def delete_entry (e : Entry) : StoreCall :=
  StoreCall.delete_entry e.id

/-! ## The active buffer -/

/-- The values of `buf` (with `buf_size`, `buf_cursor`) and `buf_noop` set by
the switch of lines 372-390. -/
structure BufPtr where
  buf : Option ActiveBuf
  buf_noop : Bool
deriving DecidableEq, Repr

/-- The switch of lines 372-390.  `case LIST_VIEW:` assigns `buf = NULL`,
`buf_noop = 1` and has no `break`, so control falls through into
`case NEW_ENTRY_VIEW:`, whose assignments overwrite both. -/
def select_buf : CurrentView → BufPtr
  | CurrentView.LIST_VIEW =>
    let _list_view : BufPtr := { buf := none, buf_noop := true }
    { buf := some ActiveBuf.new_entry, buf_noop := false }
  | CurrentView.NEW_ENTRY_VIEW => { buf := some ActiveBuf.new_entry, buf_noop := false }
  | CurrentView.EDIT_ENTRY_VIEW => { buf := some ActiveBuf.edit_entry, buf_noop := false }

/-- The buffer a pointer value designates. -/
def get_buf (s : State) : ActiveBuf → TextBuf
  | ActiveBuf.new_entry => s.new_entry_buf
  | ActiveBuf.edit_entry => s.edit_entry_buf

/-- Store through a pointer value. -/
def set_buf (s : State) (a : ActiveBuf) (b : TextBuf) : State :=
  match a with
  | ActiveBuf.new_entry => { s with new_entry_buf := b }
  | ActiveBuf.edit_entry => { s with edit_entry_buf := b }

/-- Run `f` on the buffer behind the pointer `buf`; a NULL pointer cannot be
dereferenced. -/
def with_buf (s : State) (f : ActiveBuf → TextBuf → Outcome) : Outcome :=
  match (select_buf s.current_view).buf with
  | none => Outcome.fault
  | some a => f a (get_buf s a)

/-! ## Text editing -/

/-- The loop of lines 593-595, `for (i = size; i > cursor; i--) buf[i] = buf[i - 1]`,
with `k` iterations left and loop variable `i`. -/
def shift_right_loop : Nat → Int → List Nat → Option (List Nat)
  | 0, _, buf => some buf
  | k + 1, i, buf =>
    match rd buf (i - 1) with
    | none => none
    | some v =>
      match wr buf i v with
      | none => none
      | some buf1 => shift_right_loop k (i - 1) buf1

/-- The loop of lines 495-497, `for (i = cursor; i < size; i++) buf[i] = buf[i + 1]`,
with `k` iterations left and loop variable `i`. -/
def shift_left_loop : Nat → Int → List Nat → Option (List Nat)
  | 0, _, buf => some buf
  | k + 1, i, buf =>
    match rd buf (i + 1) with
    | none => none
    | some v =>
      match wr buf i v with
      | none => none
      | some buf1 => shift_left_loop k (i + 1) buf1

/-- The label `treat_as_char` (lines 583-599) with the byte `ch`. -/
def treat_as_char (s : State) (ch : Nat) : Outcome :=
  match s.current_view with
  | CurrentView.LIST_VIEW => Outcome.next s []
  | _ =>
    with_buf s fun a b =>
      if b.buf_size + 1 > MAX_STRING_LENGTH then Outcome.next s []
      else
        let size := b.buf_size + 1
        match shift_right_loop (size - b.buf_cursor).toNat size b.buf with
        | none => Outcome.fault
        | some buf1 =>
          match wr buf1 b.buf_cursor ch with
          | none => Outcome.fault
          | some buf2 =>
            Outcome.next
              (set_buf s a { buf := buf2, buf_size := size, buf_cursor := b.buf_cursor + 1 }) []

/-- The case `127` (lines 491-501). -/
def key_delete (s : State) : Outcome :=
  if (select_buf s.current_view).buf_noop then Outcome.next s []
  else
    with_buf s fun a b =>
      if b.buf_size > 0 ∧ b.buf_cursor > 0 then
        let cursor := b.buf_cursor - 1
        match shift_left_loop (b.buf_size - cursor).toNat cursor b.buf with
        | none => Outcome.fault
        | some buf1 =>
          Outcome.next
            (set_buf s a { buf := buf1, buf_size := b.buf_size - 1, buf_cursor := cursor }) []
      else Outcome.next s []

/-- The case `C`, right arrow (lines 543-550). -/
def key_right (s : State) : Outcome :=
  if (select_buf s.current_view).buf_noop then Outcome.next s []
  else
    with_buf s fun a b =>
      let cursor := b.buf_cursor + 1
      let cursor := if cursor > b.buf_size then b.buf_size else cursor
      Outcome.next (set_buf s a { b with buf_cursor := cursor }) []

/-- The case `D`, left arrow (lines 551-558). -/
def key_left (s : State) : Outcome :=
  if (select_buf s.current_view).buf_noop then Outcome.next s []
  else
    with_buf s fun a b =>
      let cursor := b.buf_cursor - 1
      let cursor := if cursor < 0 then 0 else cursor
      Outcome.next (set_buf s a { b with buf_cursor := cursor }) []

/-! ## Selection -/

/-- The expression `MAX_SELECTION` (line 64). -/
def MAX_SELECTION (s : State) : Int := s.entries_in_view - 1

/-- Selection up, the body of lines 503-507 and 528-533. -/
def selection_up (s : State) : State :=
  let sel := s.current_selection - 1
  let sel := if sel < 0 then MAX_SELECTION s else sel
  { s with current_selection := sel }

/-- Selection down, the body of lines 513-517 and 536-541. -/
def selection_down (s : State) : State :=
  let sel := s.current_selection + 1
  let sel := if sel > MAX_SELECTION s then 0 else sel
  { s with current_selection := sel }

/-! ## Commands -/

/-- The loop of lines 413-415, `for (; i < size; i++) description[i] = buf[i]`,
with `k` iterations left and loop variable `i`. -/
def copy_loop : Nat → Int → List Nat → List Nat → Option (List Nat)
  | 0, _, _, dst => some dst
  | k + 1, i, src, dst =>
    match rd src i with
    | none => none
    | some v =>
      match wr dst i v with
      | none => none
      | some dst1 => copy_loop k (i + 1) src dst1

/-- The case Enter in `LIST_VIEW` (lines 397-401). -/
def key_enter_list (s : State) : Outcome :=
  match rd s.entries s.current_selection with
  | none => Outcome.fault
  | some e =>
    let e1 : Entry := { e with completed := if e.completed ≠ 0 then 0 else 1 }
    match wr s.entries s.current_selection e1 with
    | none => Outcome.fault
    | some entries1 =>
      match update_entry e1 with
      | none => Outcome.fault
      | some call =>
        Outcome.next { s with entries := entries1, should_reload_entries := true } [call]

/-- The case Enter in `NEW_ENTRY_VIEW` (lines 402-407). -/
def key_enter_new (s : State) : Outcome :=
  with_buf s fun a b =>
    match new_entry b.buf with
    | none => Outcome.fault
    | some call =>
      match zero_buf b with
      | none => Outcome.fault
      | some b1 =>
        Outcome.next
          { set_buf s a b1 with
            current_view := CurrentView.LIST_VIEW, should_reload_entries := true } [call]

/-- The case Enter in `EDIT_ENTRY_VIEW` (lines 408-422). -/
def key_enter_edit (s : State) : Outcome :=
  with_buf s fun a b =>
    if b.buf_size = 0 then Outcome.next s []
    else
      match rd s.entries s.current_selection with
      | none => Outcome.fault
      | some e =>
        match copy_loop b.buf_size.toNat 0 b.buf e.description with
        | none => Outcome.fault
        | some d1 =>
          match wr d1 b.buf_size 0 with
          | none => Outcome.fault
          | some d2 =>
            let e1 : Entry := { e with description := d2 }
            match wr s.entries s.current_selection e1 with
            | none => Outcome.fault
            | some entries1 =>
              match update_entry e1 with
              | none => Outcome.fault
              | some call =>
                match zero_buf b with
                | none => Outcome.fault
                | some b1 =>
                  Outcome.next
                    { set_buf { s with entries := entries1 } a b1 with
                      should_reload_entries := true,
                      current_view := CurrentView.LIST_VIEW } [call]

/-- The case Enter (lines 395-424). -/
def key_enter (s : State) : Outcome :=
  match s.current_view with
  | CurrentView.LIST_VIEW => key_enter_list s
  | CurrentView.NEW_ENTRY_VIEW => key_enter_new s
  | CurrentView.EDIT_ENTRY_VIEW => key_enter_edit s

/-- The case `e` (lines 425-443). -/
def key_e (s : State) : Outcome :=
  match s.current_view with
  | CurrentView.LIST_VIEW =>
    if s.entries_in_view > 0 then
      match rd s.entries s.current_selection with
      | none => Outcome.fault
      | some e =>
        match strlen e.description with
        | none => Outcome.fault
        | some len =>
          match copy_loop len.toNat 0 e.description s.edit_entry_buf.buf with
          | none => Outcome.fault
          | some buf1 =>
            match strlen buf1 with
            | none => Outcome.fault
            | some size =>
              Outcome.next
                { s with
                  edit_entry_buf := { buf := buf1, buf_size := size, buf_cursor := size },
                  current_view := CurrentView.EDIT_ENTRY_VIEW } []
    else Outcome.next s []
  | _ => treat_as_char s 101

/-- The case `d` (lines 444-458). -/
def key_d (s : State) : Outcome :=
  match s.current_view with
  | CurrentView.LIST_VIEW =>
    match rd s.entries s.current_selection with
    | none => Outcome.fault
    | some e =>
      let sel := s.current_selection - 1
      let sel := if sel < 0 then 0 else sel
      Outcome.next { s with should_reload_entries := true, current_selection := sel }
        [delete_entry e]
  | _ => treat_as_char s 100

/-- The case `x` (lines 459-470). -/
def key_x (s : State) : Outcome :=
  match s.current_view with
  | CurrentView.LIST_VIEW =>
    Outcome.next { s with should_reload_entries := true } [StoreCall.clear_completed_entries]
  | _ => treat_as_char s 120

/-- The case `n` (lines 471-480). -/
def key_n (s : State) : Outcome :=
  match s.current_view with
  | CurrentView.LIST_VIEW =>
    Outcome.next { s with current_view := CurrentView.NEW_ENTRY_VIEW } []
  | _ => treat_as_char s 110

/-- The case `q` (lines 481-490). -/
def key_q (s : State) : Outcome :=
  match s.current_view with
  | CurrentView.LIST_VIEW => Outcome.quit 0
  | _ => treat_as_char s 113

/-- The case `k` (lines 502-511). -/
def key_k (s : State) : Outcome :=
  if s.current_view = CurrentView.LIST_VIEW then Outcome.next (selection_up s) []
  else treat_as_char s 107

/-- The case `j` (lines 512-521). -/
def key_j (s : State) : Outcome :=
  if s.current_view = CurrentView.LIST_VIEW then Outcome.next (selection_down s) []
  else treat_as_char s 106

/-- The bare escape key (lines 563-579). -/
def key_escape (s : State) : Outcome :=
  match s.current_view with
  | CurrentView.LIST_VIEW => Outcome.quit 0
  | CurrentView.NEW_ENTRY_VIEW =>
    Outcome.next { s with current_view := CurrentView.LIST_VIEW } []
  | CurrentView.EDIT_ENTRY_VIEW =>
    with_buf s fun a b =>
      match zero_buf b with
      | none => Outcome.fault
      | some b1 =>
        Outcome.next (set_buf { s with current_view := CurrentView.LIST_VIEW } a b1) []

/-- The case `27` (lines 522-581): an arrow sequence, the bare escape key, or
an escape followed by something else. -/
def key_27 (s : State) (inp : Input) : Outcome :=
  if inp.c1 = 91 then
    if inp.c2 = 65 then
      if s.current_view = CurrentView.LIST_VIEW then Outcome.next (selection_up s) []
      else Outcome.next s []
    else if inp.c2 = 66 then
      if s.current_view = CurrentView.LIST_VIEW then Outcome.next (selection_down s) []
      else Outcome.next s []
    else if inp.c2 = 67 then key_right s
    else if inp.c2 = 68 then key_left s
    else Outcome.next s []
  else if inp.c1 = 0 then key_escape s
  else Outcome.next s []

/-- The dispatch `switch (ch)` of lines 393-600 on the bytes read. -/
def step (s : State) (inp : Input) : Outcome :=
  let ch := inp.c0
  if ch = 10 then key_enter s
  else if ch = 101 then key_e s
  else if ch = 100 then key_d s
  else if ch = 120 then key_x s
  else if ch = 110 then key_n s
  else if ch = 113 then key_q s
  else if ch = 127 then key_delete s
  else if ch = 107 then key_k s
  else if ch = 106 then key_j s
  else if ch = 27 then key_27 s inp
  else treat_as_char s ch

/-! ## Reloading the page -/

/-- A row delivered by `get_entries_stmt`: the columns `id`, `description`
(its bytes, `sqlite3_column_bytes` many) and `completed`. -/
structure Row where
  id : Int
  description : List Nat
  completed : Int
deriving DecidableEq, Repr

/-- What stepping `get_entries_stmt` delivers during one `load_entries`: the
rows for which `sqlite3_step` returned `SQLITE_ROW`, then the first other
result code. -/
structure LoadResult where
  rows : List Row
  final : Int
deriving DecidableEq, Repr

/-- The value `{0}` of an `entry_t`. -/
def zero_entry : Entry :=
  { id := 0, completed := 0, ignored := 0, description := List.replicate 64 0 }

/-- The body of the `while` loop of `load_entries` up to the store into
`entries` (lines 136-145): the entry built from one row. -/
def load_row (r : Row) : Option Entry :=
  let entry := zero_entry
  match copy_loop r.description.length 0 r.description entry.description with
  | none => none
  | some d1 =>
    match wr d1 (r.description.length : Int) 0 with
    | none => none
    | some d2 => some { entry with id := r.id, description := d2, completed := r.completed }

/-- The `while (result == SQLITE_ROW)` loop of `load_entries` (lines 135-148)
over the rows delivered. -/
def load_entries_loop : List Row → List Entry → Int → Option (List Entry × Int)
  | [], entries, entries_sz => some (entries, entries_sz)
  | r :: rs, entries, entries_sz =>
    match load_row r with
    | none => none
    | some entry =>
      match wr entries entries_sz entry with
      | none => none
      | some entries1 => load_entries_loop rs entries1 (entries_sz + 1)

/-- The function `load_entries` (lines 132-157): the array, the count and the
returned result. -/
def load_entries (lr : LoadResult) (entries : List Entry) (entries_sz : Int) :
    Option (List Entry × Int × Int) :=
  match load_entries_loop lr.rows entries entries_sz with
  | none => none
  | some (entries1, sz1) =>
    some (entries1, sz1, if lr.final ≠ SQLITE_DONE then lr.final else 0)

/-- The inner loop of lines 287-289, `for (int i = 0; i < len; i++)
entries[i].description[i] = 0`, whose `i` shadows the outer one; `k` iterations
left. -/
def clear_description_loop : Nat → Int → List Entry → Option (List Entry)
  | 0, _, entries => some entries
  | k + 1, i, entries =>
    match rd entries i with
    | none => none
    | some e =>
      match wr e.description i 0 with
      | none => none
      | some d =>
        match wr entries i { e with description := d } with
        | none => none
        | some entries1 => clear_description_loop k (i + 1) entries1

/-- The outer loop of lines 282-291 over the previous page, `k` iterations
left and loop variable `i`. -/
def clear_entries_loop : Nat → Int → List Entry → Option (List Entry)
  | 0, _, entries => some entries
  | k + 1, i, entries =>
    match rd entries i with
    | none => none
    | some e =>
      match wr entries i { e with id := 0, completed := 0, ignored := 0 } with
      | none => none
      | some entries1 =>
        match strlen e.description with
        | none => none
        | some len =>
          match clear_description_loop len.toNat 0 entries1 with
          | none => none
          | some entries2 =>
            match rd entries2 i with
            | none => none
            | some e2 =>
              match wr e2.description 0 0 with
              | none => none
              | some d =>
                match wr entries2 i { e2 with description := d } with
                | none => none
                | some entries3 => clear_entries_loop k (i + 1) entries3

/-- The reload of lines 281-296, given what the store delivers. -/
def reload_entries (s : State) (lr : LoadResult) : Option State :=
  match clear_entries_loop s.entries_sz.toNat 0 s.entries with
  | none => none
  | some entries1 =>
    match load_entries lr entries1 0 with
    | none => none
    | some (entries2, sz, _) =>
      some { s with
        entries := entries2,
        entries_sz := sz,
        entries_in_view := if sz > MAX_ENTRIES_IN_VIEW then MAX_ENTRIES_IN_VIEW else sz,
        should_reload_entries := false }

/-! ## The main loop -/

/-- The state of `main` on entering the loop (lines 231-279). -/
def initial_state : State :=
  { current_view := CurrentView.LIST_VIEW,
    entries := List.replicate 10 zero_entry,
    entries_sz := 0,
    entries_in_view := 0,
    current_selection := 0,
    new_entry_buf := { buf := List.replicate 64 0, buf_size := 0, buf_cursor := 0 },
    edit_entry_buf := { buf := List.replicate 64 0, buf_size := 0, buf_cursor := 0 },
    should_reload_entries := true }

/-- One iteration of `while (1)` (lines 280-605): the reload when the flag is
set, then the dispatch of the bytes read. -/
def iteration (s : State) (lr : LoadResult) (inp : Input) : Outcome :=
  if s.should_reload_entries then
    match reload_entries s lr with
    | none => Outcome.fault
    | some s1 => step s1 inp
  else step s inp

/-- Put the store calls made so far in front of those of a later outcome. -/
def prepend_calls (calls : List StoreCall) : Outcome → Outcome
  | Outcome.next s calls2 => Outcome.next s (calls ++ calls2)
  | o => o

/-- Several iterations in a row, collecting the store calls; each iteration
comes with what the store would deliver if the page were reloaded. -/
def run : State → List (LoadResult × Input) → Outcome
  | s, [] => Outcome.next s []
  | s, (lr, inp) :: rest =>
    match iteration s lr inp with
    | Outcome.next s1 calls => prepend_calls calls (run s1 rest)
    | o => o

/-- The states the loop can be in, at its top or right after the reload:
the initial state, a reload when the flag is set (of a page the condition `P`
admits), and a dispatch when the flag is clear, none of them leaving an
array. -/
inductive ReachableWhen (P : State → LoadResult → Prop) : State → Prop where
  | init : ReachableWhen P initial_state
  | reload (s : State) (lr : LoadResult) (s1 : State) :
      ReachableWhen P s → s.should_reload_entries = true → P s lr →
      reload_entries s lr = some s1 → ReachableWhen P s1
  | key (s : State) (inp : Input) (s1 : State) (calls : List StoreCall) :
      ReachableWhen P s → s.should_reload_entries = false →
      step s inp = Outcome.next s1 calls → ReachableWhen P s1

/-- The reachable states, the store delivering any page of at most ten rows. -/
def Reachable (s : State) : Prop :=
  ReachableWhen (fun _ lr => lr.rows.length ≤ 10) s

/-- A single byte read: the other two bytes of `input_handle_buf` are zero. -/
def key (c : Nat) : Input := { c0 := c, c1 := 0, c2 := 0 }

/-- The three-byte sequence `ESC [ c` of an arrow key. -/
def arrow (c : Nat) : Input := { c0 := 27, c1 := 91, c2 := c }

/-- A load that delivers no row and ends with `SQLITE_DONE`. -/
def no_rows : LoadResult := { rows := [], final := SQLITE_DONE }

/-- Keystrokes typed one per iteration, the store delivering `lr` whenever the
page is reloaded. -/
def typed (lr : LoadResult) (cs : List Nat) : List (LoadResult × Input) :=
  cs.map fun c => (lr, key c)

/-- The selection invariant of the page. -/
def SelectionInv (s : State) : Prop :=
  0 ≤ s.current_selection ∧ s.current_selection ≤ max 0 (s.entries_in_view - 1)

instance (s : State) : Decidable (SelectionInv s) := by
  unfold SelectionInv; infer_instance

/-- A page of three entries `a`, `b`, `c` shown in LIST view, selection 0. -/
def three_rows : LoadResult :=
  { rows := [{ id := 3, description := [99], completed := 0 },
             { id := 2, description := [98], completed := 0 },
             { id := 1, description := [97], completed := 0 }],
    final := SQLITE_DONE }

/-- The state after the first reload delivered `three_rows`. -/
def three_entries : State :=
  (reload_entries initial_state three_rows).getD initial_state

/-- The buffer the text-editing keys act on in the given state: the one
behind the pointer `buf` after the switch of lines 372-390. -/
def active_buf (s : State) : TextBuf :=
  match (select_buf s.current_view).buf with
  | some a => get_buf s a
  | none => s.new_entry_buf

/-- A state in NEW view whose buffer holds `ab` with the cursor after `a`,
followed by stale bytes. -/
def new_view_ab : State :=
  { initial_state with
    current_view := CurrentView.NEW_ENTRY_VIEW,
    should_reload_entries := false,
    new_entry_buf :=
      { buf := [97, 98, 0, 7] ++ List.replicate 60 0, buf_size := 2, buf_cursor := 1 } }

/-- A page of one entry `foo`. -/
def foo_row : LoadResult :=
  { rows := [{ id := 1, description := [102, 111, 111], completed := 0 }],
    final := SQLITE_DONE }

/-- The state after the first reload delivered `foo_row`. -/
def one_entry_foo : State :=
  (reload_entries initial_state foo_row).getD initial_state

/-- The state after `e`, Backspace, `x` on the page `foo_row`: EDIT view with
`fox` in `edit_entry_buf`. -/
def editing_fox : State :=
  match run one_entry_foo (typed foo_row [101, 127, 120]) with
  | Outcome.next s _ => s
  | _ => initial_state

/-- The buffer that `zero_buf` leaves, which is also how both buffers start. -/
def empty_buf : TextBuf :=
  { buf := List.replicate 64 0, buf_size := 0, buf_cursor := 0 }

/-- An entry whose description is a 64-byte array holding a NUL. -/
def EntryOK (e : Entry) : Prop :=
  e.description.length = 64 ∧ 0 ∈ e.description

/-- A text buffer within its bounds: a 64-byte array with
`0 ≤ cursor ≤ size ≤ 63` and NUL bytes from index `size` on. -/
def BufOK (b : TextBuf) : Prop :=
  b.buf.length = 64 ∧ 0 ≤ b.buf_cursor ∧ b.buf_cursor ≤ b.buf_size ∧ b.buf_size ≤ 63 ∧
    ∀ j, b.buf_size.toNat ≤ j → j < 64 → b.buf[j]? = some 0

/-- The shape of the state that every reachable state has: ten entries with
NUL-terminated descriptions, both buffers within bounds, and `edit_entry_buf`
empty outside EDIT view. -/
def WellFormed (s : State) : Prop :=
  s.entries.length = 10 ∧ (∀ e ∈ s.entries, EntryOK e) ∧
    BufOK s.new_entry_buf ∧ BufOK s.edit_entry_buf ∧
    (s.current_view ≠ CurrentView.EDIT_ENTRY_VIEW → s.edit_entry_buf = empty_buf)

/-- What a dispatch does to the page: its size and count stay, and the
selection stays or makes one of the moves of `k`, `j` and `d`. -/
def PageFrame (s s1 : State) : Prop :=
  s1.entries_in_view = s.entries_in_view ∧ s1.entries_sz = s.entries_sz ∧
    (s1.current_selection = s.current_selection ∨
      s1.current_selection = (selection_up s).current_selection ∨
      s1.current_selection = (selection_down s).current_selection ∨
      s1.current_selection =
        (if s.current_selection - 1 < 0 then 0 else s.current_selection - 1))

/-- A page of two completed entries `b`, `a`. -/
def two_done_rows : LoadResult :=
  { rows := [{ id := 2, description := [98], completed := 1 },
             { id := 1, description := [97], completed := 1 }],
    final := SQLITE_DONE }

/-- The reloads that keep the selection on the page: at most ten rows, and
more rows than the current selection unless the selection is 0. -/
def KeepsSelection (s : State) (lr : LoadResult) : Prop :=
  lr.rows.length ≤ 10 ∧
    (s.current_selection < (lr.rows.length : Int) ∨ s.current_selection = 0)

instance (s : State) (lr : LoadResult) : Decidable (KeepsSelection s lr) := by
  unfold KeepsSelection; infer_instance

/-- The keystrokes that move the selection up: `k` (line 502) and the
sequence `ESC [ A` (line 528). -/
def is_up (inp : Input) : Prop :=
  inp.c0 = 107 ∨ (inp.c0 = 27 ∧ inp.c1 = 91 ∧ inp.c2 = 65)

instance (inp : Input) : Decidable (is_up inp) := by
  unfold is_up; infer_instance

/-- Selection up in LIST view while the page is empty. -/
def up_on_empty_page (s : State) (inp : Input) : Prop :=
  s.current_view = CurrentView.LIST_VIEW ∧ s.entries_in_view = 0 ∧ is_up inp

instance (s : State) (inp : Input) : Decidable (up_on_empty_page s inp) := by
  unfold up_on_empty_page; infer_instance

/-- The states the loop can be in when every reload is of a page that `P`
admits and every keystroke dispatched is one that `K` admits. -/
inductive ReachableUnder (P : State → LoadResult → Prop) (K : State → Input → Prop) :
    State → Prop where
  | init : ReachableUnder P K initial_state
  | reload (s : State) (lr : LoadResult) (s1 : State) :
      ReachableUnder P K s → s.should_reload_entries = true → P s lr →
      reload_entries s lr = some s1 → ReachableUnder P K s1
  | key (s : State) (inp : Input) (s1 : State) (calls : List StoreCall) :
      ReachableUnder P K s → s.should_reload_entries = false → K s inp →
      step s inp = Outcome.next s1 calls → ReachableUnder P K s1

/-- The state after `e`, `x`, bare ESC on the page `foo_row`: back in LIST view
after an abandoned EDIT visit. -/
def after_edit_visit : State :=
  match run one_entry_foo (typed foo_row [101, 120, 27]) with
  | Outcome.next s _ => s
  | _ => initial_state

/-- The state after `n`, `a`, bare ESC on a fresh database: LIST view with `a`
kept in `new_entry_buf`. -/
def list_view_keeping_a : State :=
  match run initial_state (typed no_rows [110, 97, 27]) with
  | Outcome.next s _ => s
  | _ => initial_state

/-- The state after `n`, `a` on a fresh database: NEW view with `a` typed. -/
def new_view_a : State :=
  match run initial_state (typed no_rows [110, 97]) with
  | Outcome.next s _ => s
  | _ => initial_state

/-! ## Schema initialization (lines 240-250) -/

/-- The result code `SQLITE_OK`. -/
def SQLITE_OK : Int := 0

/-- The result code `SQLITE_ERROR`. -/
def SQLITE_ERROR : Int := 1

/-- The columns that the statements of `src/tday.c` give to table `entries`. -/
inductive Column where
  | id
  | description
  | completed
  | ignored
  | updated_at
deriving DecidableEq, Repr

/-- The part of the database file that the initialization reads and writes:
the user-version counter and the columns of table `entries` (`none` while the
table does not exist). -/
structure Database where
  user_version : Int
  entries : Option (List Column)
deriving DecidableEq, Repr

/-- The database that `sqlite3_open` creates when the file is absent. -/
def fresh_database : Database := { user_version := 0, entries := none }

/-- The statements that the initialization executes. -/
inductive InitStmt where
  | create_table_entries
  | begin_transaction
  | migrate_table_entries_v1
  | db_version_to_1
  | end_transaction
deriving DecidableEq, Repr

/-- The statement `create_table_entries_sql` (lines 77-83): `CREATE TABLE IF NOT
EXISTS entries(id, description, completed, ignored)`. -/
def create_table_entries (db : Database) : Int × Database :=
  match db.entries with
  | some _ => (SQLITE_OK, db)
  | none =>
    let cols := [Column.id, Column.description, Column.completed, Column.ignored]
    (SQLITE_OK, { db with entries := some cols })

/-- The statement `migrate_table_entries_v1_sql` (line 85): `ALTER TABLE entries
ADD COLUMN updated_at INTEGER`, an error when the table is missing or has the
column already. -/
def migrate_table_entries_v1 (db : Database) : Int × Database :=
  match db.entries with
  | none => (SQLITE_ERROR, db)
  | some cols =>
    if Column.updated_at ∈ cols then (SQLITE_ERROR, db)
    else (SQLITE_OK, { db with entries := some (cols ++ [Column.updated_at]) })

/-- The statement `PRAGMA user_version = 1` (line 248). -/
def db_version_to_1 (db : Database) : Int × Database :=
  (SQLITE_OK, { db with user_version := 1 })

/-- The function `get_db_version` (lines 110-130) when `PRAGMA user_version`
delivers its row: the result 0 and the value stored through `db_version`. -/
def get_db_version (db : Database) : Int × Int :=
  (0, db.user_version)

/-- What the initialization of `main` leaves: the value of `result`, the
database, and the statements executed in order. -/
structure InitOutcome where
  result : Int
  db : Database
  executed : List InitStmt
deriving DecidableEq, Repr

/-- The initialization of lines 241-250 on an opened database.  A failing
`check_db_err` ends `main` with result 1; the statements of an open transaction
are then rolled back when the connection is closed. -/
def init_database (db : Database) : InitOutcome :=
  let (r1, db1) := create_table_entries db
  if r1 ≠ SQLITE_OK then
    { result := 1, db := db1, executed := [InitStmt.create_table_entries] }
  else
    let (r2, db_version) := get_db_version db1
    if r2 ≠ SQLITE_OK then
      { result := 1, db := db1, executed := [InitStmt.create_table_entries] }
    else if db_version = 0 then
      let (r3, db2) := migrate_table_entries_v1 db1
      if r3 ≠ SQLITE_OK then
        { result := 1, db := db1,
          executed := [InitStmt.create_table_entries, InitStmt.begin_transaction,
            InitStmt.migrate_table_entries_v1] }
      else
        let (r4, db3) := db_version_to_1 db2
        if r4 ≠ SQLITE_OK then
          { result := 1, db := db1,
            executed := [InitStmt.create_table_entries, InitStmt.begin_transaction,
              InitStmt.migrate_table_entries_v1, InitStmt.db_version_to_1] }
        else
          { result := 0, db := db3,
            executed := [InitStmt.create_table_entries, InitStmt.begin_transaction,
              InitStmt.migrate_table_entries_v1, InitStmt.db_version_to_1,
              InitStmt.end_transaction] }
    else
      { result := 0, db := db1, executed := [InitStmt.create_table_entries] }

/-- The entry that `load_entries` builds from a row: the description bytes
followed by NUL bytes, `ignored` left 0. -/
def entry_of_row (r : Row) : Entry :=
  { id := r.id, completed := r.completed, ignored := 0,
    description := r.description ++ List.replicate (64 - r.description.length) 0 }

/-- A load that delivers the row `foo` and then ends with `SQLITE_ERROR`. -/
def foo_then_error : LoadResult :=
  { rows := [{ id := 1, description := [102, 111, 111], completed := 0 }],
    final := SQLITE_ERROR }

/-- The result code `SQLITE_ROW` of `sqlite3_step`. -/
def SQLITE_ROW : Int := 100

/-! ## The query behind the page (lines 87-88) -/

/-- A row of table `entries` at user-version 1; `updated_at` is NULL (`none`)
until the row is first updated. -/
structure DbRow where
  id : Int
  description : List Nat
  completed : Int
  ignored : Int
  updated_at : Option Int
deriving DecidableEq, Repr

/-- The order of SQLite on a nullable integer column: NULL is below every
value. -/
def null_lt : Option Int → Option Int → Prop
  | none, some _ => True
  | some x, some y => x < y
  | _, none => False

instance : DecidableRel null_lt := fun a b => by
  cases a <;> cases b <;> unfold null_lt <;> infer_instance

/-- The clause `ORDER BY completed ASC, updated_at DESC, id DESC` of
`get_entries_sql`: `a` sorts no later than `b`. -/
def order_by (a b : DbRow) : Prop :=
  a.completed < b.completed ∨
    (a.completed = b.completed ∧
      (null_lt b.updated_at a.updated_at ∨ (a.updated_at = b.updated_at ∧ b.id ≤ a.id)))

instance : DecidableRel order_by := fun a b => by
  unfold order_by; infer_instance

/-- The statement `get_entries_sql`: `SELECT * FROM entries WHERE ignored = 0
ORDER BY completed ASC, updated_at DESC, id DESC LIMIT 10`, on the table as a
list of rows. -/
def get_entries (table : List DbRow) : List DbRow :=
  ((table.filter fun r => decide (r.ignored = 0)).insertionSort order_by).take 10

/-- The accessor `sqlite3_column_int` on a stored integer: its low 32 bits, as
a C `int`. -/
def sqlite3_column_int (v : Int) : Int :=
  (v + 2147483648) % 4294967296 - 2147483648

/-- The values of a C `int`. -/
def fits_int (v : Int) : Prop := -2147483648 ≤ v ∧ v < 2147483648

instance : DecidablePred fits_int := fun v => by
  unfold fits_int; infer_instance

/-- The columns 0, 1 and 2 of a result row, which `load_entries` reads:
`id` and `completed` through `sqlite3_column_int` (lines 137 and 145), the
description as its bytes. -/
def row_of_db (r : DbRow) : Row :=
  { id := sqlite3_column_int r.id, description := r.description,
    completed := sqlite3_column_int r.completed }

/-- What stepping `get_entries_stmt` delivers on a table when the engine
reports no error. -/
def step_get_entries (table : List DbRow) : LoadResult :=
  { rows := (get_entries table).map row_of_db, final := SQLITE_DONE }

/-- The order that the page shows between an earlier and a later entry. -/
def strictly_before (a b : DbRow) : Prop :=
  a.completed < b.completed ∨
    (a.completed = b.completed ∧ null_lt b.updated_at a.updated_at) ∨
    (a.completed = b.completed ∧ a.updated_at = b.updated_at ∧ b.id < a.id)

/-- A table of four rows: `a` completed, `b` archived, `c` and `d` pending,
`d` updated at time 5. -/
def sample_table : List DbRow :=
  [{ id := 1, description := [97], completed := 1, ignored := 0, updated_at := some 9 },
   { id := 2, description := [98], completed := 1, ignored := 1, updated_at := some 8 },
   { id := 3, description := [99], completed := 0, ignored := 0, updated_at := none },
   { id := 4, description := [100], completed := 0, ignored := 0, updated_at := some 5 }]

/-- A table of two pending rows, never updated, with the ids 5 and 2^32 + 5. -/
def big_id_table : List DbRow :=
  [{ id := 5, description := [97], completed := 0, ignored := 0, updated_at := none },
   { id := 4294967301, description := [98], completed := 0, ignored := 0,
     updated_at := none }]

/-- A page of one entry `hello world` (11 bytes). -/
def hello_world_row : LoadResult :=
  { rows := [{ id := 1,
               description := [104, 101, 108, 108, 111, 32, 119, 111, 114, 108, 100],
               completed := 0 }],
    final := SQLITE_DONE }

/-- An entry whose description is a 64-byte array with a NUL among its first
eleven bytes: a C string of at most ten bytes. -/
def ShortEntry (e : Entry) : Prop :=
  e.description.length = 64 ∧ ∃ m, m ≤ 10 ∧ e.description[m]? = some 0

/-- Ten entries with descriptions of at most ten bytes. -/
def ShortEntries (es : List Entry) : Prop :=
  es.length = 10 ∧ ∀ e ∈ es, ShortEntry e

/-! ## Array access lemmas -/

theorem rd_cast {α : Type} (a : List α) (n : Nat) : rd a (n : Int) = a[n]? := by
  simp [rd]

theorem wr_cast {α : Type} (a : List α) (n : Nat) (v : α) :
    wr a (n : Int) v = if n < a.length then some (a.set n v) else none := by
  simp [wr]

theorem wr_length {α : Type} {a b : List α} {i : Int} {v : α} (h : wr a i v = some b) :
    b.length = a.length := by
  unfold wr at h
  split at h
  · cases h; simp
  · cases h

theorem shift_right_loop_spec (k : Nat) : ∀ (n : Nat) (buf : List Nat),
    k ≤ n → n < buf.length →
    ∃ r, shift_right_loop k (n : Int) buf = some r ∧ r.length = buf.length ∧
      ∀ j, r[j]? = if n - k < j ∧ j ≤ n then buf[j - 1]? else buf[j]? := by
  induction k with
  | zero =>
    intro n buf _ _
    refine ⟨buf, rfl, rfl, fun j => ?_⟩
    have : ¬ (n - 0 < j ∧ j ≤ n) := by omega
    rw [if_neg this]
  | succ k ih =>
    intro n buf hk hn
    obtain ⟨m, rfl⟩ : ∃ m, n = m + 1 := ⟨n - 1, by omega⟩
    have hm : m < buf.length := by omega
    obtain ⟨r, hr, hlen, hget⟩ := ih m (buf.set (m + 1) buf[m]) (by omega) (by simpa using hm)
    refine ⟨r, ?_, by simpa using hlen, fun j => ?_⟩
    · have e1 : ((m + 1 : Nat) : Int) - 1 = (m : Int) := by push_cast; ring
      simp only [shift_right_loop, e1, rd_cast, wr_cast, List.getElem?_eq_getElem hm, hn,
        if_true]
      exact hr
    · rw [hget j]
      by_cases h1 : m - k < j ∧ j ≤ m
      · have h2 : m + 1 - (k + 1) < j ∧ j ≤ m + 1 := by omega
        rw [if_pos h1, if_pos h2, List.getElem?_set_ne (by omega)]
      · by_cases h3 : j = m + 1
        · subst h3
          have h2 : m + 1 - (k + 1) < m + 1 ∧ m + 1 ≤ m + 1 := by omega
          rw [if_neg h1, if_pos h2]
          simp [List.getElem?_set_self, hn, List.getElem?_eq_getElem hm]
        · have h2 : ¬ (m + 1 - (k + 1) < j ∧ j ≤ m + 1) := by omega
          rw [if_neg h1, if_neg h2, List.getElem?_set_ne (by omega)]

theorem shift_left_loop_spec (k : Nat) : ∀ (n : Nat) (buf : List Nat),
    n + k < buf.length →
    ∃ r, shift_left_loop k (n : Int) buf = some r ∧ r.length = buf.length ∧
      ∀ j, r[j]? = if n ≤ j ∧ j < n + k then buf[j + 1]? else buf[j]? := by
  induction k with
  | zero =>
    intro n buf _
    refine ⟨buf, rfl, rfl, fun j => ?_⟩
    have : ¬ (n ≤ j ∧ j < n + 0) := by omega
    rw [if_neg this]
  | succ k ih =>
    intro n buf hn
    have hn1 : n + 1 < buf.length := by omega
    have hn0 : n < buf.length := by omega
    obtain ⟨r, hr, hlen, hget⟩ := ih (n + 1) (buf.set n buf[n + 1]) (by simp; omega)
    refine ⟨r, ?_, by simpa using hlen, fun j => ?_⟩
    · have e1 : (n : Int) + 1 = ((n + 1 : Nat) : Int) := by push_cast; ring
      simp only [shift_left_loop, e1, rd_cast, wr_cast, List.getElem?_eq_getElem hn1, hn0,
        if_true]
      exact hr
    · rw [hget j]
      by_cases h1 : n + 1 ≤ j ∧ j < n + 1 + k
      · have h2 : n ≤ j ∧ j < n + (k + 1) := by omega
        rw [if_pos h1, if_pos h2, List.getElem?_set_ne (by omega)]
      · by_cases h3 : j = n
        · subst h3
          have h2 : j ≤ j ∧ j < j + (k + 1) := by omega
          rw [if_neg h1, if_pos h2]
          simp [List.getElem?_set_self, hn0, List.getElem?_eq_getElem hn1]
        · have h2 : ¬ (n ≤ j ∧ j < n + (k + 1)) := by omega
          rw [if_neg h1, if_neg h2, List.getElem?_set_ne (by omega)]

/-! ## Concrete runs -/

/-- C1 (the code departs from the claim): on a fresh database the keystrokes
`n` and sixty-three times `a` lead to NEW view with `new_entry_buf` holding 63
bytes; a further `a` passes the guard `size + 1 > MAX_STRING_LENGTH` and is not
rejected: the dispatch raises the size to 64 and writes `buf[64]`, outside the
64-byte array. -/
theorem C1_byte_at_size_63_not_rejected :
    ∃ s, run initial_state (typed no_rows (110 :: List.replicate 63 97)) = Outcome.next s [] ∧
      s.current_view = CurrentView.NEW_ENTRY_VIEW ∧
      s.new_entry_buf.buf.length = 64 ∧
      s.new_entry_buf.buf_size = 63 ∧ s.new_entry_buf.buf_cursor = 63 ∧
      ¬ (s.new_entry_buf.buf_size + 1 > MAX_STRING_LENGTH) ∧
      rd s.new_entry_buf.buf 64 = none ∧
      step s (key 97) = Outcome.fault ∧
      step s (key 97) ≠ Outcome.next s [] := by
  set_option maxRecDepth 100000 in
  exact ⟨_, rfl, by decide, by decide, by decide, by decide, by decide, by decide,
    by decide, by decide⟩

/-- C4 (the code departs from the claim): after `n`, `a`, bare ESC the view is
LIST and `new_entry_buf` holds one byte; Backspace in LIST view then empties
`new_entry_buf`, and the left arrow in LIST view moves its cursor from 1 to 0,
because `case LIST_VIEW:` falls through into `case NEW_ENTRY_VIEW:`. -/
theorem C4_list_view_edits_new_entry_buf :
    ∃ s s1 s2, run initial_state (typed no_rows [110, 97, 27]) = Outcome.next s [] ∧
      s.current_view = CurrentView.LIST_VIEW ∧
      s.new_entry_buf = { buf := 97 :: List.replicate 63 0, buf_size := 1, buf_cursor := 1 } ∧
      step s (key 127) = Outcome.next s1 [] ∧
      s1.new_entry_buf = { buf := List.replicate 64 0, buf_size := 0, buf_cursor := 0 } ∧
      step s (arrow 68) = Outcome.next s2 [] ∧
      s2.new_entry_buf = { buf := 97 :: List.replicate 63 0, buf_size := 1, buf_cursor := 0 } := by
  exact ⟨_, _, _, rfl, by decide, by decide, rfl, by decide, rfl, by decide⟩

/-- C5 (the code departs from the claim): on a fresh database the keystrokes
`n`, Enter call `new_entry` although `new_entry_buf` is empty; the description
bound is the empty string. -/
theorem C5_enter_new_inserts_empty_description :
    ∃ s, run initial_state (typed no_rows [110]) = Outcome.next s [] ∧
      s.current_view = CurrentView.NEW_ENTRY_VIEW ∧
      s.new_entry_buf.buf_size = 0 ∧
      ∃ s1, step s (key 10) = Outcome.next s1 [StoreCall.new_entry []] ∧
        s1.current_view = CurrentView.LIST_VIEW ∧ s1.should_reload_entries = true ∧
        s1.new_entry_buf = { buf := List.replicate 64 0, buf_size := 0, buf_cursor := 0 } := by
  exact ⟨_, rfl, by decide, by decide, _, rfl, by decide, by decide, by decide⟩

/-- C8 (the code departs from the claim): on a fresh database (empty page,
selection 0) the first keystroke `k`, and likewise the up arrow, sets
`current_selection` to `MAX_SELECTION`, which is -1; `j` and the down arrow
leave it 0. -/
theorem C8_up_on_empty_page_selects_minus_one :
    ∃ s, reload_entries initial_state no_rows = some s ∧
      s.current_view = CurrentView.LIST_VIEW ∧
      s.entries_in_view = 0 ∧ s.current_selection = 0 ∧
      step s (key 107) = Outcome.next { s with current_selection := -1 } [] ∧
      step s (arrow 65) = Outcome.next { s with current_selection := -1 } [] ∧
      step s (key 106) = Outcome.next s [] ∧
      step s (arrow 66) = Outcome.next s [] := by
  exact ⟨_, rfl, by decide, by decide, by decide, by decide, by decide, by decide, by decide⟩

/-- C7: in LIST view with `0 ≤ sel ≤ M`, where `M = entries_in_view - 1`
(so the page is non-empty), `k` and ESC [ A set the selection to `sel - 1`, or to
`M` when `sel = 0`; `j` and ESC [ B set it to `sel + 1`, or to 0 when
`sel = M`; no other part of the state changes and no store call is made. -/
theorem C7_selection_wrap (s : State) (c1 c2 : Nat)
    (hview : s.current_view = CurrentView.LIST_VIEW)
    (h0 : 0 ≤ s.current_selection)
    (h1 : s.current_selection ≤ s.entries_in_view - 1) :
    step s { c0 := 107, c1 := c1, c2 := c2 } =
        Outcome.next { s with current_selection :=
          if s.current_selection = 0 then s.entries_in_view - 1
          else s.current_selection - 1 } [] ∧
      step s (arrow 65) =
        Outcome.next { s with current_selection :=
          if s.current_selection = 0 then s.entries_in_view - 1
          else s.current_selection - 1 } [] ∧
      step s { c0 := 106, c1 := c1, c2 := c2 } =
        Outcome.next { s with current_selection :=
          if s.current_selection = s.entries_in_view - 1 then 0
          else s.current_selection + 1 } [] ∧
      step s (arrow 66) =
        Outcome.next { s with current_selection :=
          if s.current_selection = s.entries_in_view - 1 then 0
          else s.current_selection + 1 } [] := by
  have hup : selection_up s = { s with current_selection :=
      if s.current_selection = 0 then s.entries_in_view - 1
      else s.current_selection - 1 } := by
    simp only [selection_up, MAX_SELECTION]
    by_cases h : s.current_selection = 0
    · rw [if_pos h, if_pos (by omega)]
    · rw [if_neg h, if_neg (by omega)]
  have hdown : selection_down s = { s with current_selection :=
      if s.current_selection = s.entries_in_view - 1 then 0
      else s.current_selection + 1 } := by
    simp only [selection_down, MAX_SELECTION]
    by_cases h : s.current_selection = s.entries_in_view - 1
    · rw [if_pos h, if_pos (by omega)]
    · rw [if_neg h, if_neg (by omega)]
  refine ⟨?_, ?_, ?_, ?_⟩
  · simp [step, key_k, hview, hup]
  · simp [step, arrow, key_27, hview, hup]
  · simp [step, key_j, hview, hdown]
  · simp [step, arrow, key_27, hview, hdown]

/-- C7 at the three-entry page with selection 0: `k` selects entry 2 and `j`
selects entry 1. -/
theorem C7_selection_wrap_witness :
    step three_entries (key 107) =
        Outcome.next { three_entries with current_selection := 2 } [] ∧
      step three_entries (key 106) =
        Outcome.next { three_entries with current_selection := 1 } [] :=
  have h := C7_selection_wrap three_entries 0 0 (by decide) (by decide) (by decide)
  ⟨h.1, h.2.2.1⟩

/-! ## Text editing lemmas -/

theorem get_set_buf (s : State) (a : ActiveBuf) (b : TextBuf) :
    get_buf (set_buf s a b) a = b := by
  cases a <;> rfl

theorem set_buf_view (s : State) (a : ActiveBuf) (b : TextBuf) :
    (set_buf s a b).current_view = s.current_view := by
  cases a <;> rfl

theorem set_set_buf (s : State) (a : ActiveBuf) (b b1 : TextBuf) :
    set_buf (set_buf s a b) a b1 = set_buf s a b1 := by
  cases a <;> rfl

theorem set_get_buf (s : State) (a : ActiveBuf) : set_buf s a (get_buf s a) = s := by
  cases a <;> rfl

/-- In NEW and EDIT view every byte other than Enter, Backspace and ESC reaches
the label `treat_as_char`. -/
theorem step_eq_treat_as_char (s : State) (ch c1 c2 : Nat)
    (hview : s.current_view ≠ CurrentView.LIST_VIEW)
    (h10 : ch ≠ 10) (h127 : ch ≠ 127) (h27 : ch ≠ 27) :
    step s { c0 := ch, c1 := c1, c2 := c2 } = treat_as_char s ch := by
  unfold step
  simp only [h10, h127, h27, if_false]
  split_ifs with h1 h2 h3 h4 h5 h6 h7
  · subst h1; cases hv : s.current_view <;> simp_all [key_e]
  · subst h2; cases hv : s.current_view <;> simp_all [key_d]
  · subst h3; cases hv : s.current_view <;> simp_all [key_x]
  · subst h4; cases hv : s.current_view <;> simp_all [key_n]
  · subst h5; cases hv : s.current_view <;> simp_all [key_q]
  · subst h6; simp [key_k, hview]
  · subst h7; simp [key_j, hview]
  · rfl

/-- The effect of `treat_as_char` on a buffer with room: the bytes from the
cursor up to and including index `size` move one place right and `ch` is
written at the cursor. -/
theorem treat_as_char_spec (s : State) (a : ActiveBuf) (ch n c : Nat)
    (hview : s.current_view ≠ CurrentView.LIST_VIEW)
    (ha : (select_buf s.current_view).buf = some a)
    (hsize : (get_buf s a).buf_size = (n : Int))
    (hcursor : (get_buf s a).buf_cursor = (c : Int))
    (hcn : c ≤ n) (hn : n + 1 < (get_buf s a).buf.length) (hn64 : n < 64) :
    ∃ r, treat_as_char s ch =
        Outcome.next (set_buf s a
          { buf := r, buf_size := (n : Int) + 1, buf_cursor := (c : Int) + 1 }) [] ∧
      r.length = (get_buf s a).buf.length ∧
      ∀ j, r[j]? = if j = c then some ch
        else if c < j ∧ j ≤ n + 1 then (get_buf s a).buf[j - 1]? else (get_buf s a).buf[j]? := by
  obtain ⟨r, hr, hlen, hget⟩ :=
    shift_right_loop_spec (n + 1 - c) (n + 1) (get_buf s a).buf (by omega) hn
  have hc : c < r.length := by omega
  refine ⟨r.set c ch, ?_, by simpa using hlen, fun j => ?_⟩
  · have e1 : ((n : Int) + 1 - (c : Int)).toNat = n + 1 - c := by omega
    have e2 : (n : Int) + 1 = ((n + 1 : Nat) : Int) := by push_cast; ring
    have e3 : ¬ ((n : Int) + 1 > MAX_STRING_LENGTH) := by
      simp only [MAX_STRING_LENGTH]; omega
    unfold treat_as_char with_buf
    cases hv : s.current_view with
    | LIST_VIEW => exact absurd hv hview
    | NEW_ENTRY_VIEW =>
      rw [hv] at ha
      simp only [ha, hsize, hcursor, e3, if_false, e1]
      rw [e2, hr]
      simp only [wr_cast, hc, if_true]
    | EDIT_ENTRY_VIEW =>
      rw [hv] at ha
      simp only [ha, hsize, hcursor, e3, if_false, e1]
      rw [e2, hr]
      simp only [wr_cast, hc, if_true]
  · by_cases hj : j = c
    · subst hj
      rw [if_pos rfl, List.getElem?_set_self hc]
    · rw [if_neg hj, List.getElem?_set_ne (fun h => hj h.symm), hget j]
      have : (n + 1 - (n + 1 - c) < j ∧ j ≤ n + 1) ↔ (c < j ∧ j ≤ n + 1) := by omega
      simp only [this]

/-- The effect of Backspace with the cursor past the first byte: the bytes from
the cursor up to and including index `size` move one place left. -/
theorem key_delete_spec (s : State) (a : ActiveBuf) (n c : Nat)
    (ha : (select_buf s.current_view).buf = some a)
    (hsize : (get_buf s a).buf_size = (n : Int))
    (hcursor : (get_buf s a).buf_cursor = (c : Int))
    (hc : 0 < c) (hcn : c ≤ n) (hn : n < (get_buf s a).buf.length) :
    ∃ r, key_delete s =
        Outcome.next (set_buf s a
          { buf := r, buf_size := (n : Int) - 1, buf_cursor := (c : Int) - 1 }) [] ∧
      r.length = (get_buf s a).buf.length ∧
      ∀ j, r[j]? = if c - 1 ≤ j ∧ j < n
        then (get_buf s a).buf[j + 1]? else (get_buf s a).buf[j]? := by
  obtain ⟨r, hr, hlen, hget⟩ :=
    shift_left_loop_spec (n - (c - 1)) (c - 1) (get_buf s a).buf (by omega)
  refine ⟨r, ?_, hlen, fun j => ?_⟩
  · have e1 : ((n : Int) - ((c : Int) - 1)).toNat = n - (c - 1) := by omega
    have e2 : (c : Int) - 1 = ((c - 1 : Nat) : Int) := by omega
    have e3 : (n : Int) > 0 ∧ (c : Int) > 0 := by omega
    have hnoop : (select_buf s.current_view).buf_noop = false := by
      cases s.current_view <;> rfl
    unfold key_delete with_buf
    simp only [hnoop, ha, hsize, hcursor, e3, e1]
    rw [e2, hr]
    simp
  · rw [hget j]
    have : (c - 1 ≤ j ∧ j < c - 1 + (n - (c - 1))) ↔ (c - 1 ≤ j ∧ j < n) := by omega
    simp only [this]

theorem active_buf_eq (s : State) (a : ActiveBuf)
    (ha : (select_buf s.current_view).buf = some a) : active_buf s = get_buf s a := by
  simp [active_buf, ha]

theorem select_buf_some (v : CurrentView) : ∃ a, (select_buf v).buf = some a := by
  cases v <;> exact ⟨_, rfl⟩

/-- C3: in NEW or EDIT view, for every active buffer (a 64-byte array) with
`0 ≤ cursor ≤ size < 63` and every byte `b` other than Enter, Backspace and ESC,
typing `b` and then Backspace gives back the same size, the same cursor and the
same bytes at the indices `0 .. size`; the only byte of the array that can
differ is the one at index `size + 1`, which now repeats the byte at index
`size`, so when these two bytes were equal (as for a zero-padded buffer) the
whole state is the original one. -/
theorem C3_insert_backspace_round_trip (s : State) (b c1 c2 d1 d2 : Nat)
    (hview : s.current_view = CurrentView.NEW_ENTRY_VIEW ∨
      s.current_view = CurrentView.EDIT_ENTRY_VIEW)
    (hlen : (active_buf s).buf.length = 64)
    (h0 : 0 ≤ (active_buf s).buf_cursor)
    (hcs : (active_buf s).buf_cursor ≤ (active_buf s).buf_size)
    (hs : (active_buf s).buf_size < 63)
    (h10 : b ≠ 10) (h127 : b ≠ 127) (h27 : b ≠ 27) :
    ∃ s1 s2, step s { c0 := b, c1 := c1, c2 := c2 } = Outcome.next s1 [] ∧
      step s1 { c0 := 127, c1 := d1, c2 := d2 } = Outcome.next s2 [] ∧
      s2.current_view = s.current_view ∧
      (active_buf s2).buf_size = (active_buf s).buf_size ∧
      (active_buf s2).buf_cursor = (active_buf s).buf_cursor ∧
      (active_buf s2).buf.length = 64 ∧
      (active_buf s2).buf.take ((active_buf s).buf_size.toNat + 1) =
        (active_buf s).buf.take ((active_buf s).buf_size.toNat + 1) ∧
      (rd (active_buf s).buf ((active_buf s).buf_size + 1) =
          rd (active_buf s).buf (active_buf s).buf_size → s2 = s) := by
  have hv : s.current_view ≠ CurrentView.LIST_VIEW := by
    rcases hview with h | h <;> simp [h]
  obtain ⟨a, ha⟩ := select_buf_some s.current_view
  rw [active_buf_eq s a ha] at hlen h0 hcs hs ⊢
  obtain ⟨c, hc⟩ := Int.eq_ofNat_of_zero_le h0
  obtain ⟨n, hn⟩ := Int.eq_ofNat_of_zero_le (le_trans h0 hcs)
  have hcn : c ≤ n := by omega
  have hn63 : n < 63 := by omega
  obtain ⟨r, hr, hrlen, hrget⟩ :=
    treat_as_char_spec s a b n c hv ha hn hc hcn (by omega) (by omega)
  have hv1 : (set_buf s a
      { buf := r, buf_size := (n : Int) + 1, buf_cursor := (c : Int) + 1 }).current_view =
      s.current_view := set_buf_view _ _ _
  obtain ⟨r2, hr2, hr2len, hr2get⟩ :=
    key_delete_spec
      (set_buf s a { buf := r, buf_size := (n : Int) + 1, buf_cursor := (c : Int) + 1 })
      a (n + 1) (c + 1)
      (by rw [hv1]; exact ha) (by rw [get_set_buf]; push_cast; rfl)
      (by rw [get_set_buf]; push_cast; rfl) (by omega) (by omega)
      (by rw [get_set_buf]; simp only; omega)
  rw [get_set_buf] at hr2len hr2get
  simp only at hr2len hr2get
  rw [set_set_buf] at hr2
  have hfinal : ∀ j, r2[j]? =
      if j = n + 1 then (get_buf s a).buf[n]? else (get_buf s a).buf[j]? := by
    intro j
    rw [hr2get j]
    by_cases hj : c + 1 - 1 ≤ j ∧ j < n + 1
    · rw [if_pos hj, hrget (j + 1), if_neg (by omega), if_pos (by omega), if_neg (by omega)]
      simp
    · rw [if_neg hj, hrget j, if_neg (by omega)]
      by_cases hj2 : j = n + 1
      · subst hj2
        rw [if_pos (by omega), if_pos rfl]
        simp
      · rw [if_neg (by omega), if_neg hj2]
  have hv2 : (set_buf s a
      { buf := r2, buf_size := ((n + 1 : Nat) : Int) - 1,
        buf_cursor := ((c + 1 : Nat) : Int) - 1 }).current_view = s.current_view :=
    set_buf_view _ _ _
  refine ⟨set_buf s a { buf := r, buf_size := (n : Int) + 1, buf_cursor := (c : Int) + 1 },
    _, ?_, ?_, hv2, ?_, ?_, ?_, ?_, ?_⟩
  · rw [step_eq_treat_as_char s b c1 c2 hv h10 h127 h27]; exact hr
  · simp only [step, Nat.reduceEqDiff, if_false, if_true]
    exact hr2
  · rw [active_buf_eq _ a (by rw [hv2]; exact ha), get_set_buf, hn]; push_cast; ring
  · rw [active_buf_eq _ a (by rw [hv2]; exact ha), get_set_buf, hc]; push_cast; ring
  · rw [active_buf_eq _ a (by rw [hv2]; exact ha), get_set_buf]; simp only; omega
  · rw [active_buf_eq _ a (by rw [hv2]; exact ha), get_set_buf]
    simp only [hn, Int.toNat_ofNat]
    apply List.ext_getElem?
    intro j
    rw [List.getElem?_take, List.getElem?_take]
    by_cases hj : j < n + 1
    · rw [if_pos hj, if_pos hj, hfinal j, if_neg (by omega)]
    · rw [if_neg hj, if_neg hj]
  · intro hrd
    have e2 : (n : Int) + 1 = ((n + 1 : Nat) : Int) := by push_cast; ring
    rw [hn, e2, rd_cast, rd_cast] at hrd
    have hbuf : r2 = (get_buf s a).buf := by
      apply List.ext_getElem?
      intro j
      rw [hfinal j]
      by_cases hj2 : j = n + 1
      · subst hj2; rw [if_pos rfl, hrd]
      · rw [if_neg hj2]
    have hb : ({ buf := r2, buf_size := ((n + 1 : Nat) : Int) - 1,
                 buf_cursor := ((c + 1 : Nat) : Int) - 1 } : TextBuf) = get_buf s a := by
      rw [hbuf]
      cases hg : get_buf s a with
      | mk bb bs bc =>
        rw [hg] at hn hc
        simp only at hn hc
        simp only [TextBuf.mk.injEq, true_and]
        constructor
        · rw [hn]; push_cast; ring
        · rw [hc]; push_cast; ring
    rw [hb, set_get_buf]

/-- C3 at a buffer holding `ab` with the cursor after `a` and a stale byte at
index 3: typing `x` and Backspace restores size 2, cursor 1 and the bytes
`a`, `b`, NUL. -/
theorem C3_insert_backspace_round_trip_witness :
    ∃ s1 s2, step new_view_ab (key 120) = Outcome.next s1 [] ∧
      step s1 (key 127) = Outcome.next s2 [] ∧
      (active_buf s2).buf_size = 2 ∧ (active_buf s2).buf_cursor = 1 ∧
      (active_buf s2).buf.take 3 = [97, 98, 0] := by
  obtain ⟨s1, s2, h1, h2, _, h3, h4, _, h5, _⟩ :=
    C3_insert_backspace_round_trip new_view_ab 120 0 0 0 0 (by decide) (by decide)
      (by decide) (by decide) (by decide) (by decide) (by decide) (by decide)
  exact ⟨s1, s2, h1, h2, h3, h4, h5⟩

/-! ## Copying, zeroing and C strings -/

theorem copy_loop_spec (k : Nat) : ∀ (n : Nat) (src dst : List Nat),
    n + k ≤ src.length → n + k ≤ dst.length →
    ∃ r, copy_loop k (n : Int) src dst = some r ∧ r.length = dst.length ∧
      ∀ j, r[j]? = if n ≤ j ∧ j < n + k then src[j]? else dst[j]? := by
  induction k with
  | zero =>
    intro n src dst _ _
    refine ⟨dst, rfl, rfl, fun j => ?_⟩
    rw [if_neg (by omega)]
  | succ k ih =>
    intro n src dst hs hd
    have hs0 : n < src.length := by omega
    have hd0 : n < dst.length := by omega
    obtain ⟨r, hr, hlen, hget⟩ :=
      ih (n + 1) src (dst.set n src[n]) (by omega) (by simp; omega)
    refine ⟨r, ?_, by simpa using hlen, fun j => ?_⟩
    · have e1 : (n : Int) + 1 = ((n + 1 : Nat) : Int) := by push_cast; ring
      simp only [copy_loop, rd_cast, wr_cast, List.getElem?_eq_getElem hs0, hd0, if_true, e1]
      exact hr
    · rw [hget j]
      by_cases h1 : n + 1 ≤ j ∧ j < n + 1 + k
      · rw [if_pos h1, if_pos (by omega)]
      · by_cases h3 : j = n
        · subst h3
          rw [if_neg h1, if_pos (by omega), List.getElem?_set_self hd0,
            List.getElem?_eq_getElem hs0]
        · rw [if_neg h1, if_neg (by omega), List.getElem?_set_ne (by omega)]

theorem zero_array_loop_spec (k : Nat) : ∀ (n : Nat) (arr : List Nat),
    n + k ≤ arr.length →
    ∃ r, zero_array_loop k (n : Int) arr = some r ∧ r.length = arr.length ∧
      ∀ j, r[j]? = if n ≤ j ∧ j < n + k then some 0 else arr[j]? := by
  induction k with
  | zero =>
    intro n arr _
    refine ⟨arr, rfl, rfl, fun j => ?_⟩
    rw [if_neg (by omega)]
  | succ k ih =>
    intro n arr h
    have h0 : n < arr.length := by omega
    obtain ⟨r, hr, hlen, hget⟩ := ih (n + 1) (arr.set n 0) (by simp; omega)
    refine ⟨r, ?_, by simpa using hlen, fun j => ?_⟩
    · have e1 : (n : Int) + 1 = ((n + 1 : Nat) : Int) := by push_cast; ring
      simp only [zero_array_loop, wr_cast, h0, if_true, e1]
      exact hr
    · rw [hget j]
      by_cases h1 : n + 1 ≤ j ∧ j < n + 1 + k
      · rw [if_pos h1, if_pos (by omega)]
      · by_cases h3 : j = n
        · subst h3
          rw [if_neg h1, if_pos (by omega), List.getElem?_set_self h0]
        · rw [if_neg h1, if_neg (by omega), List.getElem?_set_ne (by omega)]

/-- On a 64-byte array `zero_buf` succeeds and leaves the empty buffer. -/
theorem zero_buf_eq (b : TextBuf) (h : b.buf.length = 64) :
    zero_buf b = some { buf := List.replicate 64 0, buf_size := 0, buf_cursor := 0 } := by
  obtain ⟨r, hr, hlen, hget⟩ := zero_array_loop_spec 64 0 b.buf (by omega)
  have hz : zero_array b.buf MAX_STRING_LENGTH = some r := by
    simpa [zero_array, MAX_STRING_LENGTH] using hr
  have hrep : r = List.replicate 64 0 := by
    apply List.ext_getElem?
    intro j
    rw [hget j]
    by_cases hj : j < 64
    · rw [if_pos (by omega), List.getElem?_replicate, if_pos hj]
    · rw [if_neg (by omega), List.getElem?_eq_none (by omega), List.getElem?_replicate,
        if_neg hj]
  simp only [zero_buf, hz, hrep]

/-- The C string of an array with a NUL at index `n` and none before is its
first `n` bytes, and `strlen` is `n`. -/
theorem c_string_take : ∀ (l : List Nat) (n : Nat),
    l[n]? = some 0 → 0 ∉ l.take n →
    c_string l = some (l.take n) ∧ strlen l = some (n : Int)
  | [], n, h, _ => by simp at h
  | x :: xs, 0, h, _ => by
    simp only [List.getElem?_cons_zero, Option.some.injEq] at h
    simp [c_string, strlen, h]
  | x :: xs, n + 1, h, hz => by
    simp only [List.getElem?_cons_succ] at h
    simp only [List.take_succ_cons, List.mem_cons, not_or] at hz
    obtain ⟨h1, h2⟩ := c_string_take xs n h hz.2
    have hx : x ≠ 0 := fun hx => hz.1 hx.symm
    simp [c_string, strlen, hx, h1, h2]

/-- An array that holds a NUL has a C string, which is a NUL-free initial
segment ended by a NUL. -/
theorem c_string_of_mem : ∀ (l : List Nat), 0 ∈ l →
    ∃ n : Nat, n < l.length ∧ l[n]? = some 0 ∧ 0 ∉ l.take n ∧
      c_string l = some (l.take n) ∧ strlen l = some (n : Int)
  | [], h => by simp at h
  | x :: xs, h => by
    by_cases hx : x = 0
    · subst hx
      exact ⟨0, by simp, by simp, by simp, by simp [c_string], by simp [strlen]⟩
    · have hmem : 0 ∈ xs := by
        rcases List.mem_cons.mp h with h | h
        · exact absurd h.symm hx
        · exact h
      obtain ⟨n, hn, hget, hz, hc, hl⟩ := c_string_of_mem xs hmem
      refine ⟨n + 1, by simp; omega, by simpa using hget, ?_, ?_, ?_⟩
      · simp only [List.take_succ_cons, List.mem_cons, not_or]
        exact ⟨fun h => hx h.symm, hz⟩
      · simp [c_string, hx, hc]
      · simp [strlen, hx, hl]

theorem rd_some {α : Type} {a : List α} {i : Int} {v : α} (h : rd a i = some v) :
    0 ≤ i ∧ i.toNat < a.length ∧ a[i.toNat]? = some v := by
  unfold rd at h
  split at h
  · rename_i h0
    exact ⟨h0, (List.getElem?_eq_some_iff.mp h).1, h⟩
  · cases h

theorem wr_of_lt {α : Type} (a : List α) (i : Int) (v : α) (h0 : 0 ≤ i)
    (h1 : i.toNat < a.length) : wr a i v = some (a.set i.toNat v) := by
  unfold wr
  rw [if_pos ⟨h0, by omega⟩]

/-- C9: Enter in EDIT view, on a 64-byte `edit_entry_buf` of size at most 63 and
with the selection inside the entries array.  With a non-empty buffer the
selected entry's description gets the first `size` bytes of the buffer and a
NUL at index `size` (the bytes after it stay), `update_entry` is called with
that description as a C string and the entry's unchanged completed, ignored and
id, the buffer is cleared, the view becomes LIST and the reload flag is set;
nothing else changes.  With an empty buffer the state is unchanged and no store
call is made. -/
theorem C9_enter_edit (s : State) (c1 c2 : Nat) (e : Entry)
    (hview : s.current_view = CurrentView.EDIT_ENTRY_VIEW)
    (hbuf : s.edit_entry_buf.buf.length = 64)
    (h0 : 0 ≤ s.edit_entry_buf.buf_size) (h63 : s.edit_entry_buf.buf_size ≤ 63)
    (hsel : rd s.entries s.current_selection = some e)
    (hdesc : e.description.length = 64) :
    (s.edit_entry_buf.buf_size = 0 →
      step s { c0 := 10, c1 := c1, c2 := c2 } = Outcome.next s []) ∧
    (s.edit_entry_buf.buf_size ≠ 0 →
      ∃ d dstr,
        d.length = 64 ∧
        d.take s.edit_entry_buf.buf_size.toNat =
          s.edit_entry_buf.buf.take s.edit_entry_buf.buf_size.toNat ∧
        d[s.edit_entry_buf.buf_size.toNat]? = some 0 ∧
        (∀ j, s.edit_entry_buf.buf_size.toNat < j → d[j]? = e.description[j]?) ∧
        c_string d = some dstr ∧
        (0 ∉ s.edit_entry_buf.buf.take s.edit_entry_buf.buf_size.toNat →
          dstr = s.edit_entry_buf.buf.take s.edit_entry_buf.buf_size.toNat) ∧
        step s { c0 := 10, c1 := c1, c2 := c2 } =
          Outcome.next
            { s with
              entries := s.entries.set s.current_selection.toNat { e with description := d },
              edit_entry_buf := { buf := List.replicate 64 0, buf_size := 0, buf_cursor := 0 },
              current_view := CurrentView.LIST_VIEW,
              should_reload_entries := true }
            [StoreCall.update_entry dstr e.completed e.ignored e.id]) := by
  have hstep : step s { c0 := 10, c1 := c1, c2 := c2 } = key_enter_edit s := by
    simp [step, key_enter, hview]
  rw [hstep]
  constructor
  · intro hz
    simp [key_enter_edit, with_buf, select_buf, hview, get_buf, hz]
  · intro hnz
    obtain ⟨n, hn⟩ := Int.eq_ofNat_of_zero_le h0
    have hn63 : n ≤ 63 := by omega
    obtain ⟨hs0, hs1, _⟩ := rd_some hsel
    obtain ⟨d1, hd1, hd1len, hd1get⟩ :=
      copy_loop_spec n 0 s.edit_entry_buf.buf e.description (by omega) (by omega)
    have hd1n : n < d1.length := by omega
    have hd2get : ∀ j, (d1.set n 0)[j]? =
        if j < n then s.edit_entry_buf.buf[j]? else if j = n then some 0
        else e.description[j]? := by
      intro j
      by_cases hj : j = n
      · subst hj
        rw [List.getElem?_set_self hd1n, if_neg (by omega), if_pos rfl]
      · rw [List.getElem?_set_ne (fun h => hj h.symm), hd1get j]
        by_cases hj2 : j < n
        · rw [if_pos (by omega), if_pos hj2]
        · rw [if_neg (by omega), if_neg hj2, if_neg hj]
    have htake : (d1.set n 0).take n = s.edit_entry_buf.buf.take n := by
      apply List.ext_getElem?
      intro j
      rw [List.getElem?_take, List.getElem?_take, hd2get j]
      by_cases hj : j < n
      · rw [if_pos hj, if_pos hj, if_pos hj]
      · rw [if_neg hj, if_neg hj]
    have hdn : (d1.set n 0)[n]? = some 0 := List.getElem?_set_self hd1n
    have hmem : 0 ∈ d1.set n 0 := List.getElem?_mem hdn
    obtain ⟨m, _, hm0, hmz, hmc, _⟩ := c_string_of_mem (d1.set n 0) hmem
    refine ⟨d1.set n 0, (d1.set n 0).take m, by simp; omega, ?_, ?_, ?_, hmc, ?_, ?_⟩
    · rw [hn]; exact htake
    · rw [hn]; exact hdn
    · intro j hj
      rw [hn] at hj
      simp only [Int.toNat_ofNat] at hj
      rw [hd2get j, if_neg (by omega), if_neg (by omega)]
    · intro hnul
      rw [hn] at hnul ⊢
      simp only [Int.toNat_ofNat] at hnul ⊢
      rw [← htake] at hnul ⊢
      have := (c_string_take (d1.set n 0) n hdn hnul).1
      rw [hmc] at this
      exact Option.some.inj this
    · have hcopy : copy_loop (n : Int).toNat 0 s.edit_entry_buf.buf e.description = some d1 := by
        simpa using hd1
      have hw1 : wr d1 (n : Int) 0 = some (d1.set n 0) := by
        rw [wr_cast, if_pos hd1n]
      have hu : update_entry { e with description := d1.set n 0 } =
          some (StoreCall.update_entry ((d1.set n 0).take m) e.completed e.ignored e.id) := by
        simp [update_entry, hmc]
      have hnz2 : ¬ ((n : Int) = 0) := by rw [← hn]; exact hnz
      simp only [key_enter_edit, with_buf, select_buf, hview, get_buf, hn, hnz2, if_false,
        hsel, hcopy, hw1, wr_of_lt s.entries s.current_selection _ hs0 hs1, hu,
        zero_buf_eq s.edit_entry_buf hbuf, set_buf]

/-- C9 at the page `foo` with `fox` typed in EDIT view: Enter calls
`update_entry` with `fox` for id 1 and returns to LIST view. -/
theorem C9_enter_edit_witness :
    ∃ s1, step editing_fox (key 10) =
        Outcome.next s1 [StoreCall.update_entry [102, 111, 120] 0 0 1] ∧
      s1.current_view = CurrentView.LIST_VIEW ∧ s1.should_reload_entries = true ∧
      s1.edit_entry_buf = { buf := List.replicate 64 0, buf_size := 0, buf_cursor := 0 } := by
  have h := (C9_enter_edit editing_fox 0 0
    { id := 1, completed := 0, ignored := 0,
      description := [102, 111, 111] ++ List.replicate 61 0 }
    (by decide) (by decide) (by decide) (by decide) (by decide) (by decide)).2 (by decide)
  obtain ⟨d, dstr, _, _, _, _, _, h6, h7⟩ := h
  have h8 := h6 (by decide)
  rw [h8] at h7
  exact ⟨_, h7, rfl, rfl, rfl⟩

/-! ## Runs -/

theorem run_cons_next (s s1 : State) (lr : LoadResult) (inp : Input)
    (rest : List (LoadResult × Input)) (calls : List StoreCall)
    (h : iteration s lr inp = Outcome.next s1 calls) :
    run s ((lr, inp) :: rest) = prepend_calls calls (run s1 rest) := by
  simp only [run, h]

theorem prepend_calls_nil (o : Outcome) : prepend_calls [] o = o := by
  cases o <;> simp [prepend_calls]

theorem prepend_calls_prepend_calls (c1 c2 : List StoreCall) (o : Outcome) :
    prepend_calls c1 (prepend_calls c2 o) = prepend_calls (c1 ++ c2) o := by
  cases o <;> simp [prepend_calls]

theorem run_append (xs : List (LoadResult × Input)) : ∀ (s s1 : State)
    (ys : List (LoadResult × Input)) (calls : List StoreCall),
    run s xs = Outcome.next s1 calls →
    run s (xs ++ ys) = prepend_calls calls (run s1 ys) := by
  induction xs with
  | nil =>
    intro s s1 ys calls h
    simp only [run, Outcome.next.injEq] at h
    obtain ⟨rfl, rfl⟩ := h
    rw [prepend_calls_nil, List.nil_append]
  | cons x xs ih =>
    intro s s1 ys calls h
    obtain ⟨lr, inp⟩ := x
    change run s ((lr, inp) :: (xs ++ ys)) = _
    simp only [run] at h ⊢
    cases hi : iteration s lr inp with
    | next s2 calls2 =>
      rw [hi] at h
      simp only at h ⊢
      cases hr : run s2 xs with
      | next s3 calls3 =>
        rw [hr] at h
        simp only [prepend_calls, Outcome.next.injEq] at h
        obtain ⟨rfl, rfl⟩ := h
        rw [ih s2 s3 ys calls3 hr, prepend_calls_prepend_calls]
      | quit r => rw [hr] at h; simp [prepend_calls] at h
      | fault => rw [hr] at h; simp [prepend_calls] at h
    | quit r => rw [hi] at h; cases h
    | fault => rw [hi] at h; cases h

theorem textbuf_eta (b : TextBuf) (x y : Int) (hx : b.buf_size = x) (hy : b.buf_cursor = y) :
    ({ buf := b.buf, buf_size := x, buf_cursor := y } : TextBuf) = b := by
  cases b
  simp_all

/-- Typing bytes at the end of a NUL-padded buffer in NEW view, one per
iteration: the bytes are appended and the padding is kept. -/
theorem run_typed_new (lr : LoadResult) (w : List Nat) : ∀ (s : State) (p : List Nat),
    s.current_view = CurrentView.NEW_ENTRY_VIEW →
    s.should_reload_entries = false →
    s.new_entry_buf.buf.length = 64 →
    s.new_entry_buf.buf_size = (p.length : Int) →
    s.new_entry_buf.buf_cursor = (p.length : Int) →
    (∀ j, s.new_entry_buf.buf[j]? =
      if j < p.length then p[j]? else if j < 64 then some 0 else none) →
    p.length + w.length ≤ 63 →
    (∀ b ∈ w, b ≠ 10 ∧ b ≠ 127 ∧ b ≠ 27) →
    ∃ r, run s (typed lr w) =
        Outcome.next { s with new_entry_buf :=
          { buf := r, buf_size := ((p ++ w).length : Int),
            buf_cursor := ((p ++ w).length : Int) } } [] ∧
      r.length = 64 ∧
      ∀ j, r[j]? = if j < (p ++ w).length then (p ++ w)[j]?
        else if j < 64 then some 0 else none := by
  induction w with
  | nil =>
    intro s p _ _ hlen hsize hcur hget _ _
    refine ⟨s.new_entry_buf.buf, ?_, hlen, by simpa using hget⟩
    simp only [typed, List.map_nil, run, List.append_nil]
    rw [textbuf_eta s.new_entry_buf _ _ hsize hcur]
  | cons b w ih =>
    intro s p hview hflag hlen hsize hcur hget hbound hbytes
    simp only [List.length_cons] at hbound
    have hb := hbytes b (List.mem_cons_self _ _)
    have hv : s.current_view ≠ CurrentView.LIST_VIEW := by simp [hview]
    have ha : (select_buf s.current_view).buf = some ActiveBuf.new_entry := by
      rw [hview]; rfl
    obtain ⟨r, hr, hrlen, hrget⟩ :=
      treat_as_char_spec s ActiveBuf.new_entry b p.length p.length hv ha hsize hcur
        (le_refl _) (by simp only [get_buf]; omega) (by omega)
    simp only [get_buf] at hrlen hrget
    have hiter : iteration s lr (key b) =
        Outcome.next (set_buf s ActiveBuf.new_entry
          { buf := r, buf_size := (p.length : Int) + 1,
            buf_cursor := (p.length : Int) + 1 }) [] := by
      simp only [iteration, hflag, key, Bool.false_eq_true, if_false]
      rw [step_eq_treat_as_char s b 0 0 hv hb.1 hb.2.1 hb.2.2]
      exact hr
    have hr2 : ∀ j, r[j]? = if j < (p ++ [b]).length then (p ++ [b])[j]?
        else if j < 64 then some 0 else none := by
      intro j
      rw [hrget j]
      simp only [List.length_append, List.length_singleton]
      by_cases hj : j = p.length
      · subst hj
        have h3 : p.length < p.length + 1 := by omega
        rw [if_pos rfl, if_pos h3, List.getElem?_append_right (le_refl _)]
        simp
      · rw [if_neg hj]
        by_cases hj2 : j < p.length
        · have h2 : ¬ (p.length < j ∧ j ≤ p.length + 1) := by omega
          have h3 : j < p.length + 1 := by omega
          rw [if_neg h2, hget j, if_pos hj2, if_pos h3, List.getElem?_append_left hj2]
        · by_cases hj3 : j = p.length + 1
          · subst hj3
            have h2 : p.length < p.length + 1 ∧ p.length + 1 ≤ p.length + 1 := by omega
            have h3 : ¬ (p.length + 1 < p.length + 1) := by omega
            have h4 : ¬ (p.length + 1 - 1 < p.length) := by omega
            have h5 : p.length + 1 - 1 < 64 := by omega
            have h6 : p.length + 1 < 64 := by omega
            rw [if_pos h2, hget _, if_neg h4, if_pos h5, if_neg h3, if_pos h6]
          · have h2 : ¬ (p.length < j ∧ j ≤ p.length + 1) := by omega
            have h3 : ¬ (j < p.length + 1) := by omega
            rw [if_neg h2, hget j, if_neg hj2, if_neg h3]
    obtain ⟨r3, hr3, hr3len, hr3get⟩ :=
      ih (set_buf s ActiveBuf.new_entry
          { buf := r, buf_size := (p.length : Int) + 1,
            buf_cursor := (p.length : Int) + 1 }) (p ++ [b])
        hview hflag (by simp only [set_buf]; omega)
        (by simp [set_buf]) (by simp [set_buf]) (by simpa only [set_buf] using hr2)
        (by simp; omega)
        (fun x hx => hbytes x (List.mem_cons_of_mem _ hx))
    refine ⟨r3, ?_, hr3len, by simpa using hr3get⟩
    have ht : typed lr (b :: w) = (lr, key b) :: typed lr w := by simp [typed]
    rw [ht, run_cons_next s _ lr (key b) _ [] hiter, hr3]
    simp [set_buf, prepend_calls]

/-- C6: starting in LIST view at a dispatch (reload flag clear) with
`new_entry_buf` empty, for every sequence `w` of 1 to 63 bytes, none of them
NUL, Enter, Backspace or ESC, the keystrokes `n`, the bytes of `w`, Enter make
exactly one store call, `new_entry` with the description `w`, and end in LIST
view with `new_entry_buf` empty and the reload flag set, the rest of the state
being as before. -/
theorem C6_new_then_save (s : State) (lr : LoadResult) (w : List Nat)
    (hview : s.current_view = CurrentView.LIST_VIEW)
    (hflag : s.should_reload_entries = false)
    (hempty : s.new_entry_buf = empty_buf)
    (h1 : 1 ≤ w.length) (h63 : w.length ≤ 63)
    (hbytes : ∀ b ∈ w, b ≠ 0 ∧ b ≠ 10 ∧ b ≠ 127 ∧ b ≠ 27) :
    run s (typed lr (110 :: w ++ [10])) =
      Outcome.next { s with should_reload_entries := true } [StoreCall.new_entry w] := by
  have hn : iteration s lr (key 110) =
      Outcome.next { s with current_view := CurrentView.NEW_ENTRY_VIEW } [] := by
    simp [iteration, hflag, key, step, key_n, hview]
  obtain ⟨r, hr, hrlen, hrget⟩ :=
    run_typed_new lr w { s with current_view := CurrentView.NEW_ENTRY_VIEW } [] rfl hflag
      (by simp [hempty, empty_buf]) (by simp [hempty, empty_buf])
      (by simp [hempty, empty_buf])
      (by
        intro j
        simp only [hempty, empty_buf, List.length_nil, Nat.not_lt_zero, if_false]
        rw [List.getElem?_replicate])
      (by simpa using h63) (fun b hb => (hbytes b hb).2)
  simp only [List.nil_append] at hr hrget
  have hrw : r[w.length]? = some 0 := by
    have h2 : ¬ (w.length < w.length) := by omega
    have h3 : w.length < 64 := by omega
    rw [hrget, if_neg h2, if_pos h3]
  have htake : r.take w.length = w := by
    apply List.ext_getElem?
    intro j
    rw [List.getElem?_take, hrget j]
    by_cases hj : j < w.length
    · rw [if_pos hj, if_pos hj]
    · rw [if_neg hj, List.getElem?_eq_none (by omega)]
  have hnz : 0 ∉ r.take w.length := by
    rw [htake]
    intro h0
    exact (hbytes 0 h0).1 rfl
  have hcs : c_string r = some w := by
    rw [← htake]; exact (c_string_take r w.length hrw hnz).1
  have henter : iteration
      { s with current_view := CurrentView.NEW_ENTRY_VIEW,
               new_entry_buf := { buf := r, buf_size := (w.length : Int),
                                  buf_cursor := (w.length : Int) } } lr (key 10) =
      Outcome.next { s with should_reload_entries := true } [StoreCall.new_entry w] := by
    have hz := zero_buf_eq
      { buf := r, buf_size := (w.length : Int), buf_cursor := (w.length : Int) } hrlen
    simp only [iteration, hflag, Bool.false_eq_true, if_false, key, step, if_true, key_enter,
      key_enter_new, with_buf, select_buf, get_buf, new_entry, hcs, Option.map_some', hz,
      set_buf, Outcome.next.injEq, and_true]
    rw [← empty_buf, ← hempty, ← hview]
  have ht : typed lr (110 :: w ++ [10]) =
      (lr, key 110) :: (typed lr w ++ [(lr, key 10)]) := by simp [typed]
  rw [ht, run_cons_next s _ lr (key 110) _ [] hn, run_append _ _ _ _ _ hr,
    run_cons_next _ _ lr (key 10) [] _ henter]
  simp [run, prepend_calls]

/-- C6 on a fresh database after its first reload: `n`, `h`, `i`, Enter call
`new_entry` once, with the description `hi`. -/
theorem C6_new_then_save_witness :
    run { initial_state with should_reload_entries := false }
        (typed no_rows [110, 104, 105, 10]) =
      Outcome.next initial_state [StoreCall.new_entry [104, 105]] :=
  C6_new_then_save { initial_state with should_reload_entries := false } no_rows [104, 105]
    rfl rfl rfl (by decide) (by decide) (by decide)

/-! ## Well-formedness of the reachable states -/

theorem wr_some {α : Type} {a b : List α} {i : Int} {v : α} (h : wr a i v = some b) :
    0 ≤ i ∧ i.toNat < a.length ∧ b = a.set i.toNat v := by
  unfold wr at h
  split at h
  · rename_i h0
    cases h
    exact ⟨h0.1, by omega, rfl⟩
  · cases h

theorem wr_zero_ok {d d1 : List Nat} {i : Int} (h : wr d i 0 = some d1) :
    d1.length = d.length ∧ 0 ∈ d1 := by
  obtain ⟨_, h1, rfl⟩ := wr_some h
  exact ⟨by simp, List.getElem?_mem (List.getElem?_set_self h1)⟩

theorem wr_entries_ok {es es1 : List Entry} {i : Int} {e1 : Entry}
    (h : wr es i e1 = some es1) (hlen : es.length = 10) (hall : ∀ e ∈ es, EntryOK e)
    (he1 : EntryOK e1) : es1.length = 10 ∧ ∀ e ∈ es1, EntryOK e := by
  obtain ⟨_, _, rfl⟩ := wr_some h
  refine ⟨by simpa using hlen, fun e he => ?_⟩
  rcases List.mem_or_eq_of_mem_set he with h1 | h1
  · exact hall e h1
  · rw [h1]; exact he1

theorem rd_mem {α : Type} {a : List α} {i : Int} {v : α} (h : rd a i = some v) : v ∈ a :=
  List.getElem?_mem (rd_some h).2.2

theorem copy_loop_length (k : Nat) : ∀ (i : Int) (src dst r : List Nat),
    copy_loop k i src dst = some r → r.length = dst.length := by
  induction k with
  | zero =>
    intro i src dst r h
    simp only [copy_loop, Option.some.injEq] at h
    rw [h]
  | succ k ih =>
    intro i src dst r h
    simp only [copy_loop] at h
    split at h
    · cases h
    · split at h
      · cases h
      · rename_i v hv dst1 hw
        rw [ih _ _ _ _ h, wr_length hw]

theorem clear_description_loop_ok (k : Nat) : ∀ (i : Int) (es es1 : List Entry),
    clear_description_loop k i es = some es1 →
    es.length = 10 → (∀ e ∈ es, EntryOK e) →
    es1.length = 10 ∧ ∀ e ∈ es1, EntryOK e := by
  induction k with
  | zero =>
    intro i es es1 h hlen hall
    simp only [clear_description_loop, Option.some.injEq] at h
    rw [← h]; exact ⟨hlen, hall⟩
  | succ k ih =>
    intro i es es1 h hlen hall
    simp only [clear_description_loop] at h
    split at h
    · cases h
    · rename_i e he
      split at h
      · cases h
      · rename_i d hd
        split at h
        · cases h
        · rename_i es2 hes2
          have hd1 := wr_zero_ok hd
          have hok := wr_entries_ok hes2 hlen hall
            ⟨by rw [hd1.1]; exact (hall e (rd_mem he)).1, hd1.2⟩
          exact ih _ _ _ h hok.1 hok.2

theorem clear_entries_loop_ok (k : Nat) : ∀ (i : Int) (es es1 : List Entry),
    clear_entries_loop k i es = some es1 →
    es.length = 10 → (∀ e ∈ es, EntryOK e) →
    es1.length = 10 ∧ ∀ e ∈ es1, EntryOK e := by
  induction k with
  | zero =>
    intro i es es1 h hlen hall
    simp only [clear_entries_loop, Option.some.injEq] at h
    rw [← h]; exact ⟨hlen, hall⟩
  | succ k ih =>
    intro i es es1 h hlen hall
    simp only [clear_entries_loop] at h
    split at h
    · cases h
    · rename_i e he
      split at h
      · cases h
      · rename_i es2 hes2
        split at h
        · cases h
        · rename_i len hlen2
          split at h
          · cases h
          · rename_i es3 hes3
            split at h
            · cases h
            · rename_i e2 he2
              split at h
              · cases h
              · rename_i d hd
                split at h
                · cases h
                · rename_i es4 hes4
                  have hok2 := wr_entries_ok hes2 hlen hall (hall e (rd_mem he))
                  have hok3 := clear_description_loop_ok _ _ _ _ hes3 hok2.1 hok2.2
                  have hd1 := wr_zero_ok hd
                  have hok4 := wr_entries_ok hes4 hok3.1 hok3.2
                    ⟨by rw [hd1.1]; exact (hok3.2 e2 (rd_mem he2)).1, hd1.2⟩
                  exact ih _ _ _ h hok4.1 hok4.2

theorem load_row_ok (r : Row) (e : Entry) (h : load_row r = some e) : EntryOK e := by
  simp only [load_row] at h
  split at h
  · cases h
  · rename_i d1 hd1
    split at h
    · cases h
    · rename_i d2 hd2
      cases h
      have h1 := copy_loop_length _ _ _ _ _ hd1
      have h2 := wr_zero_ok hd2
      exact ⟨by rw [h2.1, h1]; simp [zero_entry], h2.2⟩

theorem load_entries_loop_ok (rows : List Row) : ∀ (es : List Entry) (sz : Int)
    (es1 : List Entry) (sz1 : Int),
    load_entries_loop rows es sz = some (es1, sz1) →
    es.length = 10 → (∀ e ∈ es, EntryOK e) →
    es1.length = 10 ∧ (∀ e ∈ es1, EntryOK e) ∧ sz1 = sz + rows.length := by
  induction rows with
  | nil =>
    intro es sz es1 sz1 h hlen hall
    simp only [load_entries_loop, Option.some.injEq, Prod.mk.injEq] at h
    obtain ⟨rfl, rfl⟩ := h
    exact ⟨hlen, hall, by simp⟩
  | cons r rows ih =>
    intro es sz es1 sz1 h hlen hall
    simp only [load_entries_loop] at h
    split at h
    · cases h
    · rename_i e he
      split at h
      · cases h
      · rename_i es2 hes2
        have hok := wr_entries_ok hes2 hlen hall (load_row_ok r e he)
        obtain ⟨h1, h2, h3⟩ := ih _ _ _ _ h hok.1 hok.2
        exact ⟨h1, h2, by rw [h3, List.length_cons]; push_cast; ring⟩

/-- What a reload changes: the entries (kept well-formed), their count, which
becomes the number of rows delivered, and the flag. -/
theorem reload_entries_spec (s s1 : State) (lr : LoadResult)
    (h : reload_entries s lr = some s1)
    (hlen : s.entries.length = 10) (hall : ∀ e ∈ s.entries, EntryOK e) :
    s1.entries.length = 10 ∧ (∀ e ∈ s1.entries, EntryOK e) ∧
      s1.entries_sz = lr.rows.length ∧
      s1.entries_in_view =
        (if (lr.rows.length : Int) > MAX_ENTRIES_IN_VIEW then MAX_ENTRIES_IN_VIEW
         else lr.rows.length) ∧
      s1.current_selection = s.current_selection ∧
      s1.current_view = s.current_view ∧
      s1.new_entry_buf = s.new_entry_buf ∧ s1.edit_entry_buf = s.edit_entry_buf ∧
      s1.should_reload_entries = false := by
  simp only [reload_entries, load_entries] at h
  split at h
  · cases h
  · rename_i es1 hes1
    split at h
    · cases h
    · rename_i x es2 sz res hload
      split at hload
      · cases hload
      · rename_i y es3 sz3 hloop
        simp only [Option.some.injEq, Prod.mk.injEq] at hload
        obtain ⟨rfl, rfl, _⟩ := hload
        cases h
        have hok1 := clear_entries_loop_ok _ _ _ _ hes1 hlen hall
        obtain ⟨h1, h2, h3⟩ := load_entries_loop_ok _ _ _ _ _ hloop hok1.1 hok1.2
        simp only [zero_add] at h3
        subst h3
        exact ⟨h1, h2, rfl, rfl, rfl, rfl, rfl, rfl, rfl⟩

theorem bufOK_empty : BufOK empty_buf := by
  refine ⟨by simp [empty_buf], by simp [empty_buf], by simp [empty_buf], by simp [empty_buf], ?_⟩
  intro j _ hj
  simp only [empty_buf]
  rw [List.getElem?_replicate, if_pos hj]

theorem set_buf_frame (s : State) (a : ActiveBuf) (b : TextBuf) :
    (set_buf s a b).entries = s.entries ∧
    (set_buf s a b).entries_in_view = s.entries_in_view ∧
    (set_buf s a b).entries_sz = s.entries_sz ∧
    (set_buf s a b).current_selection = s.current_selection ∧
    (set_buf s a b).should_reload_entries = s.should_reload_entries := by
  cases a <;> exact ⟨rfl, rfl, rfl, rfl, rfl⟩

theorem pageFrame_refl (s : State) : PageFrame s s := ⟨rfl, rfl, Or.inl rfl⟩

theorem pageFrame_set_buf (s : State) (a : ActiveBuf) (b : TextBuf) :
    PageFrame s (set_buf s a b) := by
  obtain ⟨_, h2, h3, h4, _⟩ := set_buf_frame s a b
  exact ⟨h2, h3, Or.inl h4⟩

theorem wellFormed_get_buf (s : State) (a : ActiveBuf) (h : WellFormed s) :
    BufOK (get_buf s a) := by
  cases a
  · exact h.2.2.1
  · exact h.2.2.2.1

theorem wellFormed_set_buf (s : State) (a : ActiveBuf) (b : TextBuf) (h : WellFormed s)
    (ha : (select_buf s.current_view).buf = some a) (hb : BufOK b) :
    WellFormed (set_buf s a b) := by
  obtain ⟨h1, h2, h3, h4, h5⟩ := h
  cases a with
  | new_entry => exact ⟨h1, h2, hb, h4, h5⟩
  | edit_entry =>
    refine ⟨h1, h2, h3, hb, fun hv => ?_⟩
    exfalso
    apply hv
    cases hview : s.current_view with
    | LIST_VIEW => rw [hview] at ha; cases ha
    | NEW_ENTRY_VIEW => rw [hview] at ha; cases ha
    | EDIT_ENTRY_VIEW => exact hview

theorem bufOK_nat (b : TextBuf) (h : BufOK b) :
    ∃ n c : Nat, b.buf_size = (n : Int) ∧ b.buf_cursor = (c : Int) ∧ c ≤ n ∧ n ≤ 63 := by
  obtain ⟨_, h0, h1, h2, _⟩ := h
  obtain ⟨c, hc⟩ := Int.eq_ofNat_of_zero_le h0
  obtain ⟨n, hn⟩ := Int.eq_ofNat_of_zero_le (le_trans h0 h1)
  exact ⟨n, c, hn, hc, by omega, by omega⟩

/-- With 63 bytes in a 64-byte buffer `treat_as_char` passes the size guard and
leaves the array. -/
theorem treat_as_char_full (s : State) (a : ActiveBuf) (ch c : Nat)
    (hview : s.current_view ≠ CurrentView.LIST_VIEW)
    (ha : (select_buf s.current_view).buf = some a)
    (hlen : (get_buf s a).buf.length = 64)
    (hsize : (get_buf s a).buf_size = 63)
    (hcursor : (get_buf s a).buf_cursor = (c : Int)) (hc : c ≤ 63) :
    treat_as_char s ch = Outcome.fault := by
  have e1 : ((63 : Int) + 1 - (c : Int)).toNat = (63 - c) + 1 := by omega
  have e3 : ¬ ((63 : Int) + 1 > MAX_STRING_LENGTH) := by
    simp only [MAX_STRING_LENGTH]; omega
  have hw : ∀ v, wr (get_buf s a).buf ((63 : Int) + 1) v = none := by
    intro v
    unfold wr
    rw [if_neg (by omega)]
  have hloop : shift_right_loop ((63 - c) + 1) ((63 : Int) + 1) (get_buf s a).buf = none := by
    simp only [shift_right_loop]
    split
    · rfl
    · rw [hw]
  unfold treat_as_char with_buf
  cases hv : s.current_view with
  | LIST_VIEW => exact absurd hv hview
  | NEW_ENTRY_VIEW =>
    rw [hv] at ha
    simp only [ha, hsize, hcursor, e3, if_false, e1, hloop]
  | EDIT_ENTRY_VIEW =>
    rw [hv] at ha
    simp only [ha, hsize, hcursor, e3, if_false, e1, hloop]

theorem treat_as_char_wf (s s1 : State) (ch : Nat) (calls : List StoreCall)
    (hwf : WellFormed s) (h : treat_as_char s ch = Outcome.next s1 calls) :
    WellFormed s1 ∧ PageFrame s s1 ∧ s1.current_view = s.current_view ∧
      s1.should_reload_entries = s.should_reload_entries := by
  by_cases hview : s.current_view = CurrentView.LIST_VIEW
  · simp only [treat_as_char, hview, Outcome.next.injEq] at h
    obtain ⟨rfl, _⟩ := h
    exact ⟨hwf, pageFrame_refl _, rfl, rfl⟩
  · obtain ⟨a, ha⟩ := select_buf_some s.current_view
    have hb := wellFormed_get_buf s a hwf
    obtain ⟨n, c, hn, hc, hcn, hn63⟩ := bufOK_nat _ hb
    by_cases hfull : n = 63
    · subst hfull
      rw [treat_as_char_full s a ch c hview ha hb.1 hn hc (by omega)] at h
      cases h
    · obtain ⟨r, hr, hrlen, hrget⟩ :=
        treat_as_char_spec s a ch n c hview ha hn hc hcn (by rw [hb.1]; omega) (by omega)
      rw [hr] at h
      simp only [Outcome.next.injEq] at h
      obtain ⟨rfl, _⟩ := h
      refine ⟨wellFormed_set_buf s a _ hwf ha ?_, pageFrame_set_buf _ _ _, set_buf_view _ _ _,
        (set_buf_frame _ _ _).2.2.2.2⟩
      refine ⟨by rw [hrlen]; exact hb.1, by simp only; omega, by simp only; omega,
        by simp only; omega, ?_⟩
      intro j hj hj64
      simp only at hj
      have hj1 : n + 1 ≤ j := by omega
      have h1 : ¬ (j = c) := by omega
      rw [hrget j, if_neg h1]
      by_cases hj2 : j = n + 1
      · subst hj2
        have h2 : c < n + 1 ∧ n + 1 ≤ n + 1 := by omega
        rw [if_pos h2]
        exact hb.2.2.2.2 _ (by rw [hn]; simp) (by omega)
      · have h2 : ¬ (c < j ∧ j ≤ n + 1) := by omega
        rw [if_neg h2]
        exact hb.2.2.2.2 _ (by rw [hn]; simp only [Int.toNat_ofNat]; omega) hj64

theorem key_delete_wf (s s1 : State) (calls : List StoreCall)
    (hwf : WellFormed s) (h : key_delete s = Outcome.next s1 calls) :
    WellFormed s1 ∧ PageFrame s s1 ∧ s1.current_view = s.current_view ∧
      s1.should_reload_entries = s.should_reload_entries := by
  obtain ⟨a, ha⟩ := select_buf_some s.current_view
  have hb := wellFormed_get_buf s a hwf
  obtain ⟨n, c, hn, hc, hcn, hn63⟩ := bufOK_nat _ hb
  by_cases hpos : 0 < c
  · obtain ⟨r, hr, hrlen, hrget⟩ :=
      key_delete_spec s a n c ha hn hc hpos hcn (by rw [hb.1]; omega)
    rw [hr] at h
    simp only [Outcome.next.injEq] at h
    obtain ⟨rfl, _⟩ := h
    refine ⟨wellFormed_set_buf s a _ hwf ha ?_, pageFrame_set_buf _ _ _, set_buf_view _ _ _,
      (set_buf_frame _ _ _).2.2.2.2⟩
    refine ⟨by rw [hrlen]; exact hb.1, by simp only; omega, by simp only; omega,
      by simp only; omega, ?_⟩
    intro j hj hj64
    simp only at hj
    have hj1 : n - 1 ≤ j := by omega
    rw [hrget j]
    by_cases hj2 : c - 1 ≤ j ∧ j < n
    · rw [if_pos hj2]
      exact hb.2.2.2.2 _ (by rw [hn]; simp only [Int.toNat_ofNat]; omega) (by omega)
    · rw [if_neg hj2]
      exact hb.2.2.2.2 _ (by rw [hn]; simp only [Int.toNat_ofNat]; omega) hj64
  · have hnoop : (select_buf s.current_view).buf_noop = false := by
      cases s.current_view <;> rfl
    have hc0 : ¬ ((n : Int) > 0 ∧ (c : Int) > 0) := by omega
    simp only [key_delete, with_buf, hnoop, ha, hn, hc, hc0, if_false, Bool.false_eq_true,
      Outcome.next.injEq] at h
    obtain ⟨rfl, _⟩ := h
    exact ⟨hwf, pageFrame_refl _, rfl, rfl⟩

theorem key_right_wf (s s1 : State) (calls : List StoreCall)
    (hwf : WellFormed s) (h : key_right s = Outcome.next s1 calls) :
    WellFormed s1 ∧ PageFrame s s1 ∧ s1.current_view = s.current_view ∧
      s1.should_reload_entries = s.should_reload_entries := by
  obtain ⟨a, ha⟩ := select_buf_some s.current_view
  have hb := wellFormed_get_buf s a hwf
  have hnoop : (select_buf s.current_view).buf_noop = false := by
    cases s.current_view <;> rfl
  simp only [key_right, with_buf, hnoop, ha, Bool.false_eq_true, if_false,
    Outcome.next.injEq] at h
  obtain ⟨rfl, _⟩ := h
  refine ⟨wellFormed_set_buf s a _ hwf ha ?_, pageFrame_set_buf _ _ _, set_buf_view _ _ _,
    (set_buf_frame _ _ _).2.2.2.2⟩
  obtain ⟨h1, h2, h3, h4, h5⟩ := hb
  refine ⟨h1, ?_, ?_, h4, h5⟩
  · simp only; split_ifs <;> omega
  · simp only; split_ifs <;> omega

theorem key_left_wf (s s1 : State) (calls : List StoreCall)
    (hwf : WellFormed s) (h : key_left s = Outcome.next s1 calls) :
    WellFormed s1 ∧ PageFrame s s1 ∧ s1.current_view = s.current_view ∧
      s1.should_reload_entries = s.should_reload_entries := by
  obtain ⟨a, ha⟩ := select_buf_some s.current_view
  have hb := wellFormed_get_buf s a hwf
  have hnoop : (select_buf s.current_view).buf_noop = false := by
    cases s.current_view <;> rfl
  simp only [key_left, with_buf, hnoop, ha, Bool.false_eq_true, if_false,
    Outcome.next.injEq] at h
  obtain ⟨rfl, _⟩ := h
  refine ⟨wellFormed_set_buf s a _ hwf ha ?_, pageFrame_set_buf _ _ _, set_buf_view _ _ _,
    (set_buf_frame _ _ _).2.2.2.2⟩
  obtain ⟨h1, h2, h3, h4, h5⟩ := hb
  refine ⟨h1, ?_, ?_, h4, h5⟩
  · simp only; split_ifs <;> omega
  · simp only; split_ifs <;> omega

theorem strlen_some : ∀ (l : List Nat) (n : Int), strlen l = some n →
    ∃ m : Nat, n = (m : Int) ∧ m < l.length ∧ l[m]? = some 0 ∧ 0 ∉ l.take m
  | [], n, h => by simp [strlen] at h
  | x :: xs, n, h => by
    by_cases hx : x = 0
    · subst hx
      simp only [strlen, if_true, Option.some.injEq] at h
      exact ⟨0, by omega, by simp, by simp, by simp⟩
    · simp only [strlen, hx, if_false, Option.map_eq_some'] at h
      obtain ⟨k, hk, rfl⟩ := h
      obtain ⟨m, rfl, hm, hget, hz⟩ := strlen_some xs k hk
      refine ⟨m + 1, by push_cast; ring, by simp; omega, by simpa using hget, ?_⟩
      simp only [List.take_succ_cons, List.mem_cons, not_or]
      exact ⟨fun h => hx h.symm, hz⟩

/-- The copy of `e` in LIST view: copying the C string of a description into an
empty buffer leaves that string NUL-padded, and `strlen` of the result is its
length. -/
theorem copy_into_empty (desc : List Nat) (m : Nat) (hlen : desc.length = 64)
    (hm : m < 64) (hz : 0 ∉ desc.take m) :
    ∃ r, copy_loop m 0 desc empty_buf.buf = some r ∧ r.length = 64 ∧
      r = desc.take m ++ List.replicate (64 - m) 0 ∧
      (∀ j, r[j]? = if j < m then desc[j]? else if j < 64 then some 0 else none) ∧
      strlen r = some (m : Int) := by
  obtain ⟨r, hr, hrlen, hrget⟩ :=
    copy_loop_spec m 0 desc empty_buf.buf (by omega) (by simp [empty_buf]; omega)
  have hrget2 : ∀ j, r[j]? = if j < m then desc[j]? else if j < 64 then some 0 else none := by
    intro j
    rw [hrget j]
    by_cases hj : j < m
    · have h1 : 0 ≤ j ∧ j < 0 + m := by omega
      rw [if_pos h1, if_pos hj]
    · have h1 : ¬ (0 ≤ j ∧ j < 0 + m) := by omega
      rw [if_neg h1, if_neg hj]
      simp only [empty_buf]
      rw [List.getElem?_replicate]
  have hrm : r[m]? = some 0 := by
    have h1 : ¬ (m < m) := by omega
    rw [hrget2 m, if_neg h1, if_pos hm]
  have htake : r.take m = desc.take m := by
    apply List.ext_getElem?
    intro j
    rw [List.getElem?_take, List.getElem?_take, hrget2 j]
    by_cases hj : j < m
    · rw [if_pos hj, if_pos hj, if_pos hj]
    · rw [if_neg hj, if_neg hj]
  refine ⟨r, by simpa using hr, by rw [hrlen]; simp [empty_buf], ?_, hrget2, ?_⟩
  · apply List.ext_getElem?
    intro j
    rw [hrget2 j]
    by_cases hj : j < m
    · rw [if_pos hj, List.getElem?_append_left (by simp; omega), List.getElem?_take, if_pos hj]
    · rw [if_neg hj, List.getElem?_append_right (by simp; omega), List.getElem?_replicate]
      simp only [List.length_take, hlen]
      by_cases hj2 : j < 64
      · have h3 : j - min m 64 < 64 - m := by omega
        rw [if_pos hj2, if_pos h3]
      · have h3 : ¬ (j - min m 64 < 64 - m) := by omega
        rw [if_neg hj2, if_neg h3]
  · exact (c_string_take r m hrm (by rw [htake]; exact hz)).2

/-- What `e` does in LIST view on a non-empty page when `edit_entry_buf` is
empty and the selected description is a NUL-terminated 64-byte array. -/
theorem key_e_list (s : State) (e : Entry)
    (hview : s.current_view = CurrentView.LIST_VIEW)
    (hpage : 0 < s.entries_in_view)
    (hsel : rd s.entries s.current_selection = some e)
    (hok : EntryOK e) (hedit : s.edit_entry_buf = empty_buf) :
    ∃ d, c_string e.description = some d ∧ d.length ≤ 63 ∧
      key_e s = Outcome.next
        { s with
          edit_entry_buf :=
            { buf := d ++ List.replicate (64 - d.length) 0,
              buf_size := (d.length : Int), buf_cursor := (d.length : Int) },
          current_view := CurrentView.EDIT_ENTRY_VIEW } [] := by
  obtain ⟨m, hm, hget, hz, hcs, hsl⟩ := c_string_of_mem e.description hok.2
  rw [hok.1] at hm
  obtain ⟨r, hr, hrlen, hreq, _, hrs⟩ := copy_into_empty e.description m hok.1 hm hz
  have hdl : (e.description.take m).length = m := by
    rw [List.length_take, hok.1]; omega
  refine ⟨e.description.take m, hcs, by omega, ?_⟩
  have hpage2 : s.entries_in_view > 0 := hpage
  rw [hdl, ← hreq]
  simp only [key_e, hview, hpage2, if_true, hsel, hsl, Int.toNat_ofNat, hedit, hr, hrs]

theorem key_e_wf (s s1 : State) (calls : List StoreCall)
    (hwf : WellFormed s) (h : key_e s = Outcome.next s1 calls) :
    WellFormed s1 ∧ PageFrame s s1 := by
  by_cases hview : s.current_view = CurrentView.LIST_VIEW
  · by_cases hpage : 0 < s.entries_in_view
    · cases hsel : rd s.entries s.current_selection with
      | none =>
        have hpage2 : s.entries_in_view > 0 := hpage
        simp [key_e, hview, hpage2, hsel] at h
      | some e =>
        have hedit := hwf.2.2.2.2 (by rw [hview]; decide)
        obtain ⟨d, hd, hd63, hk⟩ :=
          key_e_list s e hview hpage hsel (hwf.2.1 e (rd_mem hsel)) hedit
        rw [hk] at h
        simp only [Outcome.next.injEq] at h
        obtain ⟨rfl, _⟩ := h
        refine ⟨⟨hwf.1, hwf.2.1, hwf.2.2.1, ?_, fun hv => absurd rfl hv⟩,
          ⟨rfl, rfl, Or.inl rfl⟩⟩
        refine ⟨by simp; omega, by simp, by simp, by simp only; omega, ?_⟩
        intro j hj hj64
        simp only [Int.toNat_ofNat] at hj
        rw [List.getElem?_append_right hj, List.getElem?_replicate]
        have h3 : j - d.length < 64 - d.length := by omega
        rw [if_pos h3]
    · have hpage2 : ¬ (s.entries_in_view > 0) := hpage
      simp only [key_e, hview, hpage2, if_false, Outcome.next.injEq] at h
      obtain ⟨rfl, _⟩ := h
      exact ⟨hwf, pageFrame_refl _⟩
  · have h2 : key_e s = treat_as_char s 101 := by
      cases hv : s.current_view <;> simp_all [key_e]
    rw [h2] at h
    obtain ⟨h3, h4, _⟩ := treat_as_char_wf s s1 101 calls hwf h
    exact ⟨h3, h4⟩

theorem key_enter_wf (s s1 : State) (calls : List StoreCall)
    (hwf : WellFormed s) (h : key_enter s = Outcome.next s1 calls) :
    WellFormed s1 ∧ PageFrame s s1 := by
  obtain ⟨h1, h2, h3, h4, h5⟩ := hwf
  cases hview : s.current_view with
  | LIST_VIEW =>
    simp only [key_enter, hview, key_enter_list] at h
    split at h
    · cases h
    · rename_i e he
      split at h
      · cases h
      · rename_i es1 hes1
        split at h
        · cases h
        · simp only [Outcome.next.injEq] at h
          obtain ⟨rfl, _⟩ := h
          have hok := wr_entries_ok hes1 h1 h2 (h2 e (rd_mem he))
          exact ⟨⟨hok.1, hok.2, h3, h4, fun _ => h5 (by rw [hview]; decide)⟩,
            ⟨rfl, rfl, Or.inl rfl⟩⟩
  | NEW_ENTRY_VIEW =>
    simp only [key_enter, hview, key_enter_new, with_buf, select_buf, get_buf,
      zero_buf_eq s.new_entry_buf h3.1, set_buf] at h
    split at h
    · cases h
    · simp only [Outcome.next.injEq] at h
      obtain ⟨rfl, _⟩ := h
      exact ⟨⟨h1, h2, bufOK_empty, h4, fun _ => h5 (by rw [hview]; decide)⟩,
        ⟨rfl, rfl, Or.inl rfl⟩⟩
  | EDIT_ENTRY_VIEW =>
    simp only [key_enter, hview, key_enter_edit, with_buf, select_buf, get_buf,
      zero_buf_eq s.edit_entry_buf h4.1, set_buf] at h
    split at h
    · simp only [Outcome.next.injEq] at h
      obtain ⟨rfl, _⟩ := h
      exact ⟨⟨h1, h2, h3, h4, h5⟩, pageFrame_refl _⟩
    · split at h
      · cases h
      · rename_i e he
        split at h
        · cases h
        · rename_i d1 hd1
          split at h
          · cases h
          · rename_i d2 hd2
            split at h
            · cases h
            · rename_i es1 hes1
              split at h
              · cases h
              · simp only [Outcome.next.injEq] at h
                obtain ⟨rfl, _⟩ := h
                have hl1 := copy_loop_length _ _ _ _ _ hd1
                have hz := wr_zero_ok hd2
                have hok := wr_entries_ok hes1 h1 h2
                  ⟨by rw [hz.1, hl1]; exact (h2 e (rd_mem he)).1, hz.2⟩
                exact ⟨⟨hok.1, hok.2, h3, bufOK_empty, fun _ => rfl⟩, ⟨rfl, rfl, Or.inl rfl⟩⟩

theorem key_escape_wf (s s1 : State) (calls : List StoreCall)
    (hwf : WellFormed s) (h : key_escape s = Outcome.next s1 calls) :
    WellFormed s1 ∧ PageFrame s s1 := by
  obtain ⟨h1, h2, h3, h4, h5⟩ := hwf
  cases hview : s.current_view with
  | LIST_VIEW => simp [key_escape, hview] at h
  | NEW_ENTRY_VIEW =>
    simp only [key_escape, hview, Outcome.next.injEq] at h
    obtain ⟨rfl, _⟩ := h
    exact ⟨⟨h1, h2, h3, h4, fun _ => h5 (by rw [hview]; decide)⟩, ⟨rfl, rfl, Or.inl rfl⟩⟩
  | EDIT_ENTRY_VIEW =>
    simp only [key_escape, hview, with_buf, select_buf, get_buf,
      zero_buf_eq s.edit_entry_buf h4.1, set_buf, Outcome.next.injEq] at h
    obtain ⟨rfl, _⟩ := h
    exact ⟨⟨h1, h2, h3, bufOK_empty, fun _ => rfl⟩, ⟨rfl, rfl, Or.inl rfl⟩⟩

theorem selection_up_wf (s : State) (hwf : WellFormed s) :
    WellFormed (selection_up s) ∧ PageFrame s (selection_up s) :=
  ⟨hwf, ⟨rfl, rfl, Or.inr (Or.inl rfl)⟩⟩

theorem selection_down_wf (s : State) (hwf : WellFormed s) :
    WellFormed (selection_down s) ∧ PageFrame s (selection_down s) :=
  ⟨hwf, ⟨rfl, rfl, Or.inr (Or.inr (Or.inl rfl))⟩⟩

theorem key_27_wf (s s1 : State) (inp : Input) (calls : List StoreCall)
    (hwf : WellFormed s) (h : key_27 s inp = Outcome.next s1 calls) :
    WellFormed s1 ∧ PageFrame s s1 := by
  unfold key_27 at h
  split_ifs at h
  · simp only [Outcome.next.injEq] at h; obtain ⟨rfl, _⟩ := h; exact selection_up_wf s hwf
  · simp only [Outcome.next.injEq] at h; obtain ⟨rfl, _⟩ := h; exact ⟨hwf, pageFrame_refl _⟩
  · simp only [Outcome.next.injEq] at h; obtain ⟨rfl, _⟩ := h; exact selection_down_wf s hwf
  · simp only [Outcome.next.injEq] at h; obtain ⟨rfl, _⟩ := h; exact ⟨hwf, pageFrame_refl _⟩
  · obtain ⟨h3, h4, _⟩ := key_right_wf s s1 calls hwf h; exact ⟨h3, h4⟩
  · obtain ⟨h3, h4, _⟩ := key_left_wf s s1 calls hwf h; exact ⟨h3, h4⟩
  · simp only [Outcome.next.injEq] at h; obtain ⟨rfl, _⟩ := h; exact ⟨hwf, pageFrame_refl _⟩
  · exact key_escape_wf s s1 calls hwf h
  · simp only [Outcome.next.injEq] at h; obtain ⟨rfl, _⟩ := h; exact ⟨hwf, pageFrame_refl _⟩

theorem wellFormed_of_fields (s s1 : State) (hwf : WellFormed s)
    (he : s1.entries = s.entries) (hn : s1.new_entry_buf = s.new_entry_buf)
    (hed : s1.edit_entry_buf = s.edit_entry_buf)
    (hv : s1.current_view ≠ CurrentView.EDIT_ENTRY_VIEW →
      s.current_view ≠ CurrentView.EDIT_ENTRY_VIEW) : WellFormed s1 := by
  obtain ⟨h1, h2, h3, h4, h5⟩ := hwf
  refine ⟨by rw [he]; exact h1, by rw [he]; exact h2, by rw [hn]; exact h3,
    by rw [hed]; exact h4, fun h => ?_⟩
  rw [hed]
  exact h5 (hv h)

/-- The dispatch runs exactly one of the case bodies. -/
theorem step_cases (s : State) (inp : Input) :
    step s inp = key_enter s ∨ step s inp = key_e s ∨ step s inp = key_d s ∨
      step s inp = key_x s ∨ step s inp = key_n s ∨ step s inp = key_q s ∨
      step s inp = key_delete s ∨ step s inp = key_k s ∨ step s inp = key_j s ∨
      step s inp = key_27 s inp ∨ step s inp = treat_as_char s inp.c0 := by
  unfold step
  by_cases h1 : inp.c0 = 10
  · exact Or.inl (if_pos h1)
  by_cases h2 : inp.c0 = 101
  · right; left; simp only [if_neg h1, if_pos h2]
  by_cases h3 : inp.c0 = 100
  · right; right; left; simp only [if_neg h1, if_neg h2, if_pos h3]
  by_cases h4 : inp.c0 = 120
  · right; right; right; left; simp only [if_neg h1, if_neg h2, if_neg h3, if_pos h4]
  by_cases h5 : inp.c0 = 110
  · right; right; right; right; left
    simp only [if_neg h1, if_neg h2, if_neg h3, if_neg h4, if_pos h5]
  by_cases h6 : inp.c0 = 113
  · right; right; right; right; right; left
    simp only [if_neg h1, if_neg h2, if_neg h3, if_neg h4, if_neg h5, if_pos h6]
  by_cases h7 : inp.c0 = 127
  · right; right; right; right; right; right; left
    simp only [if_neg h1, if_neg h2, if_neg h3, if_neg h4, if_neg h5, if_neg h6, if_pos h7]
  by_cases h8 : inp.c0 = 107
  · right; right; right; right; right; right; right; left
    simp only [if_neg h1, if_neg h2, if_neg h3, if_neg h4, if_neg h5, if_neg h6, if_neg h7,
      if_pos h8]
  by_cases h9 : inp.c0 = 106
  · right; right; right; right; right; right; right; right; left
    simp only [if_neg h1, if_neg h2, if_neg h3, if_neg h4, if_neg h5, if_neg h6, if_neg h7,
      if_neg h8, if_pos h9]
  by_cases h10 : inp.c0 = 27
  · right; right; right; right; right; right; right; right; right; left
    simp only [if_neg h1, if_neg h2, if_neg h3, if_neg h4, if_neg h5, if_neg h6, if_neg h7,
      if_neg h8, if_neg h9, if_pos h10]
  · right; right; right; right; right; right; right; right; right; right
    simp only [if_neg h1, if_neg h2, if_neg h3, if_neg h4, if_neg h5, if_neg h6, if_neg h7,
      if_neg h8, if_neg h9, if_neg h10]

/-- A dispatch keeps the state well-formed and the page within `PageFrame`. -/
theorem step_wf (s s1 : State) (inp : Input) (calls : List StoreCall)
    (hwf : WellFormed s) (h : step s inp = Outcome.next s1 calls) :
    WellFormed s1 ∧ PageFrame s s1 := by
  have htc : ∀ ch, treat_as_char s ch = Outcome.next s1 calls →
      WellFormed s1 ∧ PageFrame s s1 := by
    intro ch h
    obtain ⟨h3, h4, _⟩ := treat_as_char_wf s s1 ch calls hwf h
    exact ⟨h3, h4⟩
  rcases step_cases s inp with hc | hc | hc | hc | hc | hc | hc | hc | hc | hc | hc <;>
    rw [hc] at h
  · exact key_enter_wf s s1 calls hwf h
  · exact key_e_wf s s1 calls hwf h
  · cases hview : s.current_view with
    | LIST_VIEW =>
      simp only [key_d, hview] at h
      split at h
      · cases h
      · simp only [Outcome.next.injEq] at h
        obtain ⟨rfl, _⟩ := h
        exact ⟨wellFormed_of_fields s _ hwf rfl rfl rfl (fun _ => by rw [hview]; decide),
          ⟨rfl, rfl, Or.inr (Or.inr (Or.inr rfl))⟩⟩
    | NEW_ENTRY_VIEW => simp only [key_d, hview] at h; exact htc _ h
    | EDIT_ENTRY_VIEW => simp only [key_d, hview] at h; exact htc _ h
  · cases hview : s.current_view with
    | LIST_VIEW =>
      simp only [key_x, hview, Outcome.next.injEq] at h
      obtain ⟨rfl, _⟩ := h
      exact ⟨wellFormed_of_fields s _ hwf rfl rfl rfl (fun _ => by rw [hview]; decide),
        ⟨rfl, rfl, Or.inl rfl⟩⟩
    | NEW_ENTRY_VIEW => simp only [key_x, hview] at h; exact htc _ h
    | EDIT_ENTRY_VIEW => simp only [key_x, hview] at h; exact htc _ h
  · cases hview : s.current_view with
    | LIST_VIEW =>
      simp only [key_n, hview, Outcome.next.injEq] at h
      obtain ⟨rfl, _⟩ := h
      exact ⟨wellFormed_of_fields s _ hwf rfl rfl rfl (fun _ => by rw [hview]; decide),
        ⟨rfl, rfl, Or.inl rfl⟩⟩
    | NEW_ENTRY_VIEW => simp only [key_n, hview] at h; exact htc _ h
    | EDIT_ENTRY_VIEW => simp only [key_n, hview] at h; exact htc _ h
  · cases hview : s.current_view with
    | LIST_VIEW => simp [key_q, hview] at h
    | NEW_ENTRY_VIEW => simp only [key_q, hview] at h; exact htc _ h
    | EDIT_ENTRY_VIEW => simp only [key_q, hview] at h; exact htc _ h
  · obtain ⟨h3, h4, _⟩ := key_delete_wf s s1 calls hwf h; exact ⟨h3, h4⟩
  · unfold key_k at h
    split_ifs at h
    · simp only [Outcome.next.injEq] at h; obtain ⟨rfl, _⟩ := h; exact selection_up_wf s hwf
    · exact htc _ h
  · unfold key_j at h
    split_ifs at h
    · simp only [Outcome.next.injEq] at h; obtain ⟨rfl, _⟩ := h; exact selection_down_wf s hwf
    · exact htc _ h
  · exact key_27_wf s s1 inp calls hwf h
  · exact htc _ h

theorem initial_state_wf : WellFormed initial_state := by
  refine ⟨by simp [initial_state], ?_, bufOK_empty, bufOK_empty, fun _ => rfl⟩
  intro e he
  simp only [initial_state] at he
  rw [List.eq_of_mem_replicate he]
  exact ⟨by simp [zero_entry], by simp [zero_entry]⟩

/-- Every reachable state is well-formed, whatever pages the store delivers. -/
theorem reachable_wf (P : State → LoadResult → Prop) (s : State)
    (h : ReachableWhen P s) : WellFormed s := by
  induction h with
  | init => exact initial_state_wf
  | reload s lr s1 _ _ _ hr ih =>
    obtain ⟨h1, h2, _, _, _, h6, h7, h8, _⟩ := reload_entries_spec s s1 lr hr ih.1 ih.2.1
    refine ⟨h1, h2, by rw [h7]; exact ih.2.2.1, by rw [h8]; exact ih.2.2.2.1, ?_⟩
    rw [h6, h8]
    exact ih.2.2.2.2
  | key s inp s1 calls _ _ hs ih => exact (step_wf s s1 inp calls ih hs).1

/-! ## Reachable states -/

/-- The states along a run of the main loop are reachable. -/
theorem reachable_run (trace : List (LoadResult × Input)) : ∀ (s s1 : State)
    (calls : List StoreCall), Reachable s → (∀ x ∈ trace, x.1.rows.length ≤ 10) →
    run s trace = Outcome.next s1 calls → Reachable s1 := by
  induction trace with
  | nil =>
    intro s s1 calls hs _ h
    simp only [run, Outcome.next.injEq] at h
    rw [← h.1]; exact hs
  | cons x trace ih =>
    intro s s1 calls hs hrows h
    obtain ⟨lr, inp⟩ := x
    simp only [run] at h
    cases hi : iteration s lr inp with
    | next s2 calls2 =>
      rw [hi] at h
      simp only at h
      have hs2 : Reachable s2 := by
        unfold iteration at hi
        by_cases hflag : s.should_reload_entries = true
        · rw [if_pos hflag] at hi
          cases hr : reload_entries s lr with
          | none => rw [hr] at hi; cases hi
          | some s3 =>
            rw [hr] at hi
            simp only at hi
            have h3 : Reachable s3 :=
              ReachableWhen.reload s lr s3 hs hflag (hrows (lr, inp) (List.mem_cons_self _ _)) hr
            have hf3 := (reload_entries_spec s s3 lr hr (reachable_wf _ s hs).1
              (reachable_wf _ s hs).2.1).2.2.2.2.2.2.2.2
            exact ReachableWhen.key s3 inp s2 calls2 h3 hf3 hi
        · rw [if_neg hflag] at hi
          exact ReachableWhen.key s inp s2 calls2 hs (by simpa using hflag) hi
      cases hr : run s2 trace with
      | next s3 calls3 =>
        rw [hr] at h
        simp only [prepend_calls, Outcome.next.injEq] at h
        rw [← h.1]
        exact ih s2 s3 calls3 hs2 (fun x hx => hrows x (List.mem_cons_of_mem _ hx)) hr
      | quit r => rw [hr] at h; simp [prepend_calls] at h
      | fault => rw [hr] at h; simp [prepend_calls] at h
    | quit r => rw [hi] at h; cases h
    | fault => rw [hi] at h; cases h

/-- In every reachable state the page shows at most ten entries. -/
theorem reachable_entries_in_view (P : State → LoadResult → Prop) (s : State)
    (h : ReachableWhen P s) : s.entries_in_view ≤ 10 := by
  induction h with
  | init => simp [initial_state]
  | reload s lr s1 hs _ _ hr _ =>
    have hwf := reachable_wf P s hs
    rw [(reload_entries_spec s s1 lr hr hwf.1 hwf.2.1).2.2.2.1]
    simp only [MAX_ENTRIES_IN_VIEW]
    split_ifs <;> omega
  | key s inp s1 calls hs _ hstep ih =>
    rw [(step_wf s s1 inp calls (reachable_wf P s hs) hstep).2.1]
    exact ih

/-- C2 (as the claim states it) fails: after a page of two completed entries,
`j` selects the second, `x` archives them and the reload delivers an empty page;
the selection is still 1 while `entries_in_view` is 0. -/
theorem C2_selection_invariant_counterexample :
    ∃ s1 s, run initial_state [(two_done_rows, key 106), (no_rows, key 120)] =
        Outcome.next s1 [StoreCall.clear_completed_entries] ∧
      reload_entries s1 no_rows = some s ∧
      Reachable s ∧ s.current_selection = 1 ∧ s.entries_in_view = 0 ∧
      ¬ SelectionInv s := by
  have h1 := reachable_run [(two_done_rows, key 106), (no_rows, key 120)] initial_state _ _
    ReachableWhen.init (by decide) rfl
  exact ⟨_, _, rfl, rfl, ReachableWhen.reload _ no_rows _ h1 rfl (by decide) rfl, by decide,
    by decide, by decide⟩

theorem set_buf_sel (s : State) (a : ActiveBuf) (b : TextBuf) :
    (set_buf s a b).current_selection = s.current_selection := by
  cases a <;> rfl

theorem treat_as_char_sel (s s1 : State) (ch : Nat) (calls : List StoreCall)
    (h : treat_as_char s ch = Outcome.next s1 calls) :
    s1.current_selection = s.current_selection := by
  unfold treat_as_char with_buf at h
  repeat' first | split at h | dsimp only at h
  all_goals first | exact set_buf_sel _ _ _ | (cases h <;> first | rfl | exact set_buf_sel _ _ _)

theorem key_delete_sel (s s1 : State) (calls : List StoreCall)
    (h : key_delete s = Outcome.next s1 calls) :
    s1.current_selection = s.current_selection := by
  unfold key_delete with_buf at h
  repeat' first | split at h | dsimp only at h
  all_goals first | exact set_buf_sel _ _ _ | (cases h <;> first | rfl | exact set_buf_sel _ _ _)

theorem key_right_sel (s s1 : State) (calls : List StoreCall)
    (h : key_right s = Outcome.next s1 calls) :
    s1.current_selection = s.current_selection := by
  unfold key_right with_buf at h
  repeat' first | split at h | dsimp only at h
  all_goals first | exact set_buf_sel _ _ _ | (cases h <;> first | rfl | exact set_buf_sel _ _ _)

theorem key_left_sel (s s1 : State) (calls : List StoreCall)
    (h : key_left s = Outcome.next s1 calls) :
    s1.current_selection = s.current_selection := by
  unfold key_left with_buf at h
  repeat' first | split at h | dsimp only at h
  all_goals first | exact set_buf_sel _ _ _ | (cases h <;> first | rfl | exact set_buf_sel _ _ _)

theorem key_escape_sel (s s1 : State) (calls : List StoreCall)
    (h : key_escape s = Outcome.next s1 calls) :
    s1.current_selection = s.current_selection := by
  unfold key_escape with_buf at h
  repeat' first | split at h | dsimp only at h
  all_goals first | exact set_buf_sel _ _ _ | (cases h <;> first | rfl | exact set_buf_sel _ _ _)

theorem key_enter_sel (s s1 : State) (calls : List StoreCall)
    (h : key_enter s = Outcome.next s1 calls) :
    s1.current_selection = s.current_selection := by
  unfold key_enter key_enter_list key_enter_new key_enter_edit with_buf at h
  repeat' first | split at h | dsimp only at h
  all_goals first | exact set_buf_sel _ _ _ | (cases h <;> first | rfl | exact set_buf_sel _ _ _)

theorem key_e_sel (s s1 : State) (calls : List StoreCall)
    (h : key_e s = Outcome.next s1 calls) :
    s1.current_selection = s.current_selection := by
  unfold key_e at h
  repeat' first | split at h | dsimp only at h
  all_goals first | exact treat_as_char_sel _ _ _ _ h | (cases h <;> rfl)

theorem key_27_sel (s s1 : State) (inp : Input) (calls : List StoreCall)
    (h : key_27 s inp = Outcome.next s1 calls) :
    s1.current_selection = s.current_selection ∨
      (s.current_view = CurrentView.LIST_VIEW ∧ (inp.c1 = 91 ∧ inp.c2 = 65) ∧
        s1.current_selection = (selection_up s).current_selection) ∨
      s1.current_selection = (selection_down s).current_selection := by
  unfold key_27 at h
  by_cases h1 : inp.c1 = 91
  · rw [if_pos h1] at h
    by_cases h2 : inp.c2 = 65
    · rw [if_pos h2] at h
      by_cases hv : s.current_view = CurrentView.LIST_VIEW
      · rw [if_pos hv] at h
        cases h
        exact Or.inr (Or.inl ⟨hv, ⟨h1, h2⟩, rfl⟩)
      · rw [if_neg hv] at h
        cases h
        exact Or.inl rfl
    · rw [if_neg h2] at h
      split_ifs at h
      · cases h; exact Or.inr (Or.inr rfl)
      · cases h; exact Or.inl rfl
      · exact Or.inl (key_right_sel s s1 calls h)
      · exact Or.inl (key_left_sel s s1 calls h)
      · cases h; exact Or.inl rfl
  · rw [if_neg h1] at h
    split_ifs at h
    · exact Or.inl (key_escape_sel s s1 calls h)
    · cases h; exact Or.inl rfl

/-- The handler that the dispatch runs, with the byte that selects `key_k`
and `key_27`. -/
theorem step_cases_up (s : State) (inp : Input) :
    (inp.c0 = 107 ∧ step s inp = key_k s) ∨ (inp.c0 = 27 ∧ step s inp = key_27 s inp) ∨
      step s inp = key_enter s ∨ step s inp = key_e s ∨ step s inp = key_d s ∨
      step s inp = key_x s ∨ step s inp = key_n s ∨ step s inp = key_q s ∨
      step s inp = key_delete s ∨ step s inp = key_j s ∨
      step s inp = treat_as_char s inp.c0 := by
  unfold step
  by_cases h1 : inp.c0 = 10
  · right; right; left; exact if_pos h1
  by_cases h2 : inp.c0 = 101
  · right; right; right; left; simp only [if_neg h1, if_pos h2]
  by_cases h3 : inp.c0 = 100
  · right; right; right; right; left; simp only [if_neg h1, if_neg h2, if_pos h3]
  by_cases h4 : inp.c0 = 120
  · right; right; right; right; right; left
    simp only [if_neg h1, if_neg h2, if_neg h3, if_pos h4]
  by_cases h5 : inp.c0 = 110
  · right; right; right; right; right; right; left
    simp only [if_neg h1, if_neg h2, if_neg h3, if_neg h4, if_pos h5]
  by_cases h6 : inp.c0 = 113
  · right; right; right; right; right; right; right; left
    simp only [if_neg h1, if_neg h2, if_neg h3, if_neg h4, if_neg h5, if_pos h6]
  by_cases h7 : inp.c0 = 127
  · right; right; right; right; right; right; right; right; left
    simp only [if_neg h1, if_neg h2, if_neg h3, if_neg h4, if_neg h5, if_neg h6, if_pos h7]
  by_cases h8 : inp.c0 = 107
  · left
    refine ⟨h8, ?_⟩
    simp only [if_neg h1, if_neg h2, if_neg h3, if_neg h4, if_neg h5, if_neg h6, if_neg h7,
      if_pos h8]
  by_cases h9 : inp.c0 = 106
  · right; right; right; right; right; right; right; right; right; left
    simp only [if_neg h1, if_neg h2, if_neg h3, if_neg h4, if_neg h5, if_neg h6, if_neg h7,
      if_neg h8, if_pos h9]
  by_cases h10 : inp.c0 = 27
  · right; left
    refine ⟨h10, ?_⟩
    simp only [if_neg h1, if_neg h2, if_neg h3, if_neg h4, if_neg h5, if_neg h6, if_neg h7,
      if_neg h8, if_neg h9, if_pos h10]
  · right; right; right; right; right; right; right; right; right; right
    simp only [if_neg h1, if_neg h2, if_neg h3, if_neg h4, if_neg h5, if_neg h6, if_neg h7,
      if_neg h8, if_neg h9, if_neg h10]

/-- What a dispatch does to the selection: nothing, selection up (only on `k`
or `ESC [ A` in LIST view), selection down, or the step back of `d`. -/
theorem step_selection (s s1 : State) (inp : Input) (calls : List StoreCall)
    (h : step s inp = Outcome.next s1 calls) :
    s1.current_selection = s.current_selection ∨
      (s.current_view = CurrentView.LIST_VIEW ∧ is_up inp ∧
        s1.current_selection = (selection_up s).current_selection) ∨
      s1.current_selection = (selection_down s).current_selection ∨
      s1.current_selection =
        (if s.current_selection - 1 < 0 then 0 else s.current_selection - 1) := by
  rcases step_cases_up s inp with ⟨hk, hc⟩ | ⟨hk, hc⟩ | hc | hc | hc | hc | hc | hc | hc | hc | hc <;>
    rw [hc] at h
  · unfold key_k at h
    split_ifs at h with hv
    · cases h; exact Or.inr (Or.inl ⟨hv, Or.inl hk, rfl⟩)
    · exact Or.inl (treat_as_char_sel s s1 _ calls h)
  · rcases key_27_sel s s1 inp calls h with h1 | ⟨hv, hk2, h1⟩ | h1
    · exact Or.inl h1
    · exact Or.inr (Or.inl ⟨hv, Or.inr ⟨hk, hk2⟩, h1⟩)
    · exact Or.inr (Or.inr (Or.inl h1))
  · exact Or.inl (key_enter_sel s s1 calls h)
  · exact Or.inl (key_e_sel s s1 calls h)
  · unfold key_d at h
    split at h
    · split at h
      · cases h
      · simp only [Outcome.next.injEq] at h
        obtain ⟨rfl, _⟩ := h
        exact Or.inr (Or.inr (Or.inr rfl))
    · exact Or.inl (treat_as_char_sel s s1 _ calls h)
  · unfold key_x at h
    split at h
    · cases h; exact Or.inl rfl
    · exact Or.inl (treat_as_char_sel s s1 _ calls h)
  · unfold key_n at h
    split at h
    · cases h; exact Or.inl rfl
    · exact Or.inl (treat_as_char_sel s s1 _ calls h)
  · unfold key_q at h
    split at h
    · cases h
    · exact Or.inl (treat_as_char_sel s s1 _ calls h)
  · exact Or.inl (key_delete_sel s s1 calls h)
  · unfold key_j at h
    split_ifs at h
    · cases h; exact Or.inr (Or.inr (Or.inl rfl))
    · exact Or.inl (treat_as_char_sel s s1 _ calls h)
  · exact Or.inl (treat_as_char_sel s s1 _ calls h)

/-- Guarded reachability is reachability. -/
theorem reachableUnder_when (P : State → LoadResult → Prop) (K : State → Input → Prop)
    (s : State) (h : ReachableUnder P K s) : ReachableWhen P s := by
  induction h with
  | init => exact ReachableWhen.init
  | reload s lr s1 _ hflag hP hr ih => exact ReachableWhen.reload s lr s1 ih hflag hP hr
  | key s inp s1 calls _ hflag _ hstep ih => exact ReachableWhen.key s inp s1 calls ih hflag hstep

/-- C2 (amended): in every state reachable from the initial state by keystrokes
and page reloads, each reload delivering at most ten rows and, unless the
selection is 0, more rows than the current selection, and no keystroke being
`k` or `ESC [ A` in LIST view on an empty page,
`0 ≤ current_selection ≤ max 0 (entries_in_view - 1)`; and a reload from such a
state leaves `current_selection` as it is. -/
theorem C2_selection_invariant_amended (s : State)
    (h : ReachableUnder KeepsSelection (fun s inp => ¬ up_on_empty_page s inp) s) :
    SelectionInv s ∧
      ∀ (lr : LoadResult) (s1 : State), reload_entries s lr = some s1 →
        s1.current_selection = s.current_selection := by
  have hwf := reachable_wf _ s (reachableUnder_when _ _ s h)
  refine ⟨?_, fun lr s1 hr => (reload_entries_spec s s1 lr hr hwf.1 hwf.2.1).2.2.2.2.1⟩
  have hJ : SelectionInv s ∧ 0 ≤ s.entries_in_view := by
    clear hwf
    induction h with
    | init => exact ⟨by decide, by decide⟩
    | reload s lr s1 hs _ hP hr ih =>
      have hwf := reachable_wf _ s (reachableUnder_when _ _ s hs)
      obtain ⟨_, _, _, h4, h5, _⟩ := reload_entries_spec s s1 lr hr hwf.1 hwf.2.1
      obtain ⟨hP1, hP2⟩ := hP
      have h10 : ¬ ((lr.rows.length : Int) > MAX_ENTRIES_IN_VIEW) := by
        simp only [MAX_ENTRIES_IN_VIEW]; omega
      rw [if_neg h10] at h4
      unfold SelectionInv at ih ⊢
      rw [h4, h5]
      refine ⟨⟨ih.1.1, ?_⟩, by omega⟩
      rcases hP2 with h | h
      · exact le_trans (by omega) (le_max_right _ _)
      · rw [h]; exact le_max_left _ _
    | key s inp s1 calls hs hflag hK hstep ih =>
      have hwf := reachable_wf _ s (reachableUnder_when _ _ s hs)
      obtain ⟨he, _, _⟩ := (step_wf s s1 inp calls hwf hstep).2
      obtain ⟨⟨h0, h1⟩, h2⟩ := ih
      unfold SelectionInv
      rw [he]
      refine ⟨?_, h2⟩
      have hmax : max 0 (s.entries_in_view - 1) = if s.entries_in_view = 0 then 0
          else s.entries_in_view - 1 := by
        split_ifs with h
        · rw [h]; rfl
        · exact max_eq_right (by omega)
      rw [hmax] at h1 ⊢
      rcases step_selection s s1 inp calls hstep with h | ⟨hv, hup, h⟩ | h | h
      · rw [h]; exact ⟨h0, h1⟩
      · have hne : s.entries_in_view ≠ 0 := fun h3 => hK ⟨hv, h3, hup⟩
        rw [h]
        simp only [selection_up, MAX_SELECTION]
        rw [if_neg hne] at h1 ⊢
        split_ifs <;> constructor <;> omega
      · rw [h]
        simp only [selection_down, MAX_SELECTION]
        split_ifs at h1 ⊢ <;> constructor <;> omega
      · rw [h]
        split_ifs at h1 ⊢ <;> constructor <;> omega
  exact hJ.1

/-- C2 (amended) on a fresh database: the first reload delivers an empty page
and `j` leaves the selection 0, within the invariant. -/
theorem C2_selection_invariant_amended_witness :
    ∃ (s0 s : State), reload_entries initial_state no_rows = some s0 ∧
      step s0 (key 106) = Outcome.next s [] ∧
      s.entries_in_view = 0 ∧ s.current_selection = 0 ∧
      ReachableUnder KeepsSelection (fun s inp => ¬ up_on_empty_page s inp) s ∧
      (SelectionInv s ∧
        ∀ (lr : LoadResult) (s1 : State), reload_entries s lr = some s1 →
          s1.current_selection = s.current_selection) :=
  ⟨_, _, rfl, rfl, by decide, by decide,
    ReachableUnder.key _ (key 106) _ []
      (ReachableUnder.reload initial_state no_rows _ ReachableUnder.init rfl (by decide) rfl)
      rfl (by decide) rfl,
    C2_selection_invariant_amended _
      (ReachableUnder.key _ (key 106) _ []
        (ReachableUnder.reload initial_state no_rows _ ReachableUnder.init rfl (by decide) rfl)
        rfl (by decide) rfl)⟩

/-- C10: in every reachable LIST state, `e` on a non-empty page with the
selection within it copies the selected entry's description (its bytes up to
the first NUL, at most 63) to the start of `edit_entry_buf`, the rest of the
buffer being NUL, sets size and cursor to the description's length and switches
to EDIT view, changing nothing else and calling no store operation; on an empty
page `e` changes nothing. -/
theorem C10_e_in_list (s : State) (c1 c2 : Nat) (hreach : Reachable s)
    (hview : s.current_view = CurrentView.LIST_VIEW) :
    (0 < s.entries_in_view → 0 ≤ s.current_selection →
      s.current_selection < s.entries_in_view →
      ∃ e d, rd s.entries s.current_selection = some e ∧
        c_string e.description = some d ∧ d.length ≤ 63 ∧
        step s { c0 := 101, c1 := c1, c2 := c2 } =
          Outcome.next
            { s with
              edit_entry_buf :=
                { buf := d ++ List.replicate (64 - d.length) 0,
                  buf_size := (d.length : Int), buf_cursor := (d.length : Int) },
              current_view := CurrentView.EDIT_ENTRY_VIEW } []) ∧
    (s.entries_in_view = 0 →
      step s { c0 := 101, c1 := c1, c2 := c2 } = Outcome.next s []) := by
  have hstep : step s { c0 := 101, c1 := c1, c2 := c2 } = key_e s := by
    simp [step]
  have hwf := reachable_wf _ s hreach
  have h10 := reachable_entries_in_view _ s hreach
  rw [hstep]
  constructor
  · intro hpage h0 hlt
    have hlen : s.current_selection.toNat < s.entries.length := by
      rw [hwf.1]; omega
    have hsel : rd s.entries s.current_selection = some s.entries[s.current_selection.toNat] := by
      unfold rd
      rw [if_pos h0, List.getElem?_eq_getElem hlen]
    obtain ⟨d, hd, hd63, hk⟩ := key_e_list s _ hview hpage hsel
      (hwf.2.1 _ (rd_mem hsel)) (hwf.2.2.2.2 (by rw [hview]; decide))
    exact ⟨_, d, hsel, hd, hd63, hk⟩
  · intro hempty
    have hpage : ¬ (s.entries_in_view > 0) := by omega
    simp only [key_e, hview, hpage, if_false]

/-- C10 after an abandoned EDIT visit on the page `foo` (`e`, `x`, ESC): `e`
puts `foo` alone in `edit_entry_buf`, with size and cursor 3. -/
theorem C10_e_in_list_witness :
    step after_edit_visit (key 101) =
      Outcome.next
        { after_edit_visit with
          edit_entry_buf :=
            { buf := [102, 111, 111] ++ List.replicate 61 0, buf_size := 3, buf_cursor := 3 },
          current_view := CurrentView.EDIT_ENTRY_VIEW } [] := by
  have hreach : Reachable after_edit_visit :=
    reachable_run (typed foo_row [101, 120, 27]) one_entry_foo _ _
      (ReachableWhen.reload initial_state foo_row _ ReachableWhen.init rfl (by decide) rfl)
      (by decide) rfl
  obtain ⟨e, d, h1, h2, _, h4⟩ :=
    (C10_e_in_list after_edit_visit 0 0 hreach (by decide)).1 (by decide) (by decide)
      (by decide)
  have he : e = { id := 1, completed := 0, ignored := 0,
                  description := [102, 111, 111] ++ List.replicate 61 0 } := by
    have h5 : rd after_edit_visit.entries after_edit_visit.current_selection =
        some { id := 1, completed := 0, ignored := 0,
               description := [102, 111, 111] ++ List.replicate 61 0 } := by decide
    rw [h5] at h1
    exact (Option.some.inj h1).symm
  subst he
  have hd : d = [102, 111, 111] := by
    have h6 : c_string ([102, 111, 111] ++ List.replicate 61 0) = some [102, 111, 111] := by
      decide
    rw [h6] at h2
    exact (Option.some.inj h2).symm
  subst hd
  exact h4

/-! ## Leaving and entering the views -/

/-- C11: bare ESC in EDIT view, for every state whose `edit_entry_buf` is a
64-byte array, whatever it holds: the view becomes LIST, `edit_entry_buf` is
cleared (all NUL, size = cursor = 0), no store call is made, and the entries
(so every description on the page) and the rest of the state are unchanged. -/
theorem C11_escape_edit_discards (s : State) (c2 : Nat)
    (hview : s.current_view = CurrentView.EDIT_ENTRY_VIEW)
    (hbuf : s.edit_entry_buf.buf.length = 64) :
    step s { c0 := 27, c1 := 0, c2 := c2 } =
      Outcome.next
        { s with current_view := CurrentView.LIST_VIEW, edit_entry_buf := empty_buf } [] := by
  simp only [step, Nat.reduceEqDiff, if_false, if_true, key_27, key_escape, hview, with_buf,
    select_buf, get_buf, zero_buf_eq s.edit_entry_buf hbuf, set_buf, empty_buf]

/-- C11 at the page `foo` with `fox` typed in EDIT view: ESC returns to LIST
view with the buffer cleared and the entries as they were. -/
theorem C11_escape_edit_discards_witness :
    ∃ s1, step editing_fox (key 27) = Outcome.next s1 [] ∧
      editing_fox.edit_entry_buf.buf_size = 3 ∧
      s1.current_view = CurrentView.LIST_VIEW ∧ s1.edit_entry_buf = empty_buf ∧
      s1.entries = editing_fox.entries :=
  ⟨_, C11_escape_edit_discards editing_fox 0 (by decide) (by decide), by decide, rfl, rfl, rfl⟩

/-- C12: bare ESC in NEW view returns to LIST view, makes no store call and
changes nothing else, so `new_entry_buf` keeps its contents, size and cursor; a
following `n` gives back the very state in which ESC was pressed. -/
theorem C12_escape_new_keeps_buffer (s : State) (c2 d1 d2 : Nat)
    (hview : s.current_view = CurrentView.NEW_ENTRY_VIEW) :
    step s { c0 := 27, c1 := 0, c2 := c2 } =
        Outcome.next { s with current_view := CurrentView.LIST_VIEW } [] ∧
      step { s with current_view := CurrentView.LIST_VIEW } { c0 := 110, c1 := d1, c2 := d2 } =
        Outcome.next s [] := by
  constructor
  · simp [step, key_27, key_escape, hview]
  · simp only [step, Nat.reduceEqDiff, if_false, if_true, key_n, Outcome.next.injEq, and_true]
    rw [← hview]

/-- C12 with `a` typed in NEW view: ESC and then `n` keep the buffer `a`. -/
theorem C12_escape_new_keeps_buffer_witness :
    step new_view_a (key 27) = Outcome.next list_view_keeping_a [] ∧
      step list_view_keeping_a (key 110) = Outcome.next new_view_a [] ∧
      new_view_a.new_entry_buf.buf_size = 1 :=
  ⟨(C12_escape_new_keeps_buffer new_view_a 0 0 0 (by decide)).1,
    (C12_escape_new_keeps_buffer new_view_a 0 0 0 (by decide)).2, by decide⟩

/-- C14: Enter in a reachable LIST state with a non-empty page and the
selection within it: the selected entry's completed flag becomes 1 if it was 0
and 0 otherwise, `update_entry` is called with the entry's description (as a C
string), the new flag, and the unchanged ignored and id, the reload flag is
set, and the view, the selection, the other entries and the rest of the state
are unchanged. -/
theorem C14_enter_list_toggles (s : State) (c1 c2 : Nat) (hreach : Reachable s)
    (hview : s.current_view = CurrentView.LIST_VIEW)
    (hpage : 0 < s.entries_in_view) (h0 : 0 ≤ s.current_selection)
    (hlt : s.current_selection < s.entries_in_view) :
    ∃ e d, rd s.entries s.current_selection = some e ∧
      c_string e.description = some d ∧
      step s { c0 := 10, c1 := c1, c2 := c2 } =
        Outcome.next
          { s with
            entries := s.entries.set s.current_selection.toNat
              { e with completed := if e.completed = 0 then 1 else 0 },
            should_reload_entries := true }
          [StoreCall.update_entry d (if e.completed = 0 then 1 else 0) e.ignored e.id] := by
  have hwf := reachable_wf _ s hreach
  have h10 := reachable_entries_in_view _ s hreach
  have hlen : s.current_selection.toNat < s.entries.length := by
    rw [hwf.1]; omega
  have hsel : rd s.entries s.current_selection = some s.entries[s.current_selection.toNat] := by
    unfold rd
    rw [if_pos h0, List.getElem?_eq_getElem hlen]
  obtain ⟨m, _, _, _, hcs, _⟩ :=
    c_string_of_mem _ (hwf.2.1 _ (rd_mem hsel)).2
  refine ⟨_, _, hsel, hcs, ?_⟩
  have htoggle : ∀ c : Int, (if c ≠ 0 then (0 : Int) else 1) = if c = 0 then 1 else 0 := by
    intro c
    by_cases hc : c = 0 <;> simp [hc]
  simp only [step, if_true, key_enter, hview, key_enter_list, hsel,
    wr_of_lt s.entries s.current_selection _ h0 hlen, update_entry, hcs, Option.map_some',
    htoggle]

/-- C14 at the page `foo` (not completed): Enter sets completed to 1 and calls
`update_entry` for id 1 with the description `foo`. -/
theorem C14_enter_list_toggles_witness :
    ∃ s1, step one_entry_foo (key 10) =
        Outcome.next s1 [StoreCall.update_entry [102, 111, 111] 1 0 1] ∧
      s1.should_reload_entries = true ∧ s1.current_view = CurrentView.LIST_VIEW := by
  obtain ⟨e, d, h1, h2, h3⟩ := C14_enter_list_toggles one_entry_foo 0 0
    (ReachableWhen.reload initial_state foo_row _ ReachableWhen.init rfl (by decide) rfl)
    (by decide) (by decide) (by decide) (by decide)
  have he : e = { id := 1, completed := 0, ignored := 0,
                  description := [102, 111, 111] ++ List.replicate 61 0 } := by
    have h5 : rd one_entry_foo.entries one_entry_foo.current_selection =
        some { id := 1, completed := 0, ignored := 0,
               description := [102, 111, 111] ++ List.replicate 61 0 } := by decide
    rw [h5] at h1
    exact (Option.some.inj h1).symm
  subst he
  have hd : d = [102, 111, 111] := by
    have h6 : c_string ([102, 111, 111] ++ List.replicate 61 0) = some [102, 111, 111] := by
      decide
    rw [h6] at h2
    exact (Option.some.inj h2).symm
  subst hd
  exact ⟨_, h3, rfl, rfl⟩

/-- C15 (the code departs from the claim): on the page `foo` in LIST view the
space key (0x20) has no case of its own, reaches `treat_as_char` and is ignored:
the state is unchanged and no store call is made, whereas Enter toggles the
entry and calls `update_entry`. -/
theorem C15_space_is_ignored_in_list :
    one_entry_foo.current_view = CurrentView.LIST_VIEW ∧
      one_entry_foo.entries_in_view = 1 ∧
      step one_entry_foo (key 32) = Outcome.next one_entry_foo [] ∧
      (∃ s1, step one_entry_foo (key 10) =
        Outcome.next s1 [StoreCall.update_entry [102, 111, 111] 1 0 1]) ∧
      step one_entry_foo (key 32) ≠ step one_entry_foo (key 10) :=
  ⟨by decide, by decide, by decide, ⟨_, rfl⟩, by decide⟩

/-- C16: `d` in LIST view with the selection inside the entries array calls
`delete_entry` with the id of the entry at the selection, sets the reload flag
and sets the selection to `max (sel - 1) 0`; the view, both text buffers and
the rest of the state are unchanged. -/
theorem C16_d_in_list (s : State) (c1 c2 : Nat) (e : Entry)
    (hview : s.current_view = CurrentView.LIST_VIEW)
    (hsel : rd s.entries s.current_selection = some e) :
    step s { c0 := 100, c1 := c1, c2 := c2 } =
      Outcome.next
        { s with
          should_reload_entries := true,
          current_selection := max (s.current_selection - 1) 0 }
        [StoreCall.delete_entry e.id] := by
  have hmax : (if s.current_selection - 1 < 0 then 0 else s.current_selection - 1) =
      max (s.current_selection - 1) 0 := by
    split_ifs with h
    · rw [max_eq_right (by omega)]
    · rw [max_eq_left (by omega)]
  simp only [step, Nat.reduceEqDiff, if_false, if_true, key_d, hview, hsel, hmax, delete_entry]

/-- C16 at the three-entry page after `k` (selection 2): `d` deletes id 1 and
moves the selection to 1. -/
theorem C16_d_in_list_witness :
    step { three_entries with current_selection := 2 } (key 100) =
      Outcome.next
        { three_entries with should_reload_entries := true, current_selection := 1 }
        [StoreCall.delete_entry 1] :=
  C16_d_in_list { three_entries with current_selection := 2 } 0 0
    { id := 1, completed := 0, ignored := 0, description := [97] ++ List.replicate 63 0 }
    (by decide) (by decide)

/-! ## Text insertion -/

/-- The first `n + 1` bytes of a buffer after inserting `ch` at `c`, read
pointwise, are the bytes before `c`, then `ch`, then the bytes from `c` up to
`n`. -/
theorem take_insert_eq (old r : List Nat) (ch n c : Nat) (hcn : c ≤ n)
    (hold : n < old.length)
    (hget : ∀ j, r[j]? = if j = c then some ch
      else if c < j ∧ j ≤ n + 1 then old[j - 1]? else old[j]?) :
    r.take (n + 1) = old.take c ++ ch :: (old.drop c).take (n - c) := by
  apply List.ext_getElem?
  intro j
  have hlc : (old.take c).length = c := by
    rw [List.length_take]; omega
  rw [List.getElem?_take]
  by_cases hj : j < c
  · have h1 : j < n + 1 := by omega
    have h2 : ¬ (j = c) := by omega
    have h3 : ¬ (c < j ∧ j ≤ n + 1) := by omega
    rw [if_pos h1, hget j, if_neg h2, if_neg h3,
      List.getElem?_append_left (by rw [hlc]; exact hj), List.getElem?_take, if_pos hj]
  · rw [List.getElem?_append_right (by rw [hlc]; omega), hlc]
    by_cases hjc : j = c
    · subst hjc
      have h1 : j < n + 1 := by omega
      rw [if_pos h1, hget j, if_pos rfl, Nat.sub_self, List.getElem?_cons_zero]
    · obtain ⟨i, hi⟩ : ∃ i, j - c = i + 1 := ⟨j - c - 1, by omega⟩
      rw [hi, List.getElem?_cons_succ, List.getElem?_take]
      by_cases hjn : j < n + 1
      · have h3 : c < j ∧ j ≤ n + 1 := by omega
        have h4 : i < n - c := by omega
        rw [if_pos hjn, hget j, if_neg hjc, if_pos h3, if_pos h4, List.getElem?_drop]
        congr 1
        omega
      · have h4 : ¬ (i < n - c) := by omega
        rw [if_neg hjn, if_neg h4]

/-- C20: in NEW or EDIT view, for every active buffer (a 64-byte array) with
`0 ≤ cursor = c ≤ size = s < 63` and every byte `b` other than Enter, Backspace
and ESC (the LIST command letters included), typing `b` gives the buffer whose
first `s + 1` bytes are `old[0..c)`, `b`, `old[c..s)`, with cursor `c + 1` and
size `s + 1` (the byte at index `s + 1` repeats `old[s]` and the later bytes
stay); the view, the other buffer and the rest of the state are unchanged and
no store call is made. -/
theorem C20_text_insertion (s : State) (b c1 c2 : Nat)
    (hview : s.current_view = CurrentView.NEW_ENTRY_VIEW ∨
      s.current_view = CurrentView.EDIT_ENTRY_VIEW)
    (hlen : (active_buf s).buf.length = 64)
    (h0 : 0 ≤ (active_buf s).buf_cursor)
    (hcs : (active_buf s).buf_cursor ≤ (active_buf s).buf_size)
    (hs : (active_buf s).buf_size < 63)
    (h10 : b ≠ 10) (h127 : b ≠ 127) (h27 : b ≠ 27) :
    ∃ r, r.length = 64 ∧
      r.take ((active_buf s).buf_size.toNat + 1) =
        (active_buf s).buf.take (active_buf s).buf_cursor.toNat ++
          b :: ((active_buf s).buf.drop (active_buf s).buf_cursor.toNat).take
            ((active_buf s).buf_size.toNat - (active_buf s).buf_cursor.toNat) ∧
      r[(active_buf s).buf_size.toNat + 1]? =
        (active_buf s).buf[(active_buf s).buf_size.toNat]? ∧
      (∀ j, (active_buf s).buf_size.toNat + 1 < j → r[j]? = (active_buf s).buf[j]?) ∧
      (s.current_view = CurrentView.NEW_ENTRY_VIEW →
        step s { c0 := b, c1 := c1, c2 := c2 } =
          Outcome.next
            { s with new_entry_buf :=
              { buf := r, buf_size := s.new_entry_buf.buf_size + 1,
                buf_cursor := s.new_entry_buf.buf_cursor + 1 } } []) ∧
      (s.current_view = CurrentView.EDIT_ENTRY_VIEW →
        step s { c0 := b, c1 := c1, c2 := c2 } =
          Outcome.next
            { s with edit_entry_buf :=
              { buf := r, buf_size := s.edit_entry_buf.buf_size + 1,
                buf_cursor := s.edit_entry_buf.buf_cursor + 1 } } []) := by
  have hv : s.current_view ≠ CurrentView.LIST_VIEW := by
    rcases hview with h | h <;> simp [h]
  obtain ⟨a, ha⟩ := select_buf_some s.current_view
  rw [active_buf_eq s a ha] at hlen h0 hcs hs ⊢
  obtain ⟨c, hc⟩ := Int.eq_ofNat_of_zero_le h0
  obtain ⟨n, hn⟩ := Int.eq_ofNat_of_zero_le (le_trans h0 hcs)
  have hcn : c ≤ n := by omega
  have hn63 : n < 63 := by omega
  obtain ⟨r, hr, hrlen, hrget⟩ :=
    treat_as_char_spec s a b n c hv ha hn hc hcn (by omega) (by omega)
  rw [← step_eq_treat_as_char s b c1 c2 hv h10 h127 h27] at hr
  simp only [hn, hc, Int.toNat_ofNat]
  refine ⟨r, by omega, take_insert_eq _ r b n c hcn (by omega) hrget, ?_, ?_, ?_, ?_⟩
  · have h1 : ¬ (n + 1 = c) := by omega
    have h2 : c < n + 1 ∧ n + 1 ≤ n + 1 := by omega
    rw [hrget (n + 1), if_neg h1, if_pos h2]
    rfl
  · intro j hj
    have h1 : ¬ (j = c) := by omega
    have h2 : ¬ (c < j ∧ j ≤ n + 1) := by omega
    rw [hrget j, if_neg h1, if_neg h2]
  · intro hnew
    rw [hnew] at ha
    cases ha
    simp only [get_buf] at hn hc
    rw [hr, hn, hc]
    rfl
  · intro hedit
    rw [hedit] at ha
    cases ha
    simp only [get_buf] at hn hc
    rw [hr, hn, hc]
    rfl

/-- C20 at the buffer `ab` with the cursor after `a` in NEW view: typing `n`
gives `anb`, cursor 2, size 3. -/
theorem C20_text_insertion_witness :
    ∃ r, r.take 3 = [97, 110, 98] ∧
      step new_view_ab (key 110) =
        Outcome.next
          { new_view_ab with
            new_entry_buf := { buf := r, buf_size := 3, buf_cursor := 2 } } [] := by
  obtain ⟨r, _, h2, _, _, h5, _⟩ :=
    C20_text_insertion new_view_ab 110 0 0 (by decide) (by decide) (by decide) (by decide)
      (by decide) (by decide) (by decide) (by decide)
  exact ⟨r, h2, h5 rfl⟩

/-! ## Migration -/

/-- C19: on a fresh database the initialization creates table `entries`, adds
the column `updated_at` and sets user-version to 1; run again on the database it
left, it succeeds, leaves the same database (user-version 1, columns id,
description, completed, ignored, updated_at) and executes only the
`CREATE TABLE IF NOT EXISTS`, no migration statement. -/
theorem C19_migration_idempotent :
    (init_database fresh_database).result = 0 ∧
      (init_database fresh_database).db =
        { user_version := 1,
          entries := some [Column.id, Column.description, Column.completed, Column.ignored,
            Column.updated_at] } ∧
      (init_database fresh_database).executed =
        [InitStmt.create_table_entries, InitStmt.begin_transaction,
          InitStmt.migrate_table_entries_v1, InitStmt.db_version_to_1,
          InitStmt.end_transaction] ∧
      (init_database (init_database fresh_database).db).result = 0 ∧
      (init_database (init_database fresh_database).db).db =
        (init_database fresh_database).db ∧
      (init_database (init_database fresh_database).db).executed =
        [InitStmt.create_table_entries] := by
  decide

/-! ## Loading the page -/

theorem load_row_eq (r : Row) (h : r.description.length ≤ 63) :
    load_row r = some (entry_of_row r) := by
  obtain ⟨d1, hd1, hd1len, hd1get⟩ :=
    copy_loop_spec r.description.length 0 r.description zero_entry.description (by omega)
      (by simp [zero_entry]; omega)
  have hz : zero_entry.description.length = 64 := by simp [zero_entry]
  have hlt : r.description.length < d1.length := by omega
  have hd : d1.set r.description.length 0 =
      r.description ++ List.replicate (64 - r.description.length) 0 := by
    apply List.ext_getElem?
    intro j
    by_cases hj : j < r.description.length
    · have h1 : 0 ≤ j ∧ j < 0 + r.description.length := by omega
      rw [List.getElem?_set_ne (by omega), hd1get j, if_pos h1, List.getElem?_append_left hj]
    · rw [List.getElem?_append_right (by omega), List.getElem?_replicate]
      by_cases hj2 : j = r.description.length
      · subst hj2
        have h3 : r.description.length - r.description.length < 64 - r.description.length := by
          omega
        rw [List.getElem?_set_self hlt, if_pos h3]
      · have h1 : ¬ (0 ≤ j ∧ j < 0 + r.description.length) := by omega
        rw [List.getElem?_set_ne (fun h => hj2 h.symm), hd1get j, if_neg h1]
        simp only [zero_entry]
        rw [List.getElem?_replicate]
        by_cases hj3 : j < 64
        · have h3 : j - r.description.length < 64 - r.description.length := by omega
          rw [if_pos hj3, if_pos h3]
        · have h3 : ¬ (j - r.description.length < 64 - r.description.length) := by omega
          rw [if_neg hj3, if_neg h3]
  have hcopy : copy_loop r.description.length 0 r.description zero_entry.description =
      some d1 := by simpa using hd1
  unfold load_row
  simp only [hcopy, wr_cast, hlt, if_true, hd]
  rfl

theorem load_entries_loop_eq (rows : List Row) : ∀ (es : List Entry) (k : Nat),
    k + rows.length ≤ es.length → (∀ r ∈ rows, r.description.length ≤ 63) →
    load_entries_loop rows es (k : Int) =
      some (es.take k ++ rows.map entry_of_row ++ es.drop (k + rows.length),
        ((k + rows.length : Nat) : Int)) := by
  induction rows with
  | nil =>
    intro es k _ _
    simp [load_entries_loop]
  | cons r rows ih =>
    intro es k hk hdesc
    simp only [List.length_cons] at hk
    have hk0 : k < es.length := by omega
    have e1 : (k : Int) + 1 = ((k + 1 : Nat) : Int) := by push_cast; ring
    simp only [load_entries_loop, load_row_eq r (hdesc r (List.mem_cons_self _ _)), wr_cast,
      hk0, if_true, e1]
    rw [ih (es.set k (entry_of_row r)) (k + 1) (by simp; omega)
      (fun x hx => hdesc x (List.mem_cons_of_mem _ hx))]
    have h1 : (es.set k (entry_of_row r)).take (k + 1) = es.take k ++ [entry_of_row r] := by
      apply List.ext_getElem?
      intro j
      have hlk : (es.take k).length = k := by
        rw [List.length_take]; omega
      rw [List.getElem?_take]
      by_cases hj : j < k
      · have h3 : j < k + 1 := by omega
        rw [if_pos h3, List.getElem?_set_ne (by omega),
          List.getElem?_append_left (by rw [hlk]; exact hj), List.getElem?_take, if_pos hj]
      · rw [List.getElem?_append_right (by rw [hlk]; omega), hlk]
        by_cases hj2 : j = k
        · subst hj2
          have h3 : j < j + 1 := by omega
          rw [if_pos h3, List.getElem?_set_self hk0, Nat.sub_self, List.getElem?_cons_zero]
        · have h3 : ¬ (j < k + 1) := by omega
          obtain ⟨i, hi⟩ : ∃ i, j - k = i + 1 := ⟨j - k - 1, by omega⟩
          rw [if_neg h3, hi, List.getElem?_cons_succ, List.getElem?_nil]
    have h2 : (es.set k (entry_of_row r)).drop (k + 1 + rows.length) =
        es.drop (k + (rows.length + 1)) := by
      apply List.ext_getElem?
      intro j
      rw [List.getElem?_drop, List.getElem?_drop, List.getElem?_set_ne (by omega)]
      congr 1
      omega
    rw [h1, h2]
    simp only [List.map_cons, List.append_assoc, List.singleton_append, List.length_cons,
      Option.some.injEq, Prod.mk.injEq, true_and]
    push_cast
    ring

/-- The reload on a well-formed state whose clearing stays inside the arrays,
for a load of at most ten rows with descriptions of at most 63 bytes: the page
is the rows delivered, in order, whatever the final result code. -/
theorem reload_entries_eq (s : State) (lr : LoadResult) (es1 : List Entry)
    (hwf : WellFormed s)
    (hclear : clear_entries_loop s.entries_sz.toNat 0 s.entries = some es1)
    (hrows : lr.rows.length ≤ 10)
    (hdesc : ∀ r ∈ lr.rows, r.description.length ≤ 63) :
    es1.length = 10 ∧
      load_entries lr es1 0 =
        some (lr.rows.map entry_of_row ++ es1.drop lr.rows.length, (lr.rows.length : Int),
          if lr.final ≠ SQLITE_DONE then lr.final else 0) ∧
      reload_entries s lr =
        some { s with
          entries := lr.rows.map entry_of_row ++ es1.drop lr.rows.length,
          entries_sz := (lr.rows.length : Int),
          entries_in_view := (lr.rows.length : Int),
          should_reload_entries := false } := by
  have hlen := (clear_entries_loop_ok _ _ _ _ hclear hwf.1 hwf.2.1).1
  have hloop := load_entries_loop_eq lr.rows es1 0 (by omega) hdesc
  simp only [Nat.cast_zero, List.take_zero, List.nil_append, zero_add] at hloop
  have h10 : ¬ ((lr.rows.length : Int) > MAX_ENTRIES_IN_VIEW) := by
    simp only [MAX_ENTRIES_IN_VIEW]; omega
  refine ⟨hlen, ?_, ?_⟩
  · simp only [load_entries, hloop]
  · simp only [reload_entries, hclear, load_entries, hloop, h10, if_false]

/-- C17 (as the claim states it) fails: when the load statement delivers the
row `foo` and then ends with `SQLITE_ERROR`, `load_entries` returns the error
code 1 but the page keeps the row: after the reload `entries_sz` and
`entries_in_view` are 1 and entry 0 is `foo`. -/
theorem C17_load_failure_counterexample :
    foo_then_error.final ≠ SQLITE_ROW ∧ foo_then_error.final ≠ SQLITE_DONE ∧
      (∃ es, load_entries foo_then_error initial_state.entries 0 = some (es, 1, 1)) ∧
      ∃ s1, reload_entries initial_state foo_then_error = some s1 ∧
        s1.entries_sz = 1 ∧ s1.entries_in_view = 1 ∧
        s1.entries[0]? = some (entry_of_row { id := 1, description := [102, 111, 111],
                                              completed := 0 }) ∧
        ¬ (s1.entries_sz = 0 ∧ s1.entries_in_view = 0) :=
  ⟨by decide, by decide, ⟨_, rfl⟩, _, rfl, by decide, by decide, by decide, by decide⟩

/-- C17 (amended): when stepping the load statement ends with an engine error
(a non-zero result other than `SQLITE_DONE`, ending the rows) after at most
ten rows with descriptions of at most 63 bytes, `load_entries` returns that
result code, so it reports failure, and the page holds the rows delivered
before the error: `entries_sz` and `entries_in_view` are their number and the
entries are those rows in order, followed by what the clearing left.  The page
is empty only when no row came before the error. -/
theorem C17_load_failure_keeps_rows_amended (s : State) (lr : LoadResult)
    (es1 : List Entry) (hwf : WellFormed s)
    (hclear : clear_entries_loop s.entries_sz.toNat 0 s.entries = some es1)
    (hrows : lr.rows.length ≤ 10)
    (hdesc : ∀ r ∈ lr.rows, r.description.length ≤ 63)
    (hdone : lr.final ≠ SQLITE_DONE) (hnz : lr.final ≠ 0) :
    ∃ result, result ≠ 0 ∧ result = lr.final ∧
      load_entries lr es1 0 =
        some (lr.rows.map entry_of_row ++ es1.drop lr.rows.length, (lr.rows.length : Int),
          result) ∧
      reload_entries s lr =
        some { s with
          entries := lr.rows.map entry_of_row ++ es1.drop lr.rows.length,
          entries_sz := (lr.rows.length : Int),
          entries_in_view := (lr.rows.length : Int),
          should_reload_entries := false } := by
  obtain ⟨_, h2, h3⟩ := reload_entries_eq s lr es1 hwf hclear hrows hdesc
  rw [if_pos hdone] at h2
  exact ⟨lr.final, hnz, rfl, h2, h3⟩

/-- C17 (amended) on the first reload of a run, the store delivering `foo` and
then `SQLITE_ERROR`: the result is 1 and the page has the one entry. -/
theorem C17_load_failure_keeps_rows_amended_witness :
    ∃ result, result ≠ 0 ∧ result = 1 ∧
      load_entries foo_then_error initial_state.entries 0 =
        some (List.map entry_of_row foo_then_error.rows ++ initial_state.entries.drop 1, 1,
          result) ∧
      reload_entries initial_state foo_then_error =
        some { initial_state with
          entries := List.map entry_of_row foo_then_error.rows ++ initial_state.entries.drop 1,
          entries_sz := 1, entries_in_view := 1, should_reload_entries := false } :=
  C17_load_failure_keeps_rows_amended initial_state foo_then_error initial_state.entries
    initial_state_wf rfl (by decide) (by decide) (by decide) (by decide)

/-! ## The visible page -/

theorem order_by_total (a b : DbRow) : order_by a b ∨ order_by b a := by
  obtain ⟨ia, da, ca, ga, ua⟩ := a
  obtain ⟨ib, db, cb, gb, ub⟩ := b
  simp only [order_by]
  cases ua <;> cases ub <;> simp [null_lt] <;> omega

theorem order_by_trans (a b c : DbRow) (hab : order_by a b) (hbc : order_by b c) :
    order_by a c := by
  obtain ⟨ia, da, ca, ga, ua⟩ := a
  obtain ⟨ib, db, cb, gb, ub⟩ := b
  obtain ⟨ic, dc, cc, gc, uc⟩ := c
  simp only [order_by] at hab hbc ⊢
  cases ua <;> cases ub <;> cases uc <;> simp [null_lt] at hab hbc ⊢ <;> omega

/-- Insertion sort by `order_by` gives a list in which every earlier row sorts
no later than every later row. -/
theorem sorted_by_order_by (l : List DbRow) :
    (List.insertionSort order_by l).Pairwise order_by :=
  @List.sorted_insertionSort DbRow order_by _ ⟨order_by_total⟩ ⟨order_by_trans⟩ l

theorem strictly_before_of_order_by (a b : DbRow) (h : order_by a b) (hid : a.id ≠ b.id) :
    strictly_before a b := by
  obtain ⟨ia, da, ca, ga, ua⟩ := a
  obtain ⟨ib, db, cb, gb, ub⟩ := b
  simp only [order_by, strictly_before] at h hid ⊢
  rcases h with h | ⟨h1, h2 | ⟨h2, h3⟩⟩
  · exact Or.inl h
  · exact Or.inr (Or.inl ⟨h1, h2⟩)
  · exact Or.inr (Or.inr ⟨h1, h2, lt_of_le_of_ne h3 (fun h => hid h.symm)⟩)

/-- Within the range of a C `int`, `sqlite3_column_int` returns the stored
value. -/
theorem sqlite3_column_int_eq (v : Int) (h : fits_int v) : sqlite3_column_int v = v := by
  unfold fits_int at h
  unfold sqlite3_column_int
  omega

/-- C18 (as the claim states it) fails: on a table whose two rows have the ids
5 and 2^32 + 5 (distinct, both pending and never updated), the reload succeeds
and the query delivers the row 2^32 + 5 before the row 5, but both entries of
the page have the id 5: the page is not the sorted rows, and its first entry
has neither a smaller `completed` nor a greater `id` than its second. -/
theorem C18_visible_page_counterexample :
    ∃ (s1 : State) (e0 e1 : Entry),
      reload_entries initial_state (step_get_entries big_id_table) = some s1 ∧
      (big_id_table.map DbRow.id).Nodup ∧
      get_entries big_id_table =
        [{ id := 4294967301, description := [98], completed := 0, ignored := 0,
           updated_at := none },
         { id := 5, description := [97], completed := 0, ignored := 0, updated_at := none }] ∧
      s1.entries_in_view = 2 ∧
      s1.entries[0]? = some e0 ∧ s1.entries[1]? = some e1 ∧
      e0.id = 5 ∧ e1.id = 5 ∧ e0.completed = e1.completed ∧
      ¬ (e0.completed < e1.completed ∨ (e0.completed = e1.completed ∧ e0.id > e1.id)) ∧
      s1.entries.take s1.entries_in_view.toNat ≠
        (get_entries big_id_table).map (fun r =>
          entry_of_row { id := r.id, description := r.description,
                         completed := r.completed }) :=
  ⟨_, _, _, rfl, by decide, by decide, by decide, rfl, rfl, by decide, by decide, by decide,
    by decide, by decide⟩

/-- C18 (amended): after a reload in which the query runs without error (the
clearing of the previous page staying inside the arrays, `id` being the primary
key and the visible descriptions at most 63 bytes long), when the `id` and the
`completed` of each of the first ten sorted rows fit a C `int`, the page is the
first ten rows of the list `sorted`, each entry holding the id, the completed
flag and the description of its row; `sorted` is a rearrangement of the rows
with `ignored = 0` in which every earlier row `A` and later row `B` satisfy
`A.completed < B.completed`, or equal completed and `A.updated_at >
B.updated_at` (NULL smallest), or both equal and `A.id > B.id`;
`entries_in_view` is the smaller of the number of such rows and 10, and no entry
of the page has `ignored` set. -/
theorem C18_visible_page_amended (s : State) (table : List DbRow) (es1 : List Entry)
    (hwf : WellFormed s)
    (hclear : clear_entries_loop s.entries_sz.toNat 0 s.entries = some es1)
    (hkey : (table.map DbRow.id).Nodup)
    (hdesc : ∀ r ∈ table, r.ignored = 0 → r.description.length ≤ 63)
    (hint : ∀ r ∈ get_entries table, fits_int r.id ∧ fits_int r.completed) :
    ∃ (s1 : State) (sorted : List DbRow),
      reload_entries s (step_get_entries table) = some s1 ∧
      sorted.Perm (table.filter fun r => decide (r.ignored = 0)) ∧
      sorted.Pairwise strictly_before ∧
      get_entries table = sorted.take 10 ∧
      s1.entries_in_view =
        ((min (table.filter fun r => decide (r.ignored = 0)).length 10 : Nat) : Int) ∧
      s1.entries_sz = s1.entries_in_view ∧
      s1.entries.take s1.entries_in_view.toNat =
        (sorted.take 10).map (fun r =>
          entry_of_row { id := r.id, description := r.description,
                         completed := r.completed }) ∧
      (∀ r ∈ sorted.take 10, r.ignored = 0) ∧
      (∀ e ∈ s1.entries.take s1.entries_in_view.toNat, e.ignored = 0) := by
  have hperm : (List.insertionSort order_by (table.filter fun r => decide (r.ignored = 0))).Perm
      (table.filter fun r => decide (r.ignored = 0)) := List.perm_insertionSort _ _
  have hsorted : (List.insertionSort order_by
      (table.filter fun r => decide (r.ignored = 0))).Pairwise order_by :=
    sorted_by_order_by _
  have hmem : ∀ r ∈ get_entries table, r ∈ table ∧ r.ignored = 0 := by
    intro r hr
    have h1 := hperm.mem_iff.mp (List.mem_of_mem_take hr)
    rw [List.mem_filter] at h1
    exact ⟨h1.1, by simpa using h1.2⟩
  have hnodup : ((List.insertionSort order_by
      (table.filter fun r => decide (r.ignored = 0))).map DbRow.id).Nodup := by
    have h1 : ((table.filter fun r => decide (r.ignored = 0)).map DbRow.id).Nodup :=
      List.Nodup.sublist ((List.filter_sublist _).map _) hkey
    exact ((hperm.map DbRow.id).nodup_iff).mpr h1
  have hstrict : (List.insertionSort order_by
      (table.filter fun r => decide (r.ignored = 0))).Pairwise strictly_before := by
    have h2 := List.pairwise_map.mp hnodup
    exact (hsorted.and h2).imp (fun h => strictly_before_of_order_by _ _ h.1 h.2)
  have hlen : (step_get_entries table).rows.length =
      min (table.filter fun r => decide (r.ignored = 0)).length 10 := by
    simp only [step_get_entries, get_entries, List.length_map, List.length_take,
      hperm.length_eq]
    exact Nat.min_comm _ _
  obtain ⟨_, _, h3⟩ := reload_entries_eq s (step_get_entries table) es1 hwf hclear
    (by rw [hlen]; exact Nat.min_le_right _ _)
    (by
      intro r hr
      simp only [step_get_entries, List.mem_map] at hr
      obtain ⟨x, hx, rfl⟩ := hr
      exact hdesc x (hmem x hx).1 (hmem x hx).2)
  refine ⟨_, _, h3, hperm, hstrict, rfl, ?_, rfl, ?_, ?_, ?_⟩
  · simp only [hlen]
  · simp only [Int.toNat_ofNat]
    rw [List.take_left' (by simp)]
    simp only [step_get_entries, List.map_map]
    apply List.map_congr_left
    intro r hr
    simp only [Function.comp_apply, row_of_db, sqlite3_column_int_eq _ (hint r hr).1,
      sqlite3_column_int_eq _ (hint r hr).2]
  · intro r hr
    exact (hmem r hr).2
  · intro e he
    simp only [Int.toNat_ofNat] at he
    rw [List.take_left' (by simp)] at he
    simp only [List.mem_map] at he
    obtain ⟨x, _, rfl⟩ := he
    rfl

/-- C18 (amended) on the first reload over `sample_table`: the page is `d`,
`c`, `a` (pending first, the updated one before the never updated one; the
archived `b` left out). -/
theorem C18_visible_page_amended_witness :
    get_entries sample_table =
        [{ id := 4, description := [100], completed := 0, ignored := 0, updated_at := some 5 },
         { id := 3, description := [99], completed := 0, ignored := 0, updated_at := none },
         { id := 1, description := [97], completed := 1, ignored := 0, updated_at := some 9 }] ∧
      ∃ (s1 : State) (sorted : List DbRow),
        reload_entries initial_state (step_get_entries sample_table) = some s1 ∧
        sorted.Perm (sample_table.filter fun r => decide (r.ignored = 0)) ∧
        sorted.Pairwise strictly_before ∧
        get_entries sample_table = sorted.take 10 ∧
        s1.entries_in_view = 3 ∧
        s1.entries_sz = s1.entries_in_view ∧
        s1.entries.take s1.entries_in_view.toNat =
          (sorted.take 10).map (fun r =>
            entry_of_row { id := r.id, description := r.description,
                           completed := r.completed }) ∧
        (∀ r ∈ sorted.take 10, r.ignored = 0) ∧
        (∀ e ∈ s1.entries.take s1.entries_in_view.toNat, e.ignored = 0) :=
  ⟨by decide,
    C18_visible_page_amended initial_state sample_table initial_state.entries
      initial_state_wf rfl (by decide) (by decide) (by decide)⟩

/-- Whenever the initialization succeeds, running it again on the database it
left succeeds, changes nothing and executes only the `CREATE TABLE IF NOT
EXISTS`. -/
theorem init_database_idempotent (db : Database) (h : (init_database db).result = 0) :
    init_database (init_database db).db =
      { result := 0, db := (init_database db).db,
        executed := [InitStmt.create_table_entries] } := by
  obtain ⟨v, cols⟩ := db
  by_cases hv : v = 0
  · subst hv
    cases cols with
    | none => rfl
    | some cs =>
      by_cases hc : Column.updated_at ∈ cs
      · simp [init_database, create_table_entries, get_db_version, migrate_table_entries_v1,
          hc, SQLITE_OK, SQLITE_ERROR] at h
      · simp [init_database, create_table_entries, get_db_version, migrate_table_entries_v1,
          db_version_to_1, hc, SQLITE_OK, SQLITE_ERROR]
  · cases cols with
    | none =>
      simp [init_database, create_table_entries, get_db_version, hv, SQLITE_OK]
    | some cs =>
      simp [init_database, create_table_entries, get_db_version, hv, SQLITE_OK]

/-! ## Backspace -/

/-- The first `n - 1` bytes of a buffer after Backspace at `c`, read pointwise,
are the bytes before `c - 1` followed by the bytes from `c` up to `n`. -/
theorem take_delete_eq (old r : List Nat) (n c : Nat) (hc : 0 < c) (hcn : c ≤ n)
    (hold : n < old.length)
    (hget : ∀ j, r[j]? = if c - 1 ≤ j ∧ j < n then old[j + 1]? else old[j]?) :
    r.take (n - 1) = old.take (c - 1) ++ (old.drop c).take (n - c) := by
  apply List.ext_getElem?
  intro j
  have hlc : (old.take (c - 1)).length = c - 1 := by
    rw [List.length_take]; omega
  rw [List.getElem?_take]
  by_cases hj : j < c - 1
  · have h1 : j < n - 1 := by omega
    have h2 : ¬ (c - 1 ≤ j ∧ j < n) := by omega
    rw [if_pos h1, hget j, if_neg h2, List.getElem?_append_left (by rw [hlc]; exact hj),
      List.getElem?_take, if_pos hj]
  · rw [List.getElem?_append_right (by rw [hlc]; omega), hlc, List.getElem?_take]
    by_cases hjn : j < n - 1
    · have h2 : c - 1 ≤ j ∧ j < n := by omega
      have h3 : j - (c - 1) < n - c := by omega
      rw [if_pos hjn, hget j, if_pos h2, if_pos h3, List.getElem?_drop]
      congr 1
      omega
    · have h3 : ¬ (j - (c - 1) < n - c) := by omega
      rw [if_neg hjn, if_neg h3]

/-- C21: for every active buffer (a 64-byte array) with
`0 ≤ cursor = c ≤ size = s ≤ 63`, in NEW view (`new_entry_buf`) and in EDIT view
(`edit_entry_buf`): with `c > 0` Backspace removes the byte at
index `c - 1`, the first `s - 1` bytes becoming `old[0..c-1)` followed by
`old[c..s)`, with cursor `c - 1` and size `s - 1` (the byte at index `s - 1`
becomes `old[s]` and the later bytes stay); with `c = 0` the state is unchanged.
Nothing else changes and no store call is made. -/
theorem C21_backspace (s : State) (d1 d2 : Nat)
    (hlen : (active_buf s).buf.length = 64)
    (h0 : 0 ≤ (active_buf s).buf_cursor)
    (hcs : (active_buf s).buf_cursor ≤ (active_buf s).buf_size)
    (hs : (active_buf s).buf_size ≤ 63) :
    ((active_buf s).buf_cursor = 0 →
      step s { c0 := 127, c1 := d1, c2 := d2 } = Outcome.next s []) ∧
    (0 < (active_buf s).buf_cursor →
      ∃ r, r.length = 64 ∧
        r.take ((active_buf s).buf_size.toNat - 1) =
          (active_buf s).buf.take ((active_buf s).buf_cursor.toNat - 1) ++
            ((active_buf s).buf.drop (active_buf s).buf_cursor.toNat).take
              ((active_buf s).buf_size.toNat - (active_buf s).buf_cursor.toNat) ∧
        r[(active_buf s).buf_size.toNat - 1]? =
          (active_buf s).buf[(active_buf s).buf_size.toNat]? ∧
        (∀ j, (active_buf s).buf_size.toNat ≤ j → r[j]? = (active_buf s).buf[j]?) ∧
        (s.current_view = CurrentView.NEW_ENTRY_VIEW →
          step s { c0 := 127, c1 := d1, c2 := d2 } =
            Outcome.next
              { s with new_entry_buf :=
                { buf := r, buf_size := s.new_entry_buf.buf_size - 1,
                  buf_cursor := s.new_entry_buf.buf_cursor - 1 } } []) ∧
        (s.current_view = CurrentView.EDIT_ENTRY_VIEW →
          step s { c0 := 127, c1 := d1, c2 := d2 } =
            Outcome.next
              { s with edit_entry_buf :=
                { buf := r, buf_size := s.edit_entry_buf.buf_size - 1,
                  buf_cursor := s.edit_entry_buf.buf_cursor - 1 } } [])) := by
  have hstep : step s { c0 := 127, c1 := d1, c2 := d2 } = key_delete s := by
    simp [step]
  obtain ⟨a, ha⟩ := select_buf_some s.current_view
  rw [active_buf_eq s a ha] at hlen h0 hcs hs ⊢
  have hnoop : (select_buf s.current_view).buf_noop = false := by
    cases s.current_view <;> rfl
  rw [hstep]
  constructor
  · intro hzero
    have hcond : ¬ ((get_buf s a).buf_size > 0 ∧ (get_buf s a).buf_cursor > 0) := by omega
    simp only [key_delete, with_buf, hnoop, ha, hcond, if_false, Bool.false_eq_true]
  · intro hpos
    obtain ⟨c, hc⟩ := Int.eq_ofNat_of_zero_le h0
    obtain ⟨n, hn⟩ := Int.eq_ofNat_of_zero_le (le_trans h0 hcs)
    have hc0 : 0 < c := by omega
    have hcn : c ≤ n := by omega
    have hn63 : n ≤ 63 := by omega
    obtain ⟨r, hr, hrlen, hrget⟩ := key_delete_spec s a n c ha hn hc hc0 hcn (by omega)
    simp only [hn, hc, Int.toNat_ofNat]
    refine ⟨r, by omega, take_delete_eq _ r n c hc0 hcn (by omega) hrget, ?_, ?_, ?_, ?_⟩
    · have h2 : c - 1 ≤ n - 1 ∧ n - 1 < n := by omega
      rw [hrget (n - 1), if_pos h2]
      congr 1
      omega
    · intro j hj
      have h2 : ¬ (c - 1 ≤ j ∧ j < n) := by omega
      rw [hrget j, if_neg h2]
    · intro hnew
      rw [hnew] at ha
      cases ha
      simp only [get_buf] at hn hc
      rw [hr, hn, hc]
      rfl
    · intro hedit
      rw [hedit] at ha
      cases ha
      simp only [get_buf] at hn hc
      rw [hr, hn, hc]
      rfl

/-- C21 at the buffer `ab` with the cursor after `a` in NEW view: Backspace
leaves `b`, cursor 0, size 1. -/
theorem C21_backspace_witness :
    ∃ r, r.take 1 = [98] ∧
      step new_view_ab (key 127) =
        Outcome.next
          { new_view_ab with
            new_entry_buf := { buf := r, buf_size := 1, buf_cursor := 0 } } [] := by
  obtain ⟨r, _, h2, _, _, h5, _⟩ :=
    (C21_backspace new_view_ab 0 0 (by decide) (by decide) (by decide) (by decide)).2
      (by decide)
  exact ⟨r, h2, h5 rfl⟩

/-! ## Clearing the previous page -/

/-- The inner clearing loop leaves the entries array as soon as it runs past
its length: iteration `i` accesses `entries[i]`. -/
theorem clear_description_loop_overrun (k : Nat) : ∀ (i : Nat) (es : List Entry),
    i ≤ es.length → es.length < i + k → clear_description_loop k (i : Int) es = none := by
  induction k with
  | zero =>
    intro i es h1 h2
    omega
  | succ k ih =>
    intro i es h1 h2
    simp only [clear_description_loop, rd_cast]
    by_cases hi : i < es.length
    · rw [List.getElem?_eq_getElem hi]
      simp only
      split
      · rfl
      · rename_i d hd
        split
        · rfl
        · rename_i es1 hes1
          have e1 : (i : Int) + 1 = ((i + 1 : Nat) : Int) := by push_cast; ring
          rw [e1]
          exact ih (i + 1) es1 (by rw [wr_length hes1]; omega) (by rw [wr_length hes1]; omega)
    · rw [List.getElem?_eq_none (by omega)]

/-- A reload faults whenever the first entry of the previous page has a
description longer than ten bytes: the inner clearing loop then indexes
`entries[10]`. -/
theorem reload_entries_long_description (s : State) (lr : LoadResult) (e : Entry) (len : Int)
    (hlen : s.entries.length = 10) (hsz : 0 < s.entries_sz)
    (he : rd s.entries 0 = some e) (hstr : strlen e.description = some len)
    (hlong : 10 < len) :
    reload_entries s lr = none := by
  obtain ⟨k, hk⟩ : ∃ k, s.entries_sz.toNat = k + 1 := ⟨s.entries_sz.toNat - 1, by omega⟩
  have hover : ∀ es : List Entry, es.length = 10 →
      clear_description_loop len.toNat 0 es = none := by
    intro es hes
    exact clear_description_loop_overrun len.toNat 0 es (by omega) (by omega)
  simp only [reload_entries, hk, clear_entries_loop, he, hstr]
  split
  · rfl
  · rename_i es1 hes1
    split at hes1
    · cases hes1
    · rename_i es2 hes2
      rw [hover es2 (by rw [wr_length hes2]; exact hlen)] at hes1
      cases hes1

/-- C22 (the code departs from the claim): with the one-entry page
`hello world` (11 bytes) shown, Enter sets the reload flag, and the reload then
clears the previous page with `len = 11`: the inner loop, whose `i` shadows the
outer one, accesses `entries[i]` for `i = 0 .. 10`, and `entries[10]` lies
outside the ten-entry array, so the reload faults.  With ten iterations the
same loop stays inside the array. -/
theorem C22_reload_clear_indexes_past_entries :
    ∃ s s1 call, reload_entries initial_state hello_world_row = some s ∧
      s.entries_sz = 1 ∧ s.entries.length = 10 ∧
      (∃ e, rd s.entries 0 = some e ∧ strlen e.description = some 11) ∧
      step s (key 10) = Outcome.next s1 [call] ∧
      s1.should_reload_entries = true ∧
      (clear_description_loop 10 0 s1.entries).isSome = true ∧
      clear_description_loop 11 0 s1.entries = none ∧
      rd s1.entries 10 = none ∧
      reload_entries s1 hello_world_row = none ∧
      iteration s1 hello_world_row (key 106) = Outcome.fault :=
  ⟨_, _, _, rfl, by decide, by decide, ⟨_, rfl, by decide⟩, rfl, by decide, by decide,
    by decide, by decide, by decide, by decide⟩

theorem strlen_le : ∀ (l : List Nat) (m : Nat), l[m]? = some 0 →
    ∃ len : Nat, len ≤ m ∧ strlen l = some (len : Int)
  | [], m, h => by simp at h
  | x :: xs, m, h => by
    by_cases hx : x = 0
    · exact ⟨0, by omega, by simp [strlen, hx]⟩
    · cases m with
      | zero =>
        simp only [List.getElem?_cons_zero, Option.some.injEq] at h
        exact absurd h hx
      | succ m =>
        simp only [List.getElem?_cons_succ] at h
        obtain ⟨len, h1, h2⟩ := strlen_le xs m h
        exact ⟨len + 1, by omega, by simp [strlen, hx, h2]⟩

theorem shortEntry_set_zero (e : Entry) (j : Nat) (h : ShortEntry e) :
    ShortEntry { e with description := e.description.set j 0 } := by
  obtain ⟨h1, m, hm, hget⟩ := h
  refine ⟨by simpa using h1, m, hm, ?_⟩
  by_cases hj : j = m
  · subst hj
    exact List.getElem?_set_self (by omega)
  · simp only
    rw [List.getElem?_set_ne hj]
    exact hget

theorem shortEntries_set (es : List Entry) (i : Nat) (e : Entry) (h : ShortEntries es)
    (he : ShortEntry e) : ShortEntries (es.set i e) := by
  refine ⟨by simpa using h.1, fun x hx => ?_⟩
  rcases List.mem_or_eq_of_mem_set hx with h1 | h1
  · exact h.2 x h1
  · rw [h1]; exact he

/-- On a page whose descriptions are at most ten bytes long the inner clearing
loop stays inside the arrays for up to ten iterations. -/
theorem clear_description_loop_short (k : Nat) : ∀ (i : Nat) (es : List Entry),
    ShortEntries es → i + k ≤ 10 →
    ∃ es1, clear_description_loop k (i : Int) es = some es1 ∧ ShortEntries es1 := by
  induction k with
  | zero =>
    intro i es h _
    exact ⟨es, rfl, h⟩
  | succ k ih =>
    intro i es h hik
    have hi : i < es.length := by rw [h.1]; omega
    have hd : i < es[i].description.length := by
      rw [(h.2 _ (List.getElem_mem hi)).1]; omega
    have hshort := shortEntries_set es i _ h
      (shortEntry_set_zero es[i] i (h.2 _ (List.getElem_mem hi)))
    obtain ⟨es1, h1, h2⟩ := ih (i + 1) _ hshort (by omega)
    refine ⟨es1, ?_, h2⟩
    have e1 : (i : Int) + 1 = ((i + 1 : Nat) : Int) := by push_cast; ring
    simp only [clear_description_loop, rd_cast, List.getElem?_eq_getElem hi, wr_cast, hd, hi,
      if_true, e1]
    exact h1

/-- On a page whose descriptions are at most ten bytes long the clearing of
lines 282-291 stays inside the arrays. -/
theorem clear_entries_loop_short (k : Nat) : ∀ (i : Nat) (es : List Entry),
    ShortEntries es → i + k ≤ 10 →
    ∃ es1, clear_entries_loop k (i : Int) es = some es1 ∧ ShortEntries es1 := by
  induction k with
  | zero =>
    intro i es h _
    exact ⟨es, rfl, h⟩
  | succ k ih =>
    intro i es h hik
    have hi : i < es.length := by rw [h.1]; omega
    have hei := h.2 _ (List.getElem_mem hi)
    obtain ⟨m, hm, hget⟩ := hei.2
    obtain ⟨len, hlen, hstr⟩ := strlen_le _ m hget
    have hs1 : ShortEntries (es.set i { es[i] with id := 0, completed := 0, ignored := 0 }) :=
      shortEntries_set es i _ h hei
    obtain ⟨es2, hes2, hs2⟩ := clear_description_loop_short len 0 _ hs1 (by omega)
    have hi2 : i < es2.length := by rw [hs2.1]; omega
    have he2 := hs2.2 _ (List.getElem_mem hi2)
    have hd2 : 0 < es2[i].description.length := by rw [he2.1]; omega
    have hs3 := shortEntries_set es2 i _ hs2 (shortEntry_set_zero es2[i] 0 he2)
    obtain ⟨es4, hes4, hs4⟩ := ih (i + 1) _ hs3 (by omega)
    refine ⟨es4, ?_, hs4⟩
    have e1 : (i : Int) + 1 = ((i + 1 : Nat) : Int) := by push_cast; ring
    have hes2' : clear_description_loop (len : Int).toNat 0
        (es.set i { es[i] with id := 0, completed := 0, ignored := 0 }) = some es2 := by
      simpa using hes2
    have hw0 : wr es2[i].description 0 0 = some (es2[i].description.set 0 0) := by
      have := wr_cast es2[i].description 0 0
      simp only [Nat.cast_zero, hd2, if_true] at this
      exact this
    simp only [clear_entries_loop, rd_cast, List.getElem?_eq_getElem hi, wr_cast, hi, if_true,
      hstr, hes2', List.getElem?_eq_getElem hi2, hw0, hi2, e1]
    exact hes4

end Tday
